import Mathlib

set_option linter.unusedVariables false

/-!
# Libnotify registry core (common.c): embedding and verification

The registry of `common.c` is embedded as pure functions on an explicit state.

Conventions of the embedding.

* A C string is the list of its bytes, the terminating NUL left out.
* `uint32_t` quantities are natural numbers; every increment and decrement of the
  source is reduced modulo `2 ^ 32`.
* A name record carries the address `calloc` gave it (`addr`), which identifies the
  allocation as a block identifier does in a block-based memory model: `calloc` returns an
  address that no record of the name table has and that no pointer of the controlled-name
  array holds (`fresh_addr`), so a pointer to a freed record is equal to no pointer to a
  record allocated later, also when both records have the same name.
* The controlled-name array holds pointers to name records (`name_ptr`): the address of
  the record, together with the key under which the record was entered in the name table.
  Two pointers are compared as pointers, never through the records they designate; in
  every registry that the public operations reach, a pointer of the array and the pointer
  to a record of the name table are equal exactly when their addresses are
  (`pointer_eq_iff_addr_eq`), so that the comparison is the comparison of addresses of
  the source.
  Dereferencing a pointer (`name_deref`) yields the record of the name table at that
  address.  A record is freed exactly when it is deleted from the name table, so a
  dereference that finds no record is a read of freed memory; the functions that would
  perform it return `none`.
* The pointer a client record holds to its name record (`name_info`) is represented by
  the key of the record in the name table; dereferencing it is a lookup in the name table,
  and a lookup that fails is again a read of freed memory.
* A pointer to a client record is represented by the `client_id` of that record;
  dereferencing it is a lookup in the client table, and a failing lookup again makes
  the function return `none`.
* `calloc`, `malloc`, `realloc` and `strdup` are taken to succeed; `ns`, `name`, `path`
  and the out-parameters are taken to be non-NULL.
* The mutex is a flag: `lock = none` when the registry has no mutex, `some b` when it
  has one, `b` telling whether it is held.
* The constants of `common.h` and `notify.h` (not among the sources) are parameters,
  collected in `notify_consts`.
-/

namespace Libnotify

/-- Bytes of a NUL-terminated C string, the terminator left out. -/
abbrev cstring := List Nat

/-- The C library function strcmp on byte strings: the sign of the first difference,
the end of a string counting as the smallest byte. -/
def strcmp : cstring → cstring → Int
  | [], [] => 0
  | [], _ :: _ => -1
  | _ :: _, [] => 1
  | a :: as, b :: bs => if a < b then -1 else if b < a then 1 else strcmp as bs

/-- The C library function strncmp: as strcmp, over at most the first n bytes. -/
def strncmp : cstring → cstring → Nat → Int
  | _, _, 0 => 0
  | [], [], _ + 1 => 0
  | [], _ :: _, _ + 1 => -1
  | _ :: _, [], _ + 1 => 1
  | a :: as, b :: bs, n + 1 => if a < b then -1 else if b < a then 1 else strncmp as bs n

/-- Status codes of notify.h.  Modelled from the spec: notify.h is not among the
sources; the spec lists the codes as distinct integer constants with OK equal to 0, so
that a test against 0 in the source is a test against NOTIFY_STATUS_OK. -/
inductive status_t where
  | NOTIFY_STATUS_OK
  | NOTIFY_STATUS_INVALID_NAME
  | NOTIFY_STATUS_INVALID_TOKEN
  | NOTIFY_STATUS_INVALID_FILE
  | NOTIFY_STATUS_NOT_AUTHORIZED
  | NOTIFY_STATUS_FAILED
deriving DecidableEq, Repr

open status_t

/-- Delivery variants of common.h.  Modelled from the spec: common.h is not among the
sources; the spec lists plain, memory-slot, signal, descriptor and port.
NOTIFY_TYPE_NONE stands for the zero that calloc leaves before a registration
sets the field. -/
inductive notify_type_t where
  | NOTIFY_TYPE_NONE
  | NOTIFY_TYPE_PLAIN
  | NOTIFY_TYPE_MEMORY
  | NOTIFY_TYPE_SIGNAL
  | NOTIFY_TYPE_FD
  | NOTIFY_TYPE_PORT
deriving DecidableEq, Repr

open notify_type_t

/-- Numeric constants of common.h, which is not among the sources: they are parameters
of the embedding.  The request bits and shifts are taken small enough for
`req << shift` not to overflow. -/
structure notify_consts where
  NOTIFY_ACCESS_READ : Nat
  NOTIFY_ACCESS_WRITE : Nat
  NOTIFY_ACCESS_OTHER_SHIFT : Nat
  NOTIFY_ACCESS_GROUP_SHIFT : Nat
  NOTIFY_ACCESS_USER_SHIFT : Nat
  NOTIFY_ACCESS_DEFAULT : Nat
  NOTIFY_STATE_USE_LOCKS : Nat
deriving DecidableEq, Repr

/-- Modelled from the spec: the constants as section 6 of the spec lays them out (nine
bits, from the least significant: other read, write, reserved; group read, write,
reserved; user read, write, reserved), with the default the spec describes in words:
user read and write, group read, other read.  The numeral 0x1B3 that the spec gives
beside it is another word, one that also grants write to other; the statements that
depend on the default take it as a parameter. -/
def spec_consts : notify_consts where
  NOTIFY_ACCESS_READ := 1
  NOTIFY_ACCESS_WRITE := 2
  NOTIFY_ACCESS_OTHER_SHIFT := 0
  NOTIFY_ACCESS_GROUP_SHIFT := 3
  NOTIFY_ACCESS_USER_SHIFT := 6
  NOTIFY_ACCESS_DEFAULT := 201
  NOTIFY_STATE_USE_LOCKS := 1

/-- The name record name_info_t.  client_list holds the subscribed client records,
each given by its client_id; addr is the address of the record (0 for the first record
that is allocated). -/
structure name_info_t where
  name : cstring
  uid : Nat
  gid : Nat
  access : Nat
  slot : Nat
  refcount : Nat
  val : Nat
  state : Nat
  client_list : List Nat
  addr : Nat := 0
deriving DecidableEq, Repr

/-- A pointer to a name record, as the controlled-name array holds it: the address of the
record, with the key under which the record was entered in the name table. -/
structure name_ptr where
  name : cstring
  addr : Nat
deriving DecidableEq, Repr

/-- The pointer to the record n of the name table. -/
def ptr_of (n : name_info_t) : name_ptr where
  name := n.name
  addr := n.addr

/-- The record client_info_t.  name_info is the pointer to the name record (none for
NULL); msg is the message buffer of a port client, given by its remote port. -/
structure client_info_t where
  name_info : Option cstring
  notify_type : notify_type_t
  lastval : Nat
  session : Nat
  pid : Int
  sig : Nat
  fd : Int
  token : Nat
  msg : Option Nat
deriving DecidableEq, Repr

/-- The record client_t. -/
structure client_t where
  client_id : Nat
  info : client_info_t
deriving DecidableEq, Repr

/-- The registry notify_state_t.  controlled_name is the array of pointers to the
controlled name records; controlled_name_count is its length. -/
structure notify_state_t where
  flags : Nat
  lock : Option Bool
  name_table : List name_info_t
  client_table : List client_t
  client_id : Nat
  free_client_list : List Nat
  controlled_name : List name_ptr
  sock : Int
deriving DecidableEq, Repr

/-- What a post hands to the transports. -/
inductive delivery_t where
  | kill (pid : Int) (sig : Nat)
  | write (client_id : Nat) (fd : Int) (token : Nat)
  | close (fd : Int)
  | mach_msg (port : Nat) (token : Nat)
deriving DecidableEq, Repr

/-- A client_info_t as calloc returns it. -/
def calloc_client_info : client_info_t where
  name_info := none
  notify_type := NOTIFY_TYPE_NONE
  lastval := 0
  session := 0
  pid := 0
  sig := 0
  fd := 0
  token := 0
  msg := none

/-! ## Tables and lists (table.c) -/

/-- Modelled from the spec: table.c is not among the sources.  Lookup in the
string-keyed table; the key of a record is its name. -/
def _nc_table_find (t : List name_info_t) (key : cstring) : Option name_info_t :=
  match t with
  | [] => none
  | n :: rest => if n.name = key then some n else _nc_table_find rest key

/-- Modelled from the spec: table.c is not among the sources.  Insertion in the
string-keyed table. -/
def _nc_table_insert (t : List name_info_t) (n : name_info_t) : List name_info_t :=
  n :: t

/-- Modelled from the spec: table.c is not among the sources.  Deletion from the
string-keyed table. -/
def _nc_table_delete (t : List name_info_t) (key : cstring) : List name_info_t :=
  match t with
  | [] => []
  | n :: rest => if n.name = key then _nc_table_delete rest key else n :: _nc_table_delete rest key

/-- Modelled from the spec: table.c is not among the sources.  Lookup in the
integer-keyed table; the key of a record is its client_id. -/
def _nc_table_find_n (t : List client_t) (key : Nat) : Option client_t :=
  match t with
  | [] => none
  | c :: rest => if c.client_id = key then some c else _nc_table_find_n rest key

/-- Modelled from the spec: table.c is not among the sources.  Insertion in the
integer-keyed table. -/
def _nc_table_insert_n (t : List client_t) (c : client_t) : List client_t :=
  c :: t

/-- Modelled from the spec: table.c is not among the sources.  Deletion from the
integer-keyed table. -/
def _nc_table_delete_n (t : List client_t) (key : Nat) : List client_t :=
  match t with
  | [] => []
  | c :: rest => if c.client_id = key then _nc_table_delete_n rest key else c :: _nc_table_delete_n rest key

/-- Modelled from the spec: table.c is not among the sources.  Removal of the first
node that holds the given client from a client list. -/
def _nc_list_find_release (l : List Nat) (c : Nat) : List Nat :=
  match l with
  | [] => []
  | d :: rest => if d = c then rest else d :: _nc_list_find_release rest c

/-- The dereference of a pointer to a name record: the record of the name table that
lies at the address of the pointer; none when there is no such record, the record the
pointer was taken from having been freed. -/
def name_deref (t : List name_info_t) (p : name_ptr) : Option name_info_t :=
  match _nc_table_find t p.name with
  | some n => if n.addr = p.addr then some n else none
  | none => none

/-- A write through a pointer to a name record: the record the pointer designates
(the one a lookup of its name finds) takes the new contents. -/
def name_store (t : List name_info_t) (n : name_info_t) : List name_info_t :=
  match t with
  | [] => []
  | m :: rest => if m.name = n.name then n :: rest else m :: name_store rest n

/-- A write through a pointer to a client record. -/
def client_store (t : List client_t) (c : client_t) : List client_t :=
  match t with
  | [] => []
  | d :: rest => if d.client_id = c.client_id then c :: rest else d :: client_store rest c

/-! ## The mutex -/

/-- The statement `if (ns->lock != NULL) pthread_mutex_lock(ns->lock);`. -/
def mutex_lock (ns : notify_state_t) : notify_state_t :=
  match ns.lock with
  | none => ns
  | some _ => { ns with lock := some true }

/-- The statement `if (ns->lock != NULL) pthread_mutex_unlock(ns->lock);`. -/
def mutex_unlock (ns : notify_state_t) : notify_state_t :=
  match ns.lock with
  | none => ns
  | some _ => { ns with lock := some false }

/-- The function _notify_lib_notify_state_new. -/
def _notify_lib_notify_state_new (k : notify_consts) (flags : Nat) : notify_state_t where
  flags := flags
  lock := if flags &&& k.NOTIFY_STATE_USE_LOCKS ≠ 0 then some false else none
  name_table := []
  client_table := []
  client_id := 0
  free_client_list := []
  controlled_name := []
  sock := -1

/-! ## The client-id allocator -/

/-- The function _internal_client_new: the head of the free list is reused, else the
id counter is incremented; the record gets a fresh client_info_t and enters the client
table. -/
def _internal_client_new (ns : notify_state_t) : notify_state_t × client_t :=
  match ns.free_client_list with
  | x :: rest =>
    let c : client_t := { client_id := x, info := calloc_client_info }
    ({ ns with free_client_list := rest, client_table := _nc_table_insert_n ns.client_table c }, c)
  | [] =>
    let id := (ns.client_id + 1) % 2 ^ 32
    let c : client_t := { client_id := id, info := calloc_client_info }
    ({ ns with client_id := id, client_table := _nc_table_insert_n ns.client_table c }, c)

/-- The insertion loop of _internal_client_release on a non-empty free list: the
nodes with a larger client_id are passed, the new node goes before the first other
node, or at the end. -/
def free_list_insert (x : Nat) : List Nat → List Nat
  | [] => [x]
  | p :: rest => if p > x then p :: free_list_insert x rest else x :: p :: rest

/-- The sweep loop of _internal_client_release: while the head of the free list is the
current id counter, the head is dropped and the counter decremented. -/
def free_list_sweep : List Nat → Nat → List Nat × Nat
  | [], id => ([], id)
  | p :: rest, id =>
    if p = id then free_list_sweep rest ((id + 2 ^ 32 - 1) % 2 ^ 32) else (p :: rest, id)

/-- The function _internal_client_release.  The transport resources released by
_internal_free_client_info lie outside the registry and are not tracked. -/
def _internal_client_release (ns : notify_state_t) (c : client_t) : notify_state_t :=
  let x := c.client_id
  let ns := { ns with client_table := _nc_table_delete_n ns.client_table x }
  if x = ns.client_id then
    let ns := { ns with client_id := (ns.client_id + 2 ^ 32 - 1) % 2 ^ 32 }
    let r := free_list_sweep ns.free_client_list ns.client_id
    { ns with free_client_list := r.1, client_id := r.2 }
  else
    match ns.free_client_list with
    | [] => { ns with free_client_list := [x] }
    | p :: rest =>
      let ns := { ns with free_client_list := free_list_insert x (p :: rest) }
      let r := free_list_sweep ns.free_client_list ns.client_id
      { ns with free_client_list := r.1, client_id := r.2 }

/-! ## Names and access control -/

/-- The address calloc returns for a new name record: an address that no record of the
name table has and that no pointer of the controlled-name array holds, the least one
above them all. -/
def fresh_addr (ns : notify_state_t) : Nat :=
  (ns.name_table.map (fun n => n.addr) ++ ns.controlled_name.map (fun q => q.addr)).foldr
    (fun a m => max (a + 1) m) 0

/-- The function _internal_new_name. -/
def _internal_new_name (k : notify_consts) (ns : notify_state_t) (name : cstring) :
    notify_state_t × name_info_t :=
  let n : name_info_t :=
    { name := name, uid := 0, gid := 0, access := k.NOTIFY_ACCESS_DEFAULT,
      slot := 2 ^ 32 - 1, refcount := 0, val := 1, state := 0, client_list := [],
      addr := fresh_addr ns }
  ({ ns with name_table := _nc_table_insert ns.name_table n }, n)

/-- The loop of _internal_check_controlled_access over the controlled names from
index i on. -/
def check_controlled_loop (k : notify_consts) (ns : notify_state_t) (name : cstring)
    (uid gid req : Nat) : List name_ptr → Option status_t
  | [] => some NOTIFY_STATUS_OK
  | q :: rest =>
    match name_deref ns.name_table q with
    | none => none
    | some p =>
      if strcmp p.name name = 0 then check_controlled_loop k ns name uid gid req rest
      else if p.name.length ≥ name.length then check_controlled_loop k ns name uid gid req rest
      else if strncmp p.name name p.name.length ≠ 0 then
        check_controlled_loop k ns name uid gid req rest
      else if p.uid = uid ∧ p.access &&& (req <<< k.NOTIFY_ACCESS_USER_SHIFT) ≠ 0 then
        some NOTIFY_STATUS_OK
      else if p.gid = gid ∧ p.access &&& (req <<< k.NOTIFY_ACCESS_GROUP_SHIFT) ≠ 0 then
        some NOTIFY_STATUS_OK
      else if p.access &&& (req <<< k.NOTIFY_ACCESS_OTHER_SHIFT) ≠ 0 then
        some NOTIFY_STATUS_OK
      else some NOTIFY_STATUS_NOT_AUTHORIZED

/-- The function _internal_check_controlled_access. -/
def _internal_check_controlled_access (k : notify_consts) (ns : notify_state_t)
    (name : cstring) (uid gid req : Nat) : Option status_t :=
  if uid = 0 then some NOTIFY_STATUS_OK
  else check_controlled_loop k ns name uid gid req ns.controlled_name

/-- The function _internal_check_access; n is the record the pointer designates. -/
def _internal_check_access (k : notify_consts) (ns : notify_state_t) (n : name_info_t)
    (uid gid req : Nat) : Option status_t :=
  if uid = 0 then some NOTIFY_STATUS_OK
  else
    match _internal_check_controlled_access k ns n.name uid gid req with
    | none => none
    | some status =>
      if status ≠ NOTIFY_STATUS_OK then some status
      else if n.uid = uid ∧ n.access &&& (req <<< k.NOTIFY_ACCESS_USER_SHIFT) ≠ 0 then
        some NOTIFY_STATUS_OK
      else if n.gid = gid ∧ n.access &&& (req <<< k.NOTIFY_ACCESS_GROUP_SHIFT) ≠ 0 then
        some NOTIFY_STATUS_OK
      else if n.access &&& (req <<< k.NOTIFY_ACCESS_OTHER_SHIFT) ≠ 0 then
        some NOTIFY_STATUS_OK
      else some NOTIFY_STATUS_NOT_AUTHORIZED

/-! ## Delivery and post -/

/-- The function _internal_send.  wr is the outcome of the write system call for a
client: true when all four bytes were written. -/
def _internal_send (wr : Nat → Bool) (c : client_t) : client_t × List delivery_t :=
  match c.info.notify_type with
  | NOTIFY_TYPE_SIGNAL => (c, [delivery_t.kill c.info.pid c.info.sig])
  | NOTIFY_TYPE_FD =>
    if c.info.fd ≥ 0 then
      if wr c.client_id then (c, [delivery_t.write c.client_id c.info.fd c.info.token])
      else ({ c with info := { c.info with fd := -1 } },
        [delivery_t.write c.client_id c.info.fd c.info.token, delivery_t.close c.info.fd])
    else (c, [])
  | NOTIFY_TYPE_PORT =>
    match c.info.msg with
    | none => (c, [])
    | some port => (c, [delivery_t.mach_msg port c.info.token])
  | _ => (c, [])

/-- The delivery loop of _notify_lib_post over a client list. -/
def post_loop (wr : Nat → Bool) (ct : List client_t) :
    List Nat → Option (List client_t × List delivery_t)
  | [] => some (ct, [])
  | cid :: rest =>
    match _nc_table_find_n ct cid with
    | none => none
    | some c =>
      let r := _internal_send wr c
      match post_loop wr (client_store ct r.1) rest with
      | none => none
      | some (ct2, ev) => some (ct2, r.2 ++ ev)

/-- The function _notify_lib_post. -/
def _notify_lib_post (k : notify_consts) (wr : Nat → Bool) (ns : notify_state_t)
    (name : cstring) (uid gid : Nat) : Option (status_t × notify_state_t × List delivery_t) :=
  let ns := mutex_lock ns
  match _nc_table_find ns.name_table name with
  | none => some (NOTIFY_STATUS_INVALID_NAME, mutex_unlock ns, [])
  | some n =>
    match _internal_check_access k ns n uid gid k.NOTIFY_ACCESS_WRITE with
    | none => none
    | some auth =>
      if auth ≠ NOTIFY_STATUS_OK then some (NOTIFY_STATUS_NOT_AUTHORIZED, mutex_unlock ns, [])
      else
        let n := { n with val := (n.val + 1) % 2 ^ 32 }
        let ns := { ns with name_table := name_store ns.name_table n }
        match post_loop wr ns.client_table n.client_list with
        | none => none
        | some (ct, ev) =>
          some (NOTIFY_STATUS_OK, mutex_unlock { ns with client_table := ct }, ev)

/-! ## Cancellation -/

/-- The function _internal_cancel. -/
def _internal_cancel (ns : notify_state_t) (cid : Nat) : Option notify_state_t :=
  if cid = 0 then some ns
  else
    match _nc_table_find_n ns.client_table cid with
    | none => some ns
    | some c =>
      match c.info.name_info with
      | none => some ns
      | some np =>
        match _nc_table_find ns.name_table np with
        | none => none
        | some n =>
          let n := { n with refcount := (n.refcount + 2 ^ 32 - 1) % 2 ^ 32 }
          let n := { n with client_list := _nc_list_find_release n.client_list c.client_id }
          let ns := { ns with name_table := name_store ns.name_table n }
          let ns := _internal_client_release ns c
          if n.refcount = 0 then
            some { ns with name_table := _nc_table_delete ns.name_table n.name }
          else some ns

/-- The function _notify_lib_cancel. -/
def _notify_lib_cancel (ns : notify_state_t) (cid : Nat) : Option notify_state_t :=
  match _internal_cancel (mutex_lock ns) cid with
  | none => none
  | some ns1 => some (mutex_unlock ns1)

/-- The inner loop of the traversal of _notify_lib_cancel_session: the clients of one
client list whose session is t are put in front of the list x. -/
def session_collect_list (ct : List client_t) (t : Nat) :
    List Nat → List Nat → Option (List Nat)
  | [], x => some x
  | cid :: rest, x =>
    match _nc_table_find_n ct cid with
    | none => none
    | some c =>
      if c.info.session = t then session_collect_list ct t rest (c.client_id :: x)
      else session_collect_list ct t rest x

/-- The traversal of the name table in _notify_lib_cancel_session.  Modelled from the
spec: table.c is not among the sources; the traversal visits each entry once, here in
the order of the list. -/
def session_collect (ct : List client_t) (t : Nat) :
    List name_info_t → List Nat → Option (List Nat)
  | [], x => some x
  | n :: rest, x =>
    match session_collect_list ct t n.client_list x with
    | none => none
    | some x1 => session_collect ct t rest x1

/-- The second loop of _notify_lib_cancel_session: each collected client is
cancelled. -/
def session_cancel_all : notify_state_t → List Nat → Option notify_state_t
  | ns, [] => some ns
  | ns, cid :: rest =>
    match _internal_cancel ns cid with
    | none => none
    | some ns1 => session_cancel_all ns1 rest

/-- The function _notify_lib_cancel_session. -/
def _notify_lib_cancel_session (ns : notify_state_t) (t : Nat) : Option notify_state_t :=
  let ns := mutex_lock ns
  match session_collect ns.client_table t ns.name_table [] with
  | none => none
  | some x =>
    match session_cancel_all ns x with
    | none => none
    | some ns1 => some (mutex_unlock ns1)

/-! ## Check, peek, state and value -/

/-- The function _notify_lib_check; check is the out-parameter, given with the value
it has before the call. -/
def _notify_lib_check (ns : notify_state_t) (cid : Nat) (check : Int) :
    Option (status_t × notify_state_t × Int) :=
  if cid = 0 then some (NOTIFY_STATUS_INVALID_TOKEN, ns, check)
  else
    let ns := mutex_lock ns
    match _nc_table_find_n ns.client_table cid with
    | none => some (NOTIFY_STATUS_INVALID_TOKEN, mutex_unlock ns, check)
    | some c =>
      match c.info.name_info with
      | none => some (NOTIFY_STATUS_INVALID_TOKEN, mutex_unlock ns, check)
      | some np =>
        match _nc_table_find ns.name_table np with
        | none => none
        | some n =>
          if n.val = c.info.lastval then some (NOTIFY_STATUS_OK, mutex_unlock ns, 0)
          else
            let c := { c with info := { c.info with lastval := n.val } }
            let ns := { ns with client_table := client_store ns.client_table c }
            some (NOTIFY_STATUS_OK, mutex_unlock ns, 1)

/-- The function _notify_lib_peek; val is the out-parameter, an int. -/
def _notify_lib_peek (ns : notify_state_t) (cid : Nat) (val : Int) :
    Option (status_t × notify_state_t × Int) :=
  if cid = 0 then some (NOTIFY_STATUS_INVALID_TOKEN, ns, val)
  else
    let ns := mutex_lock ns
    match _nc_table_find_n ns.client_table cid with
    | none => some (NOTIFY_STATUS_INVALID_TOKEN, mutex_unlock ns, val)
    | some c =>
      match c.info.name_info with
      | none => some (NOTIFY_STATUS_INVALID_TOKEN, mutex_unlock ns, val)
      | some np =>
        match _nc_table_find ns.name_table np with
        | none => none
        | some n =>
          some (NOTIFY_STATUS_OK, mutex_unlock ns,
            if n.val < 2 ^ 31 then (n.val : Int) else (n.val : Int) - 2 ^ 32)

/-- The function _notify_lib_get_state; the out-parameter is zeroed first. -/
def _notify_lib_get_state (ns : notify_state_t) (cid : Nat) :
    Option (status_t × notify_state_t × Nat) :=
  if cid = 0 then some (NOTIFY_STATUS_INVALID_TOKEN, ns, 0)
  else
    let ns := mutex_lock ns
    match _nc_table_find_n ns.client_table cid with
    | none => some (NOTIFY_STATUS_INVALID_TOKEN, mutex_unlock ns, 0)
    | some c =>
      match c.info.name_info with
      | none => some (NOTIFY_STATUS_INVALID_TOKEN, mutex_unlock ns, 0)
      | some np =>
        match _nc_table_find ns.name_table np with
        | none => none
        | some n => some (NOTIFY_STATUS_OK, mutex_unlock ns, n.state)

/-- The function _notify_lib_set_state; state is a uint64_t. -/
def _notify_lib_set_state (k : notify_consts) (ns : notify_state_t) (cid : Nat) (state : Nat)
    (uid gid : Nat) : Option (status_t × notify_state_t) :=
  if cid = 0 then some (NOTIFY_STATUS_INVALID_TOKEN, ns)
  else
    let ns := mutex_lock ns
    match _nc_table_find_n ns.client_table cid with
    | none => some (NOTIFY_STATUS_INVALID_TOKEN, mutex_unlock ns)
    | some c =>
      match c.info.name_info with
      | none => some (NOTIFY_STATUS_INVALID_TOKEN, mutex_unlock ns)
      | some np =>
        match _nc_table_find ns.name_table np with
        | none => none
        | some n =>
          match _internal_check_access k ns n uid gid k.NOTIFY_ACCESS_WRITE with
          | none => none
          | some auth =>
            if auth ≠ NOTIFY_STATUS_OK then
              some (NOTIFY_STATUS_NOT_AUTHORIZED, mutex_unlock ns)
            else
              let n := { n with state := state }
              some (NOTIFY_STATUS_OK,
                mutex_unlock { ns with name_table := name_store ns.name_table n })

/-- The function _notify_lib_get_val; the out-parameter, an int, is zeroed first. -/
def _notify_lib_get_val (ns : notify_state_t) (cid : Nat) :
    Option (status_t × notify_state_t × Int) :=
  if cid = 0 then some (NOTIFY_STATUS_INVALID_TOKEN, ns, 0)
  else
    let ns := mutex_lock ns
    match _nc_table_find_n ns.client_table cid with
    | none => some (NOTIFY_STATUS_INVALID_TOKEN, mutex_unlock ns, 0)
    | some c =>
      match c.info.name_info with
      | none => some (NOTIFY_STATUS_INVALID_TOKEN, mutex_unlock ns, 0)
      | some np =>
        match _nc_table_find ns.name_table np with
        | none => none
        | some n =>
          some (NOTIFY_STATUS_OK, mutex_unlock ns,
            if n.val < 2 ^ 31 then (n.val : Int) else (n.val : Int) - 2 ^ 32)

/-- The function _notify_lib_set_val; val is an int, stored in the uint32_t field. -/
def _notify_lib_set_val (k : notify_consts) (ns : notify_state_t) (cid : Nat) (val : Int)
    (uid gid : Nat) : Option (status_t × notify_state_t) :=
  if cid = 0 then some (NOTIFY_STATUS_INVALID_TOKEN, ns)
  else
    let ns := mutex_lock ns
    match _nc_table_find_n ns.client_table cid with
    | none => some (NOTIFY_STATUS_INVALID_TOKEN, mutex_unlock ns)
    | some c =>
      match c.info.name_info with
      | none => some (NOTIFY_STATUS_INVALID_TOKEN, mutex_unlock ns)
      | some np =>
        match _nc_table_find ns.name_table np with
        | none => none
        | some n =>
          match _internal_check_access k ns n uid gid k.NOTIFY_ACCESS_WRITE with
          | none => none
          | some auth =>
            if auth ≠ NOTIFY_STATUS_OK then
              some (NOTIFY_STATUS_NOT_AUTHORIZED, mutex_unlock ns)
            else
              let n := { n with val := (val % 2 ^ 32).toNat }
              some (NOTIFY_STATUS_OK,
                mutex_unlock { ns with name_table := name_store ns.name_table n })

/-! ## Registration -/

/-- The lookup-or-create opening of the registration functions and of the setters:
`n = _nc_table_find(...); if (n == NULL) n = _internal_new_name(ns, name);`. -/
def find_or_new_name (k : notify_consts) (ns : notify_state_t) (name : cstring) :
    notify_state_t × name_info_t :=
  match _nc_table_find ns.name_table name with
  | some n => (ns, n)
  | none => _internal_new_name k ns name

/-- The common tail of the four registration functions after the reference count is
taken: a client is allocated, its info is filled in by the caller (set), and it is put
in front of the client list of the name. -/
def register_client (ns : notify_state_t) (n : name_info_t)
    (set : client_info_t → client_info_t) : notify_state_t × Nat :=
  let r := _internal_client_new ns
  let c : client_t := { r.2 with info := set { r.2.info with name_info := some n.name } }
  let ns := { r.1 with client_table := client_store r.1.client_table c }
  let n := { n with client_list := c.client_id :: n.client_list }
  ({ ns with name_table := name_store ns.name_table n }, c.client_id)

/-- The function _notify_lib_register_signal.  pid_for_task is the platform call: none
when it fails.  The source returns 0 on that failure. -/
def _notify_lib_register_signal (k : notify_consts) (pid_for_task : Nat → Option Int)
    (ns : notify_state_t) (name : cstring) (task : Nat) (sig : Nat) (uid gid : Nat)
    (out_token : Nat) : Option (status_t × notify_state_t × Nat) :=
  let ns := mutex_lock ns
  let r := find_or_new_name k ns name
  let ns := r.1
  let n := r.2
  match _internal_check_access k ns n uid gid k.NOTIFY_ACCESS_READ with
  | none => none
  | some auth =>
    if auth ≠ NOTIFY_STATUS_OK then
      some (NOTIFY_STATUS_NOT_AUTHORIZED, mutex_unlock ns, out_token)
    else
      match pid_for_task task with
      | none => some (NOTIFY_STATUS_OK, mutex_unlock ns, out_token)
      | some pid =>
        let n := { n with refcount := (n.refcount + 1) % 2 ^ 32 }
        let ns := { ns with name_table := name_store ns.name_table n }
        let r := register_client ns n (fun i =>
          { i with notify_type := NOTIFY_TYPE_SIGNAL, pid := pid, sig := sig, session := task })
        some (NOTIFY_STATUS_OK, mutex_unlock r.1, r.2)

/-- The function _notify_lib_register_file_descriptor.  open_path is the system call
open on the path: a negative result is a failure, and the source then returns without
releasing the mutex. -/
def _notify_lib_register_file_descriptor (k : notify_consts) (open_path : cstring → Int)
    (ns : notify_state_t) (name : cstring) (task : Nat) (path : cstring) (token : Nat)
    (uid gid : Nat) (out_token : Nat) : Option (status_t × notify_state_t × Nat) :=
  let ns := mutex_lock ns
  let r := find_or_new_name k ns name
  let ns := r.1
  let n := r.2
  match _internal_check_access k ns n uid gid k.NOTIFY_ACCESS_READ with
  | none => none
  | some auth =>
    if auth ≠ NOTIFY_STATUS_OK then
      some (NOTIFY_STATUS_NOT_AUTHORIZED, mutex_unlock ns, out_token)
    else
      let fd := open_path path
      if fd < 0 then some (NOTIFY_STATUS_INVALID_FILE, ns, out_token)
      else
        let n := { n with refcount := (n.refcount + 1) % 2 ^ 32 }
        let ns := { ns with name_table := name_store ns.name_table n }
        let r := register_client ns n (fun i =>
          { i with notify_type := NOTIFY_TYPE_FD, fd := fd, token := token, session := task })
        some (NOTIFY_STATUS_OK, mutex_unlock r.1, r.2)

/-- The function _notify_lib_register_mach_port. -/
def _notify_lib_register_mach_port (k : notify_consts) (ns : notify_state_t) (name : cstring)
    (task : Nat) (port : Nat) (token : Nat) (uid gid : Nat) (out_token : Nat) :
    Option (status_t × notify_state_t × Nat) :=
  let ns := mutex_lock ns
  let r := find_or_new_name k ns name
  let ns := r.1
  let n := r.2
  match _internal_check_access k ns n uid gid k.NOTIFY_ACCESS_READ with
  | none => none
  | some auth =>
    if auth ≠ NOTIFY_STATUS_OK then
      some (NOTIFY_STATUS_NOT_AUTHORIZED, mutex_unlock ns, out_token)
    else
      let n := { n with refcount := (n.refcount + 1) % 2 ^ 32 }
      let ns := { ns with name_table := name_store ns.name_table n }
      let r := register_client ns n (fun i =>
        { i with notify_type := NOTIFY_TYPE_PORT, msg := some port, token := token,
                 session := task })
      some (NOTIFY_STATUS_OK, mutex_unlock r.1, r.2)

/-- The function _notify_lib_register_plain; the slot `(uint32_t)-1` is 2^32 - 1. -/
def _notify_lib_register_plain (k : notify_consts) (ns : notify_state_t) (name : cstring)
    (task : Nat) (slot : Nat) (uid gid : Nat) (out_token : Nat) :
    Option (status_t × notify_state_t × Nat) :=
  let ns := mutex_lock ns
  let r := find_or_new_name k ns name
  let ns := r.1
  let n := r.2
  match _internal_check_access k ns n uid gid k.NOTIFY_ACCESS_READ with
  | none => none
  | some auth =>
    if auth ≠ NOTIFY_STATUS_OK then
      some (NOTIFY_STATUS_NOT_AUTHORIZED, mutex_unlock ns, out_token)
    else
      let n := { n with refcount := (n.refcount + 1) % 2 ^ 32 }
      let n := if slot ≠ 2 ^ 32 - 1 then { n with slot := slot } else n
      let ns := { ns with name_table := name_store ns.name_table n }
      let r := register_client ns n (fun i =>
        { i with notify_type := if slot = 2 ^ 32 - 1 then NOTIFY_TYPE_PLAIN
                                else NOTIFY_TYPE_MEMORY,
                 session := task })
      some (NOTIFY_STATUS_OK, mutex_unlock r.1, r.2)

/-! ## Controlled names, owner and access -/

/-- The second and third loops of _internal_insert_controlled_name: the pointer n, to
a record of the name table with the name n.name, goes before the first entry whose name
is smaller under strcmp, or at the end. -/
def controlled_insert (ns : notify_state_t) (n : name_ptr) :
    List name_ptr → Option (List name_ptr)
  | [] => some [n]
  | q :: rest =>
    match name_deref ns.name_table q with
    | none => none
    | some p =>
      if strcmp n.name p.name > 0 then some (n :: q :: rest)
      else
        match controlled_insert ns n rest with
        | none => none
        | some l => some (q :: l)

/-- The function _internal_insert_controlled_name; n is the pointer to the record.  The
first loop compares the pointers. -/
def _internal_insert_controlled_name (ns : notify_state_t) (n : name_ptr) :
    Option notify_state_t :=
  if n ∈ ns.controlled_name then some ns
  else
    match controlled_insert ns n ns.controlled_name with
    | none => none
    | some l => some { ns with controlled_name := l }

/-- The function _notify_lib_set_owner. -/
def _notify_lib_set_owner (k : notify_consts) (ns : notify_state_t) (name : cstring)
    (uid gid : Nat) : Option (status_t × notify_state_t) :=
  let ns := mutex_lock ns
  let r : notify_state_t × name_info_t :=
    match _nc_table_find ns.name_table name with
    | some n => (ns, n)
    | none =>
      let r := _internal_new_name k ns name
      let n := { r.2 with access := k.NOTIFY_ACCESS_DEFAULT,
                          refcount := (r.2.refcount + 1) % 2 ^ 32 }
      ({ r.1 with name_table := name_store r.1.name_table n }, n)
  let n := { r.2 with uid := uid, gid := gid }
  let ns := { r.1 with name_table := name_store r.1.name_table n }
  match _internal_insert_controlled_name ns (ptr_of n) with
  | none => none
  | some ns1 => some (NOTIFY_STATUS_OK, mutex_unlock ns1)

/-- The loop of _notify_lib_get_owner and of _notify_lib_get_access over the
controlled names: the first entry that is the name itself or a proper leading part of
it; the flag tells whether the mutex is released on that return (it is not when the
entry is the name itself in _notify_lib_get_owner). -/
def controlled_lookup (ns : notify_state_t) (name : cstring) :
    List name_ptr → Option (Option (name_info_t × Bool))
  | [] => some none
  | q :: rest =>
    match name_deref ns.name_table q with
    | none => none
    | some n =>
      if strcmp n.name name = 0 then some (some (n, false))
      else if n.name.length ≥ name.length then controlled_lookup ns name rest
      else if strncmp n.name name n.name.length ≠ 0 then controlled_lookup ns name rest
      else some (some (n, true))

/-- The function _notify_lib_get_owner; uid and gid are the out-parameters. -/
def _notify_lib_get_owner (ns : notify_state_t) (name : cstring) :
    Option (status_t × notify_state_t × Nat × Nat) :=
  let ns := mutex_lock ns
  match _nc_table_find ns.name_table name with
  | some n => some (NOTIFY_STATUS_OK, mutex_unlock ns, n.uid, n.gid)
  | none =>
    match controlled_lookup ns name ns.controlled_name with
    | none => none
    | some (some (n, unlocks)) =>
      some (NOTIFY_STATUS_OK, if unlocks then mutex_unlock ns else ns, n.uid, n.gid)
    | some none => some (NOTIFY_STATUS_OK, mutex_unlock ns, 0, 0)

/-- The function _notify_lib_set_access. -/
def _notify_lib_set_access (k : notify_consts) (ns : notify_state_t) (name : cstring)
    (mode : Nat) : Option (status_t × notify_state_t) :=
  let ns := mutex_lock ns
  let r : notify_state_t × name_info_t :=
    match _nc_table_find ns.name_table name with
    | some n => (ns, n)
    | none =>
      let r := _internal_new_name k ns name
      let n := { r.2 with refcount := (r.2.refcount + 1) % 2 ^ 32 }
      ({ r.1 with name_table := name_store r.1.name_table n }, n)
  let n := { r.2 with access := mode }
  let ns := { r.1 with name_table := name_store r.1.name_table n }
  match _internal_insert_controlled_name ns (ptr_of n) with
  | none => none
  | some ns1 => some (NOTIFY_STATUS_OK, mutex_unlock ns1)

/-- The function _notify_lib_get_access; mode is the out-parameter. -/
def _notify_lib_get_access (k : notify_consts) (ns : notify_state_t) (name : cstring) :
    Option (status_t × notify_state_t × Nat) :=
  let ns := mutex_lock ns
  match _nc_table_find ns.name_table name with
  | some n => some (NOTIFY_STATUS_OK, mutex_unlock ns, n.access)
  | none =>
    match controlled_lookup ns name ns.controlled_name with
    | none => none
    | some (some (n, _)) => some (NOTIFY_STATUS_OK, mutex_unlock ns, n.access)
    | some none => some (NOTIFY_STATUS_OK, mutex_unlock ns, k.NOTIFY_ACCESS_DEFAULT)

/-- The removal loop of _notify_lib_release_name: the first entry equal to the pointer
is taken out, the later entries move down; the pointers are compared, the records are
not read. -/
def controlled_remove (n : name_ptr) : List name_ptr → List name_ptr
  | [] => []
  | q :: rest => if q = n then rest else q :: controlled_remove n rest

/-- The function _notify_lib_release_name. -/
def _notify_lib_release_name (ns : notify_state_t) (name : cstring) (uid gid : Nat) :
    Option (status_t × notify_state_t) :=
  let ns := mutex_lock ns
  match _nc_table_find ns.name_table name with
  | none => some (NOTIFY_STATUS_INVALID_NAME, mutex_unlock ns)
  | some n =>
    if n.uid ≠ uid ∧ uid ≠ 0 then some (NOTIFY_STATUS_NOT_AUTHORIZED, mutex_unlock ns)
    else
      let ns := { ns with controlled_name := controlled_remove (ptr_of n) ns.controlled_name }
      let n := { n with refcount := (n.refcount + 2 ^ 32 - 1) % 2 ^ 32 }
      let ns := { ns with name_table := name_store ns.name_table n }
      if n.refcount = 0 then
        some (NOTIFY_STATUS_OK,
          mutex_unlock { ns with name_table := _nc_table_delete ns.name_table n.name })
      else some (NOTIFY_STATUS_OK, mutex_unlock ns)

/-! ## Notions of the specification -/

/-- The user / group / other rule of the access check: the record p grants the request
req to the caller (uid, gid). -/
def grants (k : notify_consts) (p : name_info_t) (uid gid req : Nat) : Prop :=
  (p.uid = uid ∧ p.access &&& (req <<< k.NOTIFY_ACCESS_USER_SHIFT) ≠ 0) ∨
  (p.gid = gid ∧ p.access &&& (req <<< k.NOTIFY_ACCESS_GROUP_SHIFT) ≠ 0) ∨
  p.access &&& (req <<< k.NOTIFY_ACCESS_OTHER_SHIFT) ≠ 0

instance (k : notify_consts) (p : name_info_t) (uid gid req : Nat) :
    Decidable (grants k p uid gid req) := by
  unfold grants; infer_instance

/-- The string p is a proper leading part of the string name: name is p followed by at
least one more byte. -/
def proper_lead (p name : cstring) : Prop :=
  ∃ t, t ≠ [] ∧ name = p ++ t

/-- Reverse lexicographic order without duplicates of a list of pointers to name
records: the name of each entry is greater under strcmp than the name of every later
entry. -/
def reverse_sorted (l : List name_ptr) : Prop :=
  List.Pairwise (fun a b => strcmp a.name b.name > 0) l

instance (l : List name_ptr) : Decidable (reverse_sorted l) := by
  unfold reverse_sorted; infer_instance

/-- The controlled name q is the longest controlled name that is a proper leading part
of name. -/
def longest_controlled_lead (ns : notify_state_t) (name : cstring) (q : name_ptr) : Prop :=
  q ∈ ns.controlled_name ∧ proper_lead q.name name ∧
    ∀ q2 ∈ ns.controlled_name, proper_lead q2.name name → q2.name.length ≤ q.name.length

/-- The client id is live: it is in the client table. -/
def live (ns : notify_state_t) (id : Nat) : Prop :=
  (_nc_table_find_n ns.client_table id).isSome

instance (ns : notify_state_t) (id : Nat) : Decidable (live ns id) := by
  unfold live; infer_instance

/-- The invariant of the client-id allocator: the free list is strictly decreasing, no
id on it is live, every live id lies in 1..client_id, and every id in 1..client_id is
live or on the free list. -/
def allocator_inv (ns : notify_state_t) : Prop :=
  List.Pairwise (fun a b => a > b) ns.free_client_list ∧
  (∀ x ∈ ns.free_client_list, ¬ live ns x) ∧
  (∀ id, live ns id → 1 ≤ id ∧ id ≤ ns.client_id) ∧
  (∀ id, 1 ≤ id → id ≤ ns.client_id → live ns id ∨ id ∈ ns.free_client_list)

/-- The public operations, each with its arguments and with the outcomes of the system
calls it makes. -/
inductive op_t where
  | register_plain (name : cstring) (task slot uid gid out_token : Nat)
  | register_signal (pid_for_task : Nat → Option Int) (name : cstring)
      (task sig uid gid out_token : Nat)
  | register_file_descriptor (open_path : cstring → Int) (name : cstring) (task : Nat)
      (path : cstring) (token uid gid out_token : Nat)
  | register_mach_port (name : cstring) (task port token uid gid out_token : Nat)
  | cancel (cid : Nat)
  | cancel_session (t : Nat)
  | post (wr : Nat → Bool) (name : cstring) (uid gid : Nat)
  | check (cid : Nat) (check : Int)
  | peek (cid : Nat) (val : Int)
  | get_state (cid : Nat)
  | set_state (cid state uid gid : Nat)
  | get_val (cid : Nat)
  | set_val (cid : Nat) (val : Int) (uid gid : Nat)
  | set_owner (name : cstring) (uid gid : Nat)
  | get_owner (name : cstring)
  | set_access (name : cstring) (mode : Nat)
  | get_access (name : cstring)
  | release_name (name : cstring) (uid gid : Nat)

/-- The registry after a public operation; none when the operation dereferences a
pointer to a freed record. -/
def op_step (k : notify_consts) (o : op_t) (ns : notify_state_t) : Option notify_state_t :=
  match o with
  | .register_plain name task slot uid gid out_token =>
    (_notify_lib_register_plain k ns name task slot uid gid out_token).map (fun r => r.2.1)
  | .register_signal pid_for_task name task sig uid gid out_token =>
    (_notify_lib_register_signal k pid_for_task ns name task sig uid gid out_token).map
      (fun r => r.2.1)
  | .register_file_descriptor open_path name task path token uid gid out_token =>
    (_notify_lib_register_file_descriptor k open_path ns name task path token uid gid
      out_token).map (fun r => r.2.1)
  | .register_mach_port name task port token uid gid out_token =>
    (_notify_lib_register_mach_port k ns name task port token uid gid out_token).map
      (fun r => r.2.1)
  | .cancel cid => _notify_lib_cancel ns cid
  | .cancel_session t => _notify_lib_cancel_session ns t
  | .post wr name uid gid => (_notify_lib_post k wr ns name uid gid).map (fun r => r.2.1)
  | .check cid check => (_notify_lib_check ns cid check).map (fun r => r.2.1)
  | .peek cid val => (_notify_lib_peek ns cid val).map (fun r => r.2.1)
  | .get_state cid => (_notify_lib_get_state ns cid).map (fun r => r.2.1)
  | .set_state cid state uid gid =>
    (_notify_lib_set_state k ns cid state uid gid).map (fun r => r.2)
  | .get_val cid => (_notify_lib_get_val ns cid).map (fun r => r.2.1)
  | .set_val cid val uid gid => (_notify_lib_set_val k ns cid val uid gid).map (fun r => r.2)
  | .set_owner name uid gid => (_notify_lib_set_owner k ns name uid gid).map (fun r => r.2)
  | .get_owner name => (_notify_lib_get_owner ns name).map (fun r => r.2.1)
  | .set_access name mode => (_notify_lib_set_access k ns name mode).map (fun r => r.2)
  | .get_access name => (_notify_lib_get_access k ns name).map (fun r => r.2.1)
  | .release_name name uid gid => (_notify_lib_release_name ns name uid gid).map (fun r => r.2)

/-- The operation is one of the four registrations. -/
def op_t.is_register : op_t → Bool
  | .register_plain .. => true
  | .register_signal .. => true
  | .register_file_descriptor .. => true
  | .register_mach_port .. => true
  | _ => false

/-- The operation is cancel or cancel_session. -/
def op_t.is_cancel : op_t → Bool
  | .cancel .. => true
  | .cancel_session .. => true
  | _ => false

/-- The registries reachable from a new registry by operations that the predicate
allowed admits in the state they are applied to. -/
inductive reachable (k : notify_consts) (allowed : op_t → notify_state_t → Prop) :
    notify_state_t → Prop where
  | new (flags : Nat) : reachable k allowed (_notify_lib_notify_state_new k flags)
  | step (ns ns1 : notify_state_t) (o : op_t) :
      reachable k allowed ns → allowed o ns → op_step k o ns = some ns1 →
      reachable k allowed ns1

/-- The sequences of C4: registrations and cancellations. -/
def register_or_cancel (o : op_t) (_ : notify_state_t) : Prop :=
  o.is_register = true ∨ o.is_cancel = true

/-- Registrations and cancellations in which the id counter does not wrap: every
registration starts with client_id below 2^32 - 1. -/
def register_or_cancel_no_wrap (o : op_t) (ns : notify_state_t) : Prop :=
  (o.is_register = true ∧ ns.client_id < 2 ^ 32 - 1) ∨ o.is_cancel = true

/-- The allocator invariant on a set of live ids, a counter and a free list, with the
bounds that make it inductive: the ids on the free list lie in 1..next-1 and the
counter is a 32-bit value. -/
def alloc_ok (lv : Nat → Prop) (next : Nat) (free : List Nat) : Prop :=
  List.Pairwise (fun a b => a > b) free ∧
  (∀ x ∈ free, ¬ lv x) ∧
  (∀ id, lv id → 1 ≤ id ∧ id ≤ next) ∧
  (∀ id, 1 ≤ id → id ≤ next → lv id ∨ id ∈ free) ∧
  (∀ x ∈ free, 1 ≤ x ∧ x < next) ∧
  next < 2 ^ 32

/-- The state of the allocator before the sweep: as alloc_ok, but the head of the free
list may be the counter itself. -/
def alloc_pre (lv : Nat → Prop) (next : Nat) (free : List Nat) : Prop :=
  List.Pairwise (fun a b => a > b) free ∧
  (∀ x ∈ free, ¬ lv x) ∧
  (∀ id, lv id → 1 ≤ id ∧ id ≤ next) ∧
  (∀ id, 1 ≤ id → id ≤ next → lv id ∨ id ∈ free) ∧
  (∀ x ∈ free, 1 ≤ x ∧ x ≤ next) ∧
  next < 2 ^ 32

/-- The inductive form of the allocator invariant on a registry. -/
def allocator_inv_strong (ns : notify_state_t) : Prop :=
  alloc_ok (live ns) ns.client_id ns.free_client_list

/-- The reference-count invariant of the specification: the refcount of every record of
the name table is the length of its client list, plus one when the name is in the
controlled-name list. -/
def refcount_inv (ns : notify_state_t) : Prop :=
  ∀ n ∈ ns.name_table,
    n.refcount = n.client_list.length + (if ptr_of n ∈ ns.controlled_name then 1 else 0)

instance (ns : notify_state_t) : Decidable (refcount_inv ns) := by
  unfold refcount_inv; infer_instance

/-- The operations of C5: register_plain, cancel, cancel_session, post, set_owner,
set_access and release_name. -/
def refcount_ops (o : op_t) (_ : notify_state_t) : Prop :=
  match o with
  | .register_plain .. => True
  | .cancel .. => True
  | .cancel_session .. => True
  | .post .. => True
  | .set_owner .. => True
  | .set_access .. => True
  | .release_name .. => True
  | _ => False

/-- The registry of the scenario "Basic post/check": the single name A (the byte 65),
owned by (0, 0) with the default access word, and its single plain subscriber, client 1;
val is the counter of the name and lastval the value the client saw last. -/
def registry_A (k : notify_consts) (flags : Nat) (task val lastval : Nat) : notify_state_t where
  flags := flags
  lock := if flags &&& k.NOTIFY_STATE_USE_LOCKS ≠ 0 then some false else none
  name_table := [{ name := [65], uid := 0, gid := 0, access := k.NOTIFY_ACCESS_DEFAULT,
                   slot := 4294967295, refcount := 1, val := val, state := 0,
                   client_list := [1] }]
  client_table := [{ client_id := 1,
                     info := { calloc_client_info with
                       name_info := some [65], notify_type := NOTIFY_TYPE_PLAIN,
                       lastval := lastval, session := task } }]
  client_id := 1
  free_client_list := []
  controlled_name := []
  sock := -1

/-- The name com.x of the scenario "Access hierarchy". -/
def name_com_x : cstring := [99, 111, 109, 46, 120]

/-- The name com.x.child of the scenario "Access hierarchy". -/
def name_com_x_child : cstring := [99, 111, 109, 46, 120, 46, 99, 104, 105, 108, 100]

/-- The registry of the scenario "Access hierarchy" after set_owner and set_access: the
single controlled name com.x, owned by (501, 20), with the given access word. -/
def registry_com_x (k : notify_consts) (flags access : Nat) : notify_state_t where
  flags := flags
  lock := if flags &&& k.NOTIFY_STATE_USE_LOCKS ≠ 0 then some false else none
  name_table := [{ name := name_com_x, uid := 501, gid := 20, access := access,
                   slot := 4294967295, refcount := 1, val := 1, state := 0,
                   client_list := [] }]
  client_table := []
  client_id := 0
  free_client_list := []
  controlled_name := [⟨name_com_x, 0⟩]
  sock := -1

/-- The registries of the scenario "Id recycling": the plain subscribers ids (the most
recent first) of the name A, registered by uid 0, with the given counter and free list;
without subscribers the name table is empty. -/
def registry_ids (k : notify_consts) (flags : Nat) (lock : Option Bool) (task : Nat)
    (ids : List Nat) (client_id : Nat) (free : List Nat) : notify_state_t where
  flags := flags
  lock := lock
  name_table :=
    if ids = [] then []
    else [{ name := [65], uid := 0, gid := 0, access := k.NOTIFY_ACCESS_DEFAULT,
            slot := 4294967295, refcount := ids.length, val := 1, state := 0,
            client_list := ids }]
  client_table := ids.map (fun id =>
    { client_id := id,
      info := { calloc_client_info with
        name_info := some [65], notify_type := NOTIFY_TYPE_PLAIN, session := task } })
  client_id := client_id
  free_client_list := free
  controlled_name := []
  sock := -1

/-- The registry after a plain registration on A (the byte 65) by uid 0, set_owner of A
to (501, 20), the cancellation of the subscriber, which frees the record of A, and a
second plain registration on A by uid 0: the controlled-name list still holds the pointer
to the first record of A, at the address 0, and the name table holds the second record,
at the address 1, with its subscriber 1. -/
def registry_stale : notify_state_t where
  flags := 0
  lock := none
  name_table := [{ name := [65], uid := 0, gid := 0, access := 201, slot := 4294967295,
                   refcount := 1, val := 1, state := 0, client_list := [1], addr := 1 }]
  client_table := [{ client_id := 1,
                     info := { calloc_client_info with
                       name_info := some [65], notify_type := NOTIFY_TYPE_PLAIN,
                       session := 7 } }]
  client_id := 1
  free_client_list := []
  controlled_name := [⟨[65], 0⟩]
  sock := -1

/-- Every public operation is admitted: the sequences of the claims about all
operations. -/
def any_op (_ : op_t) (_ : notify_state_t) : Prop := True

/-- The id the allocator hands out next: the head of the free list when there is one,
else the counter plus one (modulo 2^32). -/
def next_client_id (ns : notify_state_t) : Nat :=
  match ns.free_client_list with
  | x :: _ => x
  | [] => (ns.client_id + 1) % 2 ^ 32

/-- The client that the id designates has the session t. -/
def has_session (ct : List client_t) (t : Nat) (cid : Nat) : Bool :=
  match _nc_table_find_n ct cid with
  | some c => decide (c.info.session = t)
  | none => false

/-- The registry is consistent in the sense of the data model: the names of the name
table are distinct; the client list of a name holds each client once, its refcount is a
32-bit value not below the length of the list, and each client on the list has a nonzero
id, is in the client table and designates the name; and each client of the client table
is on the client list of the name it designates. -/
def registry_consistent (ns : notify_state_t) : Prop :=
  List.Pairwise (fun a b : name_info_t => a.name ≠ b.name) ns.name_table ∧
  (∀ n ∈ ns.name_table,
    n.client_list.Nodup ∧ n.client_list.length ≤ n.refcount ∧ n.refcount < 2 ^ 32 ∧
    ∀ cid ∈ n.client_list, cid ≠ 0 ∧
      ∃ c, _nc_table_find_n ns.client_table cid = some c ∧ c.info.name_info = some n.name) ∧
  (∀ cid c, _nc_table_find_n ns.client_table cid = some c →
    ∃ n ∈ ns.name_table, c.info.name_info = some n.name ∧ cid ∈ n.client_list)

/-- The record of a name once its clients with an id in the list ids are cancelled:
none when its refcount has thereby reached 0. -/
def cancelled_record (ids : List Nat) (n : name_info_t) : Option name_info_t :=
  if 0 < (n.client_list.filter (fun d => decide (d ∈ ids))).length ∧
      n.refcount = (n.client_list.filter (fun d => decide (d ∈ ids))).length then none
  else
    some { n with
      refcount := n.refcount - (n.client_list.filter (fun d => decide (d ∈ ids))).length,
      client_list := n.client_list.filter (fun d => decide (d ∉ ids)) }

/-- The lookups of the registry ns are those of the registry ns0 once the clients with
an id in the list ids are cancelled. -/
def cancelled_from (ns0 : notify_state_t) (ids : List Nat) (ns : notify_state_t) : Prop :=
  (∀ d, _nc_table_find_n ns.client_table d
      = if d ∈ ids then none else _nc_table_find_n ns0.client_table d) ∧
  (∀ key, _nc_table_find ns.name_table key
      = (_nc_table_find ns0.name_table key).bind (cancelled_record ids))

/-- The registry of the scenario "Session cancel": the name A (the byte 65) with the
plain subscribers 2 and 1 of session 7, and the name B (the byte 66) with the plain
subscribers 5 and 3 of session 8 and 4 of session 7. -/
def registry_sessions : notify_state_t where
  flags := 0
  lock := none
  name_table := [
    { name := [66], uid := 0, gid := 0, access := 201, slot := 4294967295, refcount := 3,
      val := 1, state := 0, client_list := [5, 4, 3], addr := 1 },
    { name := [65], uid := 0, gid := 0, access := 201, slot := 4294967295, refcount := 2,
      val := 1, state := 0, client_list := [2, 1] }]
  client_table := [
    { client_id := 5, info := { calloc_client_info with
        name_info := some [66], notify_type := NOTIFY_TYPE_PLAIN, session := 8 } },
    { client_id := 4, info := { calloc_client_info with
        name_info := some [66], notify_type := NOTIFY_TYPE_PLAIN, session := 7 } },
    { client_id := 3, info := { calloc_client_info with
        name_info := some [66], notify_type := NOTIFY_TYPE_PLAIN, session := 8 } },
    { client_id := 2, info := { calloc_client_info with
        name_info := some [65], notify_type := NOTIFY_TYPE_PLAIN, session := 7 } },
    { client_id := 1, info := { calloc_client_info with
        name_info := some [65], notify_type := NOTIFY_TYPE_PLAIN, session := 7 } }]
  client_id := 5
  free_client_list := []
  controlled_name := []
  sock := -1

/-- The mutex of the registry is held. -/
def lock_held (ns : notify_state_t) : Prop := ns.lock = some true

instance (ns : notify_state_t) : Decidable (lock_held ns) := by
  unfold lock_held; infer_instance

/-- What _internal_send hands to the transports for the client that the id c designates
in the client table ct. -/
def send_events (wr : Nat → Bool) (ct : List client_t) (c : Nat) : List delivery_t :=
  match _nc_table_find_n ct c with
  | some cl => (_internal_send wr cl).2
  | none => []

/-- The dispatcher as section 4.5 of the specification words it, for one subscriber: a
signal subscriber is sent its configured signal at its configured pid; a descriptor
subscriber whose descriptor is not marked invalid has its token written to the
descriptor, and the descriptor is closed when the write fails or is partial, while one
whose descriptor is marked invalid (negative) is handed nothing; a port subscriber is
sent one message with its token; a plain or memory-slot subscriber is handed nothing.
wr is the outcome of the write for a client, as for _internal_send. -/
def dispatch_spec (wr : Nat → Bool) (c : client_t) : List delivery_t :=
  match c.info.notify_type with
  | NOTIFY_TYPE_SIGNAL => [delivery_t.kill c.info.pid c.info.sig]
  | NOTIFY_TYPE_FD =>
    if c.info.fd < 0 then []
    else if wr c.client_id = true then [delivery_t.write c.client_id c.info.fd c.info.token]
    else [delivery_t.write c.client_id c.info.fd c.info.token, delivery_t.close c.info.fd]
  | NOTIFY_TYPE_PORT =>
    match c.info.msg with
    | some port => [delivery_t.mach_msg port c.info.token]
    | none => []
  | NOTIFY_TYPE_PLAIN => []
  | NOTIFY_TYPE_MEMORY => []
  | NOTIFY_TYPE_NONE => []

/-- The record of a subscriber after the dispatcher of the specification has served it:
the descriptor of a descriptor subscriber is marked invalid (-1) when its write failed
or was partial, and nothing else changes. -/
def dispatched_spec (wr : Nat → Bool) (c : client_t) : client_t :=
  if c.info.notify_type = NOTIFY_TYPE_FD ∧ c.info.fd ≥ 0 ∧ wr c.client_id = false then
    { c with info := { c.info with fd := -1 } }
  else c

/-- What the dispatcher of the specification hands to the transports for the client that
the id c designates in the client table ct. -/
def dispatch_events_spec (wr : Nat → Bool) (ct : List client_t) (c : Nat) :
    List delivery_t :=
  match _nc_table_find_n ct c with
  | some cl => dispatch_spec wr cl
  | none => []

/-- The registry of the scenario "Write failure": the name A (the byte 65) with, the most
recent first, the port subscriber 5 (port 77, token 11), the descriptor subscriber 4
(fd 6, token 12), the plain subscriber 3, the signal subscriber 2 (pid 42, signal 30) and
the descriptor subscriber 1, whose fd is given and whose token is 9. -/
def registry_fd (fd : Int) : notify_state_t where
  flags := 0
  lock := none
  name_table := [
    { name := [65], uid := 0, gid := 0, access := 201, slot := 4294967295, refcount := 5,
      val := 1, state := 0, client_list := [5, 4, 3, 2, 1] }]
  client_table := [
    { client_id := 5, info := { calloc_client_info with
        name_info := some [65], notify_type := NOTIFY_TYPE_PORT, msg := some 77,
        token := 11, session := 7 } },
    { client_id := 4, info := { calloc_client_info with
        name_info := some [65], notify_type := NOTIFY_TYPE_FD, fd := 6, token := 12,
        session := 7 } },
    { client_id := 3, info := { calloc_client_info with
        name_info := some [65], notify_type := NOTIFY_TYPE_PLAIN, session := 7 } },
    { client_id := 2, info := { calloc_client_info with
        name_info := some [65], notify_type := NOTIFY_TYPE_SIGNAL, pid := 42, sig := 30,
        session := 7 } },
    { client_id := 1, info := { calloc_client_info with
        name_info := some [65], notify_type := NOTIFY_TYPE_FD, fd := fd, token := 9,
        session := 7 } }]
  client_id := 5
  free_client_list := []
  controlled_name := []
  sock := -1

/-- The val of the record of a name, none when the name is not in the name table. -/
def val_of (t : List name_info_t) (name : cstring) : Option Nat :=
  (_nc_table_find t name).map (fun n => n.val)

/-- The operation is a post to the name that returns OK in the registry ns. -/
def op_t.posts_to (k : notify_consts) (o : op_t) (ns : notify_state_t) (name : cstring) :
    Bool :=
  match o with
  | .post wr nm uid gid =>
    decide (nm = name) &&
      decide ((_notify_lib_post k wr ns nm uid gid).map (fun r => r.1)
        = some NOTIFY_STATUS_OK)
  | _ => false

/-- The operation is a set_val, by a client subscribed to the name, that returns OK in
the registry ns. -/
def op_t.sets_val_of (k : notify_consts) (o : op_t) (ns : notify_state_t) (name : cstring) :
    Bool :=
  match o with
  | .set_val cid val uid gid =>
    decide ((_nc_table_find_n ns.client_table cid).bind (fun c => c.info.name_info)
        = some name) &&
      decide ((_notify_lib_set_val k ns cid val uid gid).map (fun r => r.1)
        = some NOTIFY_STATUS_OK)
  | _ => false

/-- The run of a sequence of public operations from the registry ns, with the number of
the posts to the name that returned OK since the record of the name was created: the
count restarts at 0 at an operation that finds the name absent. -/
def run_counting (k : notify_consts) (name : cstring) :
    List op_t → notify_state_t → Nat → Option (notify_state_t × Nat)
  | [], ns, cnt => some (ns, cnt)
  | o :: rest, ns, cnt =>
    match op_step k o ns with
    | none => none
    | some ns1 =>
      run_counting k name rest ns1
        (if (_nc_table_find ns.name_table name).isNone then 0
         else if o.posts_to k ns name then cnt + 1 else cnt)

/-- No operation of the sequence, run from the registry ns, is a set_val by a client of
the name that returns OK. -/
def no_set_val_on (k : notify_consts) (name : cstring) : List op_t → notify_state_t → Prop
  | [], _ => True
  | o :: rest, ns =>
    o.sets_val_of k ns name = false ∧
      match op_step k o ns with
      | none => True
      | some ns1 => no_set_val_on k name rest ns1

/-- What an operation other than a post or a set_val does to the val of a name, v before
and v1 after: the name is absent afterwards, or the val is as before, or the name was
absent and is created with val 1. -/
def val_step (v v1 : Option Nat) : Prop :=
  v1 = none ∨ v1 = v ∨ (v = none ∧ v1 = some 1)

/-- The address of the record of a name, none when the name is not in the name table. -/
def addr_of (t : List name_info_t) (name : cstring) : Option Nat :=
  (_nc_table_find t name).map (fun n => n.addr)

/-- What a public operation does to the address of the record of a name, v before and v1
after: the name is absent afterwards, or its record is where it was, or the name was
absent, is the name nm the operation creates a record for, and its record is at the
address fresh. -/
def addr_step (fresh : Nat) (nm name : cstring) (v v1 : Option Nat) : Prop :=
  v1 = none ∨ v1 = v ∨ (v = none ∧ name = nm ∧ v1 = some fresh)

/-- The address of a record of the name table determines its name, and a pointer of the
controlled-name list with the address of a record of the name table has the name of that
record. -/
def addr_inv (ns : notify_state_t) : Prop :=
  (∀ name1 name2 a, addr_of ns.name_table name1 = some a →
    addr_of ns.name_table name2 = some a → name1 = name2) ∧
  (∀ q ∈ ns.controlled_name, ∀ name, addr_of ns.name_table name = some q.addr →
    q.name = name)

/-! # Theorems

## The mutex leaves the registry alone -/

@[simp] theorem mutex_lock_name_table (ns : notify_state_t) :
    (mutex_lock ns).name_table = ns.name_table := by
  unfold mutex_lock; cases ns.lock <;> rfl

@[simp] theorem mutex_lock_client_table (ns : notify_state_t) :
    (mutex_lock ns).client_table = ns.client_table := by
  unfold mutex_lock; cases ns.lock <;> rfl

@[simp] theorem mutex_lock_client_id (ns : notify_state_t) :
    (mutex_lock ns).client_id = ns.client_id := by
  unfold mutex_lock; cases ns.lock <;> rfl

@[simp] theorem mutex_lock_free_client_list (ns : notify_state_t) :
    (mutex_lock ns).free_client_list = ns.free_client_list := by
  unfold mutex_lock; cases ns.lock <;> rfl

@[simp] theorem mutex_lock_controlled_name (ns : notify_state_t) :
    (mutex_lock ns).controlled_name = ns.controlled_name := by
  unfold mutex_lock; cases ns.lock <;> rfl

@[simp] theorem mutex_lock_flags (ns : notify_state_t) :
    (mutex_lock ns).flags = ns.flags := by
  unfold mutex_lock; cases ns.lock <;> rfl

@[simp] theorem mutex_lock_sock (ns : notify_state_t) :
    (mutex_lock ns).sock = ns.sock := by
  unfold mutex_lock; cases ns.lock <;> rfl

@[simp] theorem mutex_unlock_name_table (ns : notify_state_t) :
    (mutex_unlock ns).name_table = ns.name_table := by
  unfold mutex_unlock; cases ns.lock <;> rfl

@[simp] theorem mutex_unlock_client_table (ns : notify_state_t) :
    (mutex_unlock ns).client_table = ns.client_table := by
  unfold mutex_unlock; cases ns.lock <;> rfl

@[simp] theorem mutex_unlock_client_id (ns : notify_state_t) :
    (mutex_unlock ns).client_id = ns.client_id := by
  unfold mutex_unlock; cases ns.lock <;> rfl

@[simp] theorem mutex_unlock_free_client_list (ns : notify_state_t) :
    (mutex_unlock ns).free_client_list = ns.free_client_list := by
  unfold mutex_unlock; cases ns.lock <;> rfl

@[simp] theorem mutex_unlock_controlled_name (ns : notify_state_t) :
    (mutex_unlock ns).controlled_name = ns.controlled_name := by
  unfold mutex_unlock; cases ns.lock <;> rfl

@[simp] theorem mutex_unlock_flags (ns : notify_state_t) :
    (mutex_unlock ns).flags = ns.flags := by
  unfold mutex_unlock; cases ns.lock <;> rfl

@[simp] theorem mutex_unlock_sock (ns : notify_state_t) :
    (mutex_unlock ns).sock = ns.sock := by
  unfold mutex_unlock; cases ns.lock <;> rfl

/-! ## Lookups after a write -/

theorem find_name_store (t : List name_info_t) (n : name_info_t) (key : cstring) :
    _nc_table_find (name_store t n) key =
      if key = n.name then (_nc_table_find t key).map (fun _ => n)
      else _nc_table_find t key := by
  induction t with
  | nil => simp [name_store, _nc_table_find]
  | cons m rest ih =>
    by_cases hm : m.name = n.name
    · by_cases hk : key = n.name
      · simp [name_store, _nc_table_find, hm, hk]
      · have : ¬ n.name = key := fun h => hk h.symm
        simp [name_store, _nc_table_find, hm, hk, this]
    · by_cases hk : key = n.name
      · subst hk
        simp [name_store, _nc_table_find, hm, ih]
      · by_cases hmk : m.name = key
        · simp [name_store, _nc_table_find, hm, hk, hmk]
        · simp [name_store, _nc_table_find, hm, hk, hmk, ih]

theorem find_name_eq (t : List name_info_t) (key : cstring) (n : name_info_t)
    (h : _nc_table_find t key = some n) : n.name = key := by
  induction t with
  | nil => simp [_nc_table_find] at h
  | cons m rest ih =>
    by_cases hm : m.name = key
    · simp [_nc_table_find, hm] at h
      rw [← h]; exact hm
    · simp [_nc_table_find, hm] at h
      exact ih h

theorem find_client_store (t : List client_t) (c : client_t) (key : Nat) :
    _nc_table_find_n (client_store t c) key =
      if key = c.client_id then (_nc_table_find_n t key).map (fun _ => c)
      else _nc_table_find_n t key := by
  induction t with
  | nil => simp [client_store, _nc_table_find_n]
  | cons m rest ih =>
    by_cases hm : m.client_id = c.client_id
    · by_cases hk : key = c.client_id
      · simp [client_store, _nc_table_find_n, hm, hk]
      · have : ¬ c.client_id = key := fun h => hk h.symm
        simp [client_store, _nc_table_find_n, hm, hk, this]
    · by_cases hk : key = c.client_id
      · subst hk
        simp [client_store, _nc_table_find_n, hm, ih]
      · by_cases hmk : m.client_id = key
        · simp [client_store, _nc_table_find_n, hm, hk, hmk]
        · simp [client_store, _nc_table_find_n, hm, hk, hmk, ih]

theorem find_client_eq (t : List client_t) (key : Nat) (c : client_t)
    (h : _nc_table_find_n t key = some c) : c.client_id = key := by
  induction t with
  | nil => simp [_nc_table_find_n] at h
  | cons m rest ih =>
    by_cases hm : m.client_id = key
    · simp [_nc_table_find_n, hm] at h
      rw [← h]; exact hm
    · simp [_nc_table_find_n, hm] at h
      exact ih h

/-! ## The access check reads the name table and the controlled names only -/

theorem check_controlled_loop_congr (k : notify_consts) (ns ms : notify_state_t)
    (name : cstring) (uid gid req : Nat) (h : ms.name_table = ns.name_table)
    (l : List name_ptr) :
    check_controlled_loop k ms name uid gid req l
      = check_controlled_loop k ns name uid gid req l := by
  induction l with
  | nil => rfl
  | cons q rest ih => simp only [check_controlled_loop, h, ih]

theorem check_access_congr (k : notify_consts) (ns ms : notify_state_t) (n : name_info_t)
    (uid gid req : Nat) (h : ms.name_table = ns.name_table)
    (hc : ms.controlled_name = ns.controlled_name) :
    _internal_check_access k ms n uid gid req = _internal_check_access k ns n uid gid req := by
  simp only [_internal_check_access, _internal_check_controlled_access, hc,
    check_controlled_loop_congr k ns ms n.name uid gid req h]

@[simp] theorem check_access_mutex_lock (k : notify_consts) (ns : notify_state_t)
    (n : name_info_t) (uid gid req : Nat) :
    _internal_check_access k (mutex_lock ns) n uid gid req
      = _internal_check_access k ns n uid gid req :=
  check_access_congr k ns (mutex_lock ns) n uid gid req (by simp) (by simp)

/-! ## Post -/

theorem send_client_id (wr : Nat → Bool) (c : client_t) :
    (_internal_send wr c).1.client_id = c.client_id := by
  unfold _internal_send
  cases c.info.notify_type <;> simp
  · split <;> [split; skip] <;> rfl
  · cases c.info.msg <;> rfl

theorem send_lastval (wr : Nat → Bool) (c : client_t) :
    (_internal_send wr c).1.info.lastval = c.info.lastval := by
  unfold _internal_send
  cases c.info.notify_type <;> simp
  · split <;> [split; skip] <;> rfl
  · cases c.info.msg <;> rfl

theorem post_loop_spec (wr : Nat → Bool) (l : List Nat) :
    ∀ ct : List client_t, (∀ c ∈ l, (_nc_table_find_n ct c).isSome) →
      ∃ ct2 ev, post_loop wr ct l = some (ct2, ev) ∧
        ∀ key, (_nc_table_find_n ct2 key).map (fun c => c.info.lastval)
          = (_nc_table_find_n ct key).map (fun c => c.info.lastval) := by
  induction l with
  | nil => intro ct _; exact ⟨ct, [], rfl, fun _ => rfl⟩
  | cons cid rest ih =>
    intro ct hl
    have h1 := hl cid (List.mem_cons_self _ _)
    obtain ⟨c, hc⟩ := Option.isSome_iff_exists.mp h1
    have hid := find_client_eq ct cid c hc
    have hlive : ∀ d ∈ rest,
        (_nc_table_find_n (client_store ct (_internal_send wr c).1) d).isSome := by
      intro d hd
      have := hl d (List.mem_cons_of_mem _ hd)
      rw [find_client_store]
      split
      · simpa using this
      · exact this
    obtain ⟨ct2, ev, h2, h3⟩ := ih _ hlive
    refine ⟨ct2, (_internal_send wr c).2 ++ ev, ?_, ?_⟩
    · simp [post_loop, hc, h2]
    · intro key
      rw [h3 key, find_client_store, send_client_id]
      by_cases hk : key = c.client_id
      · have hk2 : key = cid := hk.trans hid
        subst hk2
        simp [hc, send_lastval, hid]
      · simp [hk]

/-- C1: a post to a name present in the name table, by a caller that passes the write
check, returns OK; afterwards the record of the name is the old one with val
incremented modulo 2^32 (state, slot, uid, gid, access, refcount and client_list as
before), every other name is looked up as before, the controlled names and the id
allocator are as before, and every client has its old lastval. -/
theorem post_increments_val (k : notify_consts) (wr : Nat → Bool) (ns : notify_state_t)
    (name : cstring) (uid gid : Nat) (n : name_info_t)
    (hfind : _nc_table_find ns.name_table name = some n)
    (hauth : _internal_check_access k ns n uid gid k.NOTIFY_ACCESS_WRITE
      = some NOTIFY_STATUS_OK)
    (hlive : ∀ c ∈ n.client_list, (_nc_table_find_n ns.client_table c).isSome) :
    ∃ ns1 ev, _notify_lib_post k wr ns name uid gid = some (NOTIFY_STATUS_OK, ns1, ev) ∧
      _nc_table_find ns1.name_table name = some { n with val := (n.val + 1) % 2 ^ 32 } ∧
      (∀ m, m ≠ name → _nc_table_find ns1.name_table m = _nc_table_find ns.name_table m) ∧
      (∀ c, (_nc_table_find_n ns1.client_table c).map (fun d => d.info.lastval)
        = (_nc_table_find_n ns.client_table c).map (fun d => d.info.lastval)) ∧
      ns1.controlled_name = ns.controlled_name ∧ ns1.client_id = ns.client_id ∧
      ns1.free_client_list = ns.free_client_list := by
  obtain ⟨ct, ev, hloop, hlast⟩ := post_loop_spec wr n.client_list ns.client_table hlive
  have hname := find_name_eq _ _ _ hfind
  refine ⟨mutex_unlock { mutex_lock ns with
      name_table := name_store ns.name_table { n with val := (n.val + 1) % 2 ^ 32 },
      client_table := ct }, ev, ?_, ?_, ?_, ?_, ?_, ?_, ?_⟩
  · simp [_notify_lib_post, hfind, hauth, hloop]
  · simp [find_name_store, hname, hfind]
  · intro m hm
    simp [find_name_store, hname, hm]
  · intro c; simpa using hlast c
  · simp
  · simp
  · simp

/-- C1 at a concrete registry: one name with two subscribers, posted to by its owner. -/
theorem post_increments_val_witness :
    ∃ ns1 ev, _notify_lib_post spec_consts (fun _ => true)
        { flags := 0, lock := none,
          name_table := [{ name := [65], uid := 501, gid := 20, access := 201, slot := 3,
                           refcount := 2, val := 4294967295, state := 9,
                           client_list := [2, 1] }],
          client_table := [{ client_id := 2, info := { calloc_client_info with
                               name_info := some [65], lastval := 7 } },
                           { client_id := 1, info := { calloc_client_info with
                               name_info := some [65], lastval := 4294967295 } }],
          client_id := 2, free_client_list := [], controlled_name := [], sock := -1 }
        [65] 501 20 = some (NOTIFY_STATUS_OK, ns1, ev) ∧
      _nc_table_find ns1.name_table [65]
        = some { name := [65], uid := 501, gid := 20, access := 201, slot := 3,
                 refcount := 2, val := 0, state := 9, client_list := [2, 1] } := by
  obtain ⟨ns1, ev, h1, h2, _⟩ := post_increments_val spec_consts (fun _ => true)
    { flags := 0, lock := none,
      name_table := [{ name := [65], uid := 501, gid := 20, access := 201, slot := 3,
                       refcount := 2, val := 4294967295, state := 9,
                       client_list := [2, 1] }],
      client_table := [{ client_id := 2, info := { calloc_client_info with
                           name_info := some [65], lastval := 7 } },
                       { client_id := 1, info := { calloc_client_info with
                           name_info := some [65], lastval := 4294967295 } }],
      client_id := 2, free_client_list := [], controlled_name := [], sock := -1 }
    [65] 501 20
    { name := [65], uid := 501, gid := 20, access := 201, slot := 3,
      refcount := 2, val := 4294967295, state := 9, client_list := [2, 1] }
    (by decide) (by decide) (by decide)
  exact ⟨ns1, ev, h1, h2⟩

/-- C2: a check by a live client (nonzero id) subscribed to a name present in the name
table returns OK; the flag is 1 exactly when the val of the name differs from the
lastval of the client, and 0 otherwise; afterwards the client has lastval equal to val
and is otherwise as before, every other client is looked up as before, and the name
table, the controlled names and the id allocator are as before. -/
theorem check_reports_change (ns : notify_state_t) (cid : Nat) (check : Int) (c : client_t)
    (np : cstring) (n : name_info_t)
    (hcid : cid ≠ 0)
    (hc : _nc_table_find_n ns.client_table cid = some c)
    (hnp : c.info.name_info = some np)
    (hn : _nc_table_find ns.name_table np = some n) :
    ∃ ns1 flag, _notify_lib_check ns cid check = some (NOTIFY_STATUS_OK, ns1, flag) ∧
      (flag = 1 ↔ n.val ≠ c.info.lastval) ∧ (flag = 0 ↔ n.val = c.info.lastval) ∧
      _nc_table_find_n ns1.client_table cid
        = some { c with info := { c.info with lastval := n.val } } ∧
      (∀ d, d ≠ cid → _nc_table_find_n ns1.client_table d = _nc_table_find_n ns.client_table d) ∧
      ns1.name_table = ns.name_table ∧ ns1.controlled_name = ns.controlled_name ∧
      ns1.client_id = ns.client_id ∧ ns1.free_client_list = ns.free_client_list ∧
      ns1.flags = ns.flags ∧ ns1.sock = ns.sock := by
  have hid := find_client_eq _ _ _ hc
  by_cases hv : n.val = c.info.lastval
  · refine ⟨mutex_unlock (mutex_lock ns), 0, ?_, ?_, ?_, ?_, ?_, ?_⟩
    · simp [_notify_lib_check, hcid, hc, hnp, hn, hv]
    · simp [hv]
    · simp [hv]
    · simp [hc, hv]
    · intro d _; simp
    · simp
  · refine ⟨mutex_unlock
        { mutex_lock ns with
          client_table := client_store ns.client_table
            { c with info := { c.info with lastval := n.val } } },
      1, ?_, ?_, ?_, ?_, ?_, ?_⟩
    · simp [_notify_lib_check, hcid, hc, hnp, hn, hv]
    · simp [hv]
    · simp [hv]
    · simp [find_client_store, hid, hc]
    · intro d hd
      simp [find_client_store, hid, hd]
    · simp

/-- C2 at a concrete registry: client 1 saw val 3 last, the name is at val 5. -/
theorem check_reports_change_witness :
    ∃ ns1, _notify_lib_check
        { flags := 0, lock := some false,
          name_table := [{ name := [65], uid := 0, gid := 0, access := 201, slot := 3,
                           refcount := 1, val := 5, state := 0, client_list := [1] }],
          client_table := [{ client_id := 1, info := { calloc_client_info with
                               name_info := some [65], lastval := 3 } }],
          client_id := 1, free_client_list := [], controlled_name := [], sock := -1 }
        1 0 = some (NOTIFY_STATUS_OK, ns1, 1) ∧
      _nc_table_find_n ns1.client_table 1
        = some { client_id := 1, info := { calloc_client_info with
                   name_info := some [65], lastval := 5 } } := by
  obtain ⟨ns1, flag, h1, h2, _, h4, _⟩ := check_reports_change
    { flags := 0, lock := some false,
      name_table := [{ name := [65], uid := 0, gid := 0, access := 201, slot := 3,
                       refcount := 1, val := 5, state := 0, client_list := [1] }],
      client_table := [{ client_id := 1, info := { calloc_client_info with
                           name_info := some [65], lastval := 3 } }],
      client_id := 1, free_client_list := [], controlled_name := [], sock := -1 }
    1 0
    { client_id := 1, info := { calloc_client_info with
        name_info := some [65], lastval := 3 } }
    [65]
    { name := [65], uid := 0, gid := 0, access := 201, slot := 3,
      refcount := 1, val := 5, state := 0, client_list := [1] }
    (by decide) (by decide) (by decide) (by decide)
  have hf : flag = 1 := h2.mpr (by decide)
  subst hf
  exact ⟨ns1, h1, h4⟩

/-! ## Strings -/

theorem strcmp_eq_zero_iff (a : cstring) : ∀ b : cstring, strcmp a b = 0 ↔ a = b := by
  induction a with
  | nil => intro b; cases b <;> simp [strcmp]
  | cons x as ih =>
    intro b
    cases b with
    | nil => simp [strcmp]
    | cons y bs =>
      simp only [strcmp]
      by_cases h1 : x < y
      · simp [h1]; omega
      · by_cases h2 : y < x
        · simp [h1, h2]; omega
        · have : x = y := by omega
          simp [h1, h2, this, ih bs]

theorem strcmp_self_append_le (p t : cstring) : strcmp p (p ++ t) ≤ 0 := by
  induction p with
  | nil => cases t <;> simp [strcmp]
  | cons x ps ih => simpa [strcmp] using ih

theorem strncmp_length_eq_zero_iff (p : cstring) :
    ∀ name : cstring, strncmp p name p.length = 0 ↔ ∃ t, name = p ++ t := by
  induction p with
  | nil => intro name; simp [strncmp]
  | cons x ps ih =>
    intro name
    cases name with
    | nil => simp [strncmp]
    | cons y ns =>
      simp only [List.length_cons, strncmp]
      by_cases h1 : x < y
      · simp [h1]; omega
      · by_cases h2 : y < x
        · simp [h1, h2]; omega
        · have : x = y := by omega
          simp [h1, h2, this, ih ns]

/-- The three tests of the scan that let an entry through are exactly the tests that it
is not a proper leading part of the name. -/
theorem scan_match_iff (p name : cstring) :
    (¬ strcmp p name = 0 ∧ ¬ p.length ≥ name.length ∧ ¬ strncmp p name p.length ≠ 0)
      ↔ proper_lead p name := by
  constructor
  · rintro ⟨_, h2, h3⟩
    have h3 : strncmp p name p.length = 0 := not_not.mp h3
    obtain ⟨t, ht⟩ := (strncmp_length_eq_zero_iff p name).mp h3
    refine ⟨t, ?_, ht⟩
    rintro rfl
    simp at ht
    subst ht
    simp at h2
  · rintro ⟨t, ht, rfl⟩
    refine ⟨?_, ?_, ?_⟩
    · rw [strcmp_eq_zero_iff]
      intro h
      have := congrArg List.length h
      simp at this
      exact ht this
    · have : 0 < t.length := List.length_pos.mpr ht
      simp only [List.length_append]; omega
    · rw [not_not, strncmp_length_eq_zero_iff]
      exact ⟨t, rfl⟩

theorem proper_lead_length {p name : cstring} (h : proper_lead p name) :
    p.length < name.length := by
  obtain ⟨t, ht, rfl⟩ := h
  have : 0 < t.length := List.length_pos.mpr ht
  simp only [List.length_append]; omega

theorem proper_lead_eq_take {p name : cstring} (h : proper_lead p name) :
    p = name.take p.length := by
  obtain ⟨t, _, rfl⟩ := h
  simp

/-- Of two proper leading parts of one name, the one that comes first in reverse
sorted order is the longer. -/
theorem lead_order {q q2 name : cstring} (h1 : proper_lead q name)
    (h2 : proper_lead q2 name) (h : strcmp q q2 > 0) : q2.length ≤ q.length := by
  by_contra hlt
  have hlt : q.length < q2.length := by omega
  have e1 := proper_lead_eq_take h1
  have e2 := proper_lead_eq_take h2
  have : q2 = q ++ q2.drop q.length := by
    have h3 : q = q2.take q.length := by
      rw [e2, List.take_take, min_eq_left (le_of_lt hlt)]
      exact e1
    conv_lhs => rw [← List.take_append_drop q.length q2]
    rw [← h3]
  have h4 := strcmp_self_append_le q (q2.drop q.length)
  rw [← this] at h4
  omega

/-! ## The prefix scan -/

/-- The three tests of the user / group / other rule, as the source chains them. -/
theorem grants_chain (k : notify_consts) (p : name_info_t) (uid gid req : Nat) {α : Type}
    (x y : α) :
    (if p.uid = uid ∧ p.access &&& (req <<< k.NOTIFY_ACCESS_USER_SHIFT) ≠ 0 then x
      else if p.gid = gid ∧ p.access &&& (req <<< k.NOTIFY_ACCESS_GROUP_SHIFT) ≠ 0 then x
      else if p.access &&& (req <<< k.NOTIFY_ACCESS_OTHER_SHIFT) ≠ 0 then x
      else y)
      = if grants k p uid gid req then x else y := by
  by_cases g1 : p.uid = uid ∧ p.access &&& (req <<< k.NOTIFY_ACCESS_USER_SHIFT) ≠ 0
  · have g : grants k p uid gid req := Or.inl g1
    rw [if_pos g1, if_pos g]
  · by_cases g2 : p.gid = gid ∧ p.access &&& (req <<< k.NOTIFY_ACCESS_GROUP_SHIFT) ≠ 0
    · have g : grants k p uid gid req := Or.inr (Or.inl g2)
      rw [if_neg g1, if_pos g2, if_pos g]
    · by_cases g3 : p.access &&& (req <<< k.NOTIFY_ACCESS_OTHER_SHIFT) ≠ 0
      · have g : grants k p uid gid req := Or.inr (Or.inr g3)
        rw [if_neg g1, if_neg g2, if_pos g3, if_pos g]
      · have g : ¬ grants k p uid gid req := by
          rintro (h | h | h)
          · exact g1 h
          · exact g2 h
          · exact g3 h
        rw [if_neg g1, if_neg g2, if_neg g3, if_neg g]

/-- A pointer that designates a record designates the record that a lookup of its key
finds, and that record lies at the address of the pointer. -/
theorem name_deref_some (t : List name_info_t) (q : name_ptr) (p : name_info_t)
    (h : name_deref t q = some p) :
    _nc_table_find t q.name = some p ∧ p.name = q.name ∧ p.addr = q.addr := by
  unfold name_deref at h
  cases hf : _nc_table_find t q.name with
  | none => rw [hf] at h; cases h
  | some n =>
    rw [hf] at h
    by_cases ha : n.addr = q.addr
    · simp only [if_pos ha] at h
      cases h
      exact ⟨rfl, find_name_eq _ _ _ hf, ha⟩
    · simp only [if_neg ha] at h
      cases h

/-- The pointer to a record that a lookup finds designates that record. -/
theorem name_deref_ptr_of (t : List name_info_t) (key : cstring) (n : name_info_t)
    (h : _nc_table_find t key = some n) : name_deref t (ptr_of n) = some n := by
  have e : n.name = key := find_name_eq _ _ _ h
  simp [name_deref, ptr_of, e, h]

/-- The address of a new name record is above the address of every record of the name
table and above every address that the controlled-name list holds. -/
theorem fresh_addr_fresh (ns : notify_state_t) :
    (∀ n ∈ ns.name_table, n.addr < fresh_addr ns) ∧
    (∀ q ∈ ns.controlled_name, q.addr < fresh_addr ns) := by
  have key : ∀ (l : List Nat) (a : Nat), a ∈ l →
      a < l.foldr (fun a m => max (a + 1) m) 0 := by
    intro l
    induction l with
    | nil => intro a ha; cases ha
    | cons b rest ih =>
      intro a ha
      simp only [List.foldr_cons]
      rcases List.mem_cons.mp ha with e | h
      · rw [e]; omega
      · have := ih a h
        omega
  unfold fresh_addr
  constructor
  · intro n hn
    exact key _ _ (List.mem_append_left _ (List.mem_map_of_mem _ hn))
  · intro q hq
    exact key _ _ (List.mem_append_right _ (List.mem_map_of_mem _ hq))

/-- A pointer of the controlled-name list does not designate a record that is created
later: after _internal_new_name its dereference is what it was, or it finds no record
where it found none before. -/
theorem name_deref_new_name_stale (k : notify_consts) (ns : notify_state_t)
    (name : cstring) (q : name_ptr) (hq : q ∈ ns.controlled_name)
    (h : name_deref ns.name_table q = none) :
    name_deref (_internal_new_name k ns name).1.name_table q = none := by
  have hlt := (fresh_addr_fresh ns).2 q hq
  simp only [_internal_new_name, _nc_table_insert, name_deref, _nc_table_find]
  by_cases e : name = q.name
  · have hne : ¬ fresh_addr ns = q.addr := by omega
    simp only [if_pos e, if_neg hne]
  · simp only [if_neg e]
    exact h

/-- The scan over a list of valid controlled names: either no entry is a proper leading
part of the name and the scan allows, or the first entry that is one decides. -/
theorem check_controlled_loop_spec (k : notify_consts) (ns : notify_state_t)
    (name : cstring) (uid gid req : Nat) (l : List name_ptr)
    (hvalid : ∀ q ∈ l, (name_deref ns.name_table q).isSome) :
    ((∀ q ∈ l, ¬ proper_lead q.name name) ∧
        check_controlled_loop k ns name uid gid req l = some NOTIFY_STATUS_OK) ∨
    (∃ l1 q l2 p, l = l1 ++ q :: l2 ∧ (∀ x ∈ l1, ¬ proper_lead x.name name) ∧
        proper_lead q.name name ∧ name_deref ns.name_table q = some p ∧
        check_controlled_loop k ns name uid gid req l
          = some (if grants k p uid gid req then NOTIFY_STATUS_OK
                  else NOTIFY_STATUS_NOT_AUTHORIZED)) := by
  induction l with
  | nil => left; exact ⟨by simp, rfl⟩
  | cons q rest ih =>
    obtain ⟨p, hp⟩ := Option.isSome_iff_exists.mp (hvalid q (List.mem_cons_self _ _))
    have hpq : p.name = q.name := (name_deref_some _ _ _ hp).2.1
    have ih1 := ih (fun x hx => hvalid x (List.mem_cons_of_mem _ hx))
    by_cases hlead : proper_lead q.name name
    · right
      refine ⟨[], q, rest, p, rfl, by simp, hlead, hp, ?_⟩
      obtain ⟨h1, h2, h3⟩ := (scan_match_iff q.name name).mpr hlead
      simp only [check_controlled_loop, hp, hpq, if_neg h1, if_neg h2, if_neg h3]
      rw [grants_chain k p uid gid req]
      by_cases g : grants k p uid gid req
      · rw [if_pos g, if_pos g]
      · rw [if_neg g, if_neg g]
    · have hskip : check_controlled_loop k ns name uid gid req (q :: rest)
          = check_controlled_loop k ns name uid gid req rest := by
        simp only [check_controlled_loop, hp, hpq]
        by_cases h1 : strcmp q.name name = 0
        · simp only [if_pos h1]
        · by_cases h2 : q.name.length ≥ name.length
          · simp only [if_neg h1, if_pos h2]
          · by_cases h3 : strncmp q.name name q.name.length ≠ 0
            · simp only [if_neg h1, if_neg h2, if_pos h3]
            · exact absurd ((scan_match_iff q.name name).mp ⟨h1, h2, h3⟩) hlead
      rcases ih1 with ⟨hno, hres⟩ | ⟨l1, q1, l2, p1, hl, hno, hl1, hp1, hres⟩
      · left
        refine ⟨?_, by rw [hskip, hres]⟩
        intro x hx
        rcases List.mem_cons.mp hx with rfl | hx
        · exact hlead
        · exact hno x hx
      · right
        refine ⟨q :: l1, q1, l2, p1, by simp [hl], ?_, hl1, hp1, by rw [hskip, hres]⟩
        intro x hx
        rcases List.mem_cons.mp hx with rfl | hx
        · exact hlead
        · exact hno x hx

/-- In a reverse sorted list the first proper leading part of a name is the longest. -/
theorem first_lead_longest (ns : notify_state_t) (name : cstring) (l1 l2 : List name_ptr)
    (q : name_ptr) (hl : ns.controlled_name = l1 ++ q :: l2)
    (hsorted : reverse_sorted ns.controlled_name)
    (hno : ∀ x ∈ l1, ¬ proper_lead x.name name) (hq : proper_lead q.name name) :
    longest_controlled_lead ns name q := by
  refine ⟨by simp [hl], hq, ?_⟩
  intro q2 hq2 hlead2
  rw [hl] at hq2
  rcases List.mem_append.mp hq2 with h | h
  · exact absurd hlead2 (hno q2 h)
  · rcases List.mem_cons.mp h with rfl | h
    · exact le_refl _
    · unfold reverse_sorted at hsorted
      rw [hl, List.pairwise_append] at hsorted
      have := (List.pairwise_cons.mp hsorted.2.1).1 q2 h
      exact lead_order hq hlead2 this

/-- Two longest controlled leading parts of one name have the same name. -/
theorem longest_lead_unique (ns : notify_state_t) (name : cstring) (q q2 : name_ptr)
    (h1 : longest_controlled_lead ns name q) (h2 : longest_controlled_lead ns name q2) :
    q.name = q2.name := by
  have a := h1.2.2 q2 h2.1 h2.2.1
  have b := h2.2.2 q h1.1 h1.2.1
  have e : q.name.length = q2.name.length := by omega
  rw [proper_lead_eq_take h1.2.1, proper_lead_eq_take h2.2.1, e]

/-- Two pointers with the same key that both designate a record designate the same
record. -/
theorem name_deref_same_name (t : List name_info_t) (q q2 : name_ptr) (p p2 : name_info_t)
    (e : q.name = q2.name) (h : name_deref t q = some p) (h2 : name_deref t q2 = some p2) :
    p = p2 := by
  have a := (name_deref_some t q p h).1
  have b := (name_deref_some t q2 p2 h2).1
  rw [e, b] at a
  cases a
  rfl

/-- C3: with the controlled names in reverse lexicographic order without duplicates
(and each pointer of the list designating a record of the name table), the access check
on a record n returns OK or NOT_AUTHORIZED, and it returns OK exactly when uid is 0, or
both (a) no controlled name is a proper leading part of the name of n, or the longest
controlled name that is one grants the request by the user / group / other rule, and
(b) n itself grants the request by the same rule. -/
theorem check_access_deepest_decides (k : notify_consts) (ns : notify_state_t)
    (n : name_info_t) (uid gid req : Nat)
    (hsorted : reverse_sorted ns.controlled_name)
    (hvalid : ∀ q ∈ ns.controlled_name, (name_deref ns.name_table q).isSome) :
    ∃ st, _internal_check_access k ns n uid gid req = some st ∧
      (st = NOTIFY_STATUS_OK ∨ st = NOTIFY_STATUS_NOT_AUTHORIZED) ∧
      (st = NOTIFY_STATUS_OK ↔
        uid = 0 ∨
          (((∀ q ∈ ns.controlled_name, ¬ proper_lead q.name n.name) ∨
              ∃ q p, longest_controlled_lead ns n.name q ∧
                name_deref ns.name_table q = some p ∧ grants k p uid gid req) ∧
            grants k n uid gid req)) := by
  by_cases hroot : uid = 0
  · exact ⟨NOTIFY_STATUS_OK, by simp [_internal_check_access, hroot], Or.inl rfl, by simp [hroot]⟩
  · have hself : (if n.uid = uid ∧ n.access &&& (req <<< k.NOTIFY_ACCESS_USER_SHIFT) ≠ 0 then
          some NOTIFY_STATUS_OK
        else if n.gid = gid ∧ n.access &&& (req <<< k.NOTIFY_ACCESS_GROUP_SHIFT) ≠ 0 then
          some NOTIFY_STATUS_OK
        else if n.access &&& (req <<< k.NOTIFY_ACCESS_OTHER_SHIFT) ≠ 0 then
          some NOTIFY_STATUS_OK
        else some NOTIFY_STATUS_NOT_AUTHORIZED)
        = some (if grants k n uid gid req then NOTIFY_STATUS_OK
                else NOTIFY_STATUS_NOT_AUTHORIZED) := by
      rw [grants_chain k n uid gid req]
      by_cases g : grants k n uid gid req
      · rw [if_pos g, if_pos g]
      · rw [if_neg g, if_neg g]
    rcases check_controlled_loop_spec k ns n.name uid gid req ns.controlled_name hvalid with
      ⟨hno, hres⟩ | ⟨l1, q, l2, p, hl, hno, hq, hp, hres⟩
    · refine ⟨if grants k n uid gid req then NOTIFY_STATUS_OK
          else NOTIFY_STATUS_NOT_AUTHORIZED, ?_, ?_, ?_⟩
      · simp only [_internal_check_access, _internal_check_controlled_access, if_neg hroot,
          hres, ne_eq, not_true_eq_false, if_false]
        exact hself
      · by_cases g : grants k n uid gid req <;> simp [g]
      · by_cases g : grants k n uid gid req
        · simp only [if_pos g, true_iff]
          exact Or.inr ⟨Or.inl hno, g⟩
        · simp [g, hroot]
    · have hlong := first_lead_longest ns n.name l1 l2 q hl hsorted hno hq
      by_cases gp : grants k p uid gid req
      · rw [if_pos gp] at hres
        refine ⟨if grants k n uid gid req then NOTIFY_STATUS_OK
            else NOTIFY_STATUS_NOT_AUTHORIZED, ?_, ?_, ?_⟩
        · simp only [_internal_check_access, _internal_check_controlled_access, if_neg hroot,
            hres, ne_eq, not_true_eq_false, if_false]
          exact hself
        · by_cases g : grants k n uid gid req <;> simp [g]
        · by_cases g : grants k n uid gid req
          · simp only [if_pos g, true_iff]
            exact Or.inr ⟨Or.inr ⟨q, p, hlong, hp, gp⟩, g⟩
          · simp [g, hroot]
      · rw [if_neg gp] at hres
        refine ⟨NOTIFY_STATUS_NOT_AUTHORIZED, ?_, Or.inr rfl, ?_⟩
        · simp [_internal_check_access, _internal_check_controlled_access, hroot, hres]
        · constructor
          · intro h; cases h
          · rintro (h | ⟨h | ⟨q2, p2, hlong2, hp2, gp2⟩, _⟩)
            · exact absurd h hroot
            · exact absurd hq (h q hlong.1)
            · have e := longest_lead_unique ns n.name q q2 hlong hlong2
              have e2 := name_deref_same_name ns.name_table q q2 p p2 e hp hp2
              subst e2
              exact absurd gp2 gp

/-- C3 at a concrete registry: the controlled names are com.x.y (owner 501, read
granted to other) and com.x (owner 501, nothing granted to other); a read of
com.x.y.z by uid 502 is allowed, the shallower com.x is not consulted. -/
theorem check_access_deepest_decides_witness :
    reverse_sorted [⟨[99, 111, 109, 46, 120, 46, 121], 1⟩, ⟨[99, 111, 109, 46, 120], 0⟩] ∧
    _internal_check_access spec_consts
      { flags := 0, lock := none,
        name_table := [
          { name := [99, 111, 109, 46, 120, 46, 121, 46, 122], uid := 0, gid := 0,
            access := 201, slot := 4294967295, refcount := 1, val := 1, state := 0,
            client_list := [], addr := 2 },
          { name := [99, 111, 109, 46, 120, 46, 121], uid := 501, gid := 20,
            access := 201, slot := 4294967295, refcount := 1, val := 1, state := 0,
            client_list := [], addr := 1 },
          { name := [99, 111, 109, 46, 120], uid := 501, gid := 20,
            access := 192, slot := 4294967295, refcount := 1, val := 1, state := 0,
            client_list := [] }],
        client_table := [], client_id := 0, free_client_list := [],
        controlled_name := [⟨[99, 111, 109, 46, 120, 46, 121], 1⟩,
          ⟨[99, 111, 109, 46, 120], 0⟩],
        sock := -1 }
      { name := [99, 111, 109, 46, 120, 46, 121, 46, 122], uid := 0, gid := 0,
        access := 201, slot := 4294967295, refcount := 1, val := 1, state := 0,
        client_list := [], addr := 2 }
      502 21 spec_consts.NOTIFY_ACCESS_READ = some NOTIFY_STATUS_OK := by
  refine ⟨by decide, ?_⟩
  obtain ⟨st, h1, _, _⟩ := check_access_deepest_decides spec_consts
      { flags := 0, lock := none,
        name_table := [
          { name := [99, 111, 109, 46, 120, 46, 121, 46, 122], uid := 0, gid := 0,
            access := 201, slot := 4294967295, refcount := 1, val := 1, state := 0,
            client_list := [], addr := 2 },
          { name := [99, 111, 109, 46, 120, 46, 121], uid := 501, gid := 20,
            access := 201, slot := 4294967295, refcount := 1, val := 1, state := 0,
            client_list := [], addr := 1 },
          { name := [99, 111, 109, 46, 120], uid := 501, gid := 20,
            access := 192, slot := 4294967295, refcount := 1, val := 1, state := 0,
            client_list := [] }],
        client_table := [], client_id := 0, free_client_list := [],
        controlled_name := [⟨[99, 111, 109, 46, 120, 46, 121], 1⟩,
          ⟨[99, 111, 109, 46, 120], 0⟩],
        sock := -1 }
      { name := [99, 111, 109, 46, 120, 46, 121, 46, 122], uid := 0, gid := 0,
        access := 201, slot := 4294967295, refcount := 1, val := 1, state := 0,
        client_list := [], addr := 2 }
      502 21 spec_consts.NOTIFY_ACCESS_READ (by decide) (by decide)
  have e : some st = some NOTIFY_STATUS_OK := h1.symm.trans (by decide)
  rw [h1, e]

/-! ## The client-id allocator -/

theorem find_n_delete (t : List client_t) (key id : Nat) :
    _nc_table_find_n (_nc_table_delete_n t key) id
      = if id = key then none else _nc_table_find_n t id := by
  induction t with
  | nil => simp [_nc_table_delete_n, _nc_table_find_n]
  | cons c rest ih =>
    by_cases hc : c.client_id = key
    · by_cases hi : id = key
      · subst hi
        simp [_nc_table_delete_n, _nc_table_find_n, hc, ih]
      · have : ¬ key = id := fun h => hi h.symm
        simp [_nc_table_delete_n, _nc_table_find_n, hc, hi, ih, this]
    · by_cases hi : id = key
      · subst hi
        simp [_nc_table_delete_n, _nc_table_find_n, hc, ih]
      · by_cases hci : c.client_id = id
        · simp [_nc_table_delete_n, _nc_table_find_n, hc, hi, hci]
        · simp [_nc_table_delete_n, _nc_table_find_n, hc, hi, hci, ih]

theorem find_n_insert (t : List client_t) (c : client_t) (id : Nat) :
    _nc_table_find_n (_nc_table_insert_n t c) id
      = if c.client_id = id then some c else _nc_table_find_n t id := by
  simp [_nc_table_insert_n, _nc_table_find_n]

theorem mem_free_list_insert (x y : Nat) (l : List Nat) :
    y ∈ free_list_insert x l ↔ y = x ∨ y ∈ l := by
  induction l with
  | nil => simp [free_list_insert]
  | cons p rest ih =>
    by_cases h : p > x
    · simp [free_list_insert, h, ih]; tauto
    · simp [free_list_insert, h]

theorem pairwise_free_list_insert (x : Nat) (l : List Nat)
    (hs : List.Pairwise (fun a b => a > b) l) (hx : x ∉ l) :
    List.Pairwise (fun a b => a > b) (free_list_insert x l) := by
  induction l with
  | nil => simp [free_list_insert]
  | cons p rest ih =>
    have hp := List.pairwise_cons.mp hs
    by_cases h : p > x
    · simp only [free_list_insert, h, if_true]
      refine List.pairwise_cons.mpr ⟨?_, ih hp.2 (fun hm => hx (List.mem_cons_of_mem _ hm))⟩
      intro y hy
      rcases (mem_free_list_insert x y rest).mp hy with rfl | hy
      · exact h
      · exact hp.1 y hy
    · simp only [free_list_insert, h, if_false]
      have hne : x ≠ p := fun e => hx (e ▸ List.mem_cons_self _ _)
      have hxp : x > p := by omega
      refine List.pairwise_cons.mpr ⟨?_, hs⟩
      intro y hy
      rcases List.mem_cons.mp hy with rfl | hy
      · exact hxp
      · have := hp.1 y hy
        omega

/-- The sweep leaves a free list whose ids are all below the counter alone. -/
theorem free_list_sweep_id (free : List Nat) (next : Nat) (h : ∀ x ∈ free, x < next) :
    free_list_sweep free next = (free, next) := by
  cases free with
  | nil => rfl
  | cons p rest =>
    have : p ≠ next := by
      have := h p (List.mem_cons_self _ _)
      omega
    simp [free_list_sweep, this]

/-- The sweep turns the state before it into one that satisfies the invariant. -/
theorem free_list_sweep_ok (lv : Nat → Prop) (free : List Nat) :
    ∀ next, alloc_pre lv next free →
      alloc_ok lv (free_list_sweep free next).2 (free_list_sweep free next).1 := by
  induction free with
  | nil =>
    intro next h
    obtain ⟨h1, h2, h3, h4, h5, h6⟩ := h
    exact ⟨h1, h2, h3, h4, by simp [free_list_sweep], h6⟩
  | cons p rest ih =>
    intro next h
    obtain ⟨h1, h2, h3, h4, h5, h6⟩ := h
    have hp := List.pairwise_cons.mp h1
    have hpb := h5 p (List.mem_cons_self _ _)
    by_cases hpn : p = next
    · subst hpn
      have hdec : (p + 2 ^ 32 - 1) % 2 ^ 32 = p - 1 := by omega
      rw [show free_list_sweep (p :: rest) p
          = free_list_sweep rest ((p + 2 ^ 32 - 1) % 2 ^ 32) from by simp [free_list_sweep],
        hdec]
      apply ih
      refine ⟨hp.2, fun x hx => h2 x (List.mem_cons_of_mem _ hx), ?_, ?_, ?_, by omega⟩
      · intro id hid
        have := h3 id hid
        have hne : id ≠ p := fun e => h2 p (List.mem_cons_self _ _) (e ▸ hid)
        omega
      · intro id h1id hid
        rcases h4 id h1id (by omega) with hl | hm
        · exact Or.inl hl
        · rcases List.mem_cons.mp hm with rfl | hm
          · omega
          · exact Or.inr hm
      · intro x hx
        have := hp.1 x hx
        have := h5 x (List.mem_cons_of_mem _ hx)
        omega
    · rw [show free_list_sweep (p :: rest) next = (p :: rest, next) from by
        simp [free_list_sweep, hpn]]
      refine ⟨h1, h2, h3, h4, ?_, h6⟩
      intro x hx
      have hxb := h5 x hx
      rcases List.mem_cons.mp hx with rfl | hx
      · omega
      · have := hp.1 x hx
        omega

theorem alloc_ok_congr (lv lv2 : Nat → Prop) (next : Nat) (free : List Nat)
    (h : ∀ id, lv2 id ↔ lv id) (hok : alloc_ok lv next free) : alloc_ok lv2 next free := by
  obtain ⟨h1, h2, h3, h4, h5, h6⟩ := hok
  refine ⟨h1, ?_, ?_, ?_, h5, h6⟩
  · intro x hx hl; exact h2 x hx ((h x).mp hl)
  · intro id hl; exact h3 id ((h id).mp hl)
  · intro id a b
    rcases h4 id a b with hl | hm
    · exact Or.inl ((h id).mpr hl)
    · exact Or.inr hm

theorem allocator_inv_of_strong (ns : notify_state_t) (h : allocator_inv_strong ns) :
    allocator_inv ns :=
  ⟨h.1, h.2.1, h.2.2.1, h.2.2.2.1⟩

/-- The registry the source creates satisfies the allocator invariant. -/
theorem allocator_inv_strong_new (k : notify_consts) (flags : Nat) :
    allocator_inv_strong (_notify_lib_notify_state_new k flags) := by
  refine ⟨?_, ?_, ?_, ?_, ?_, ?_⟩ <;>
    simp [_notify_lib_notify_state_new, live, _nc_table_find_n]
  intro id h1 h2
  omega

/-- Reuse of the head of the free list keeps the invariant. -/
theorem alloc_ok_reuse (lv : Nat → Prop) (next x : Nat) (rest : List Nat)
    (hok : alloc_ok lv next (x :: rest)) :
    alloc_ok (fun id => id = x ∨ lv id) next rest := by
  obtain ⟨h1, h2, h3, h4, h5, h6⟩ := hok
  have hp := List.pairwise_cons.mp h1
  have hx := h5 x (List.mem_cons_self _ _)
  refine ⟨hp.2, ?_, ?_, ?_, ?_, h6⟩
  · rintro y hy (rfl | hl)
    · have := hp.1 y hy
      omega
    · exact h2 y (List.mem_cons_of_mem _ hy) hl
  · rintro id (rfl | hl)
    · omega
    · exact h3 id hl
  · intro id a b
    rcases h4 id a b with hl | hm
    · exact Or.inl (Or.inr hl)
    · rcases List.mem_cons.mp hm with rfl | hm
      · exact Or.inl (Or.inl rfl)
      · exact Or.inr hm
  · intro y hy
    exact h5 y (List.mem_cons_of_mem _ hy)

/-- A fresh id keeps the invariant as long as the counter does not wrap. -/
theorem alloc_ok_fresh (lv : Nat → Prop) (next : Nat) (hok : alloc_ok lv next [])
    (hroom : next < 2 ^ 32 - 1) :
    alloc_ok (fun id => id = (next + 1) % 2 ^ 32 ∨ lv id) ((next + 1) % 2 ^ 32) [] := by
  obtain ⟨h1, h2, h3, h4, h5, h6⟩ := hok
  have hid : (next + 1) % 2 ^ 32 = next + 1 := by omega
  rw [hid]
  refine ⟨List.Pairwise.nil, by simp, ?_, ?_, by simp, by omega⟩
  · rintro id (rfl | hl)
    · omega
    · have := h3 id hl
      omega
  · intro id a b
    by_cases e : id = next + 1
    · exact Or.inl (Or.inl e)
    · rcases h4 id a (by omega) with hl | hm
      · exact Or.inl (Or.inr hl)
      · simp at hm

theorem client_new_client_table (ns : notify_state_t) :
    (_internal_client_new ns).1.client_table
      = _nc_table_insert_n ns.client_table (_internal_client_new ns).2 := by
  unfold _internal_client_new; split <;> rfl

theorem client_new_info (ns : notify_state_t) :
    (_internal_client_new ns).2.info = calloc_client_info := by
  unfold _internal_client_new; split <;> rfl

theorem client_new_name_table (ns : notify_state_t) :
    (_internal_client_new ns).1.name_table = ns.name_table := by
  unfold _internal_client_new; split <;> rfl

theorem client_new_controlled_name (ns : notify_state_t) :
    (_internal_client_new ns).1.controlled_name = ns.controlled_name := by
  unfold _internal_client_new; split <;> rfl

theorem client_new_live (ns : notify_state_t) (id : Nat) :
    live (_internal_client_new ns).1 id
      ↔ (id = (_internal_client_new ns).2.client_id ∨ live ns id) := by
  simp only [live, client_new_client_table, find_n_insert]
  by_cases e : (_internal_client_new ns).2.client_id = id
  · simp [e]
  · have e2 : ¬ id = (_internal_client_new ns).2.client_id := fun h => e h.symm
    simp [e, e2]

/-- The allocation keeps the invariant as long as the counter does not wrap. -/
theorem client_new_ok (ns : notify_state_t) (hinv : allocator_inv_strong ns)
    (hroom : ns.client_id < 2 ^ 32 - 1 ∨ ns.free_client_list ≠ []) :
    allocator_inv_strong (_internal_client_new ns).1 := by
  unfold allocator_inv_strong at hinv ⊢
  apply alloc_ok_congr _ _ _ _ (client_new_live ns)
  cases hf : ns.free_client_list with
  | cons x rest =>
    rw [hf] at hinv
    have e1 : (_internal_client_new ns).2.client_id = x := by
      unfold _internal_client_new; rw [hf]
    have e2 : (_internal_client_new ns).1.client_id = ns.client_id := by
      unfold _internal_client_new; rw [hf]
    have e3 : (_internal_client_new ns).1.free_client_list = rest := by
      unfold _internal_client_new; rw [hf]
    rw [e1, e2, e3]
    exact alloc_ok_reuse _ _ _ _ hinv
  | nil =>
    rw [hf] at hinv
    have hroom2 : ns.client_id < 2 ^ 32 - 1 := by
      rcases hroom with h | h
      · exact h
      · exact absurd hf h
    have e1 : (_internal_client_new ns).2.client_id = (ns.client_id + 1) % 2 ^ 32 := by
      unfold _internal_client_new; rw [hf]
    have e2 : (_internal_client_new ns).1.client_id = (ns.client_id + 1) % 2 ^ 32 := by
      unfold _internal_client_new; rw [hf]
    have e3 : (_internal_client_new ns).1.free_client_list = [] := by
      unfold _internal_client_new; rw [hf]
    rw [e1, e2, e3]
    exact alloc_ok_fresh _ _ hinv hroom2

/-- Release of the id that equals the counter: the state before the sweep. -/
theorem alloc_pre_release_top (lv : Nat → Prop) (next : Nat) (free : List Nat)
    (hok : alloc_ok lv next free) (hl : lv next) :
    alloc_pre (fun id => id ≠ next ∧ lv id) ((next + 2 ^ 32 - 1) % 2 ^ 32) free := by
  obtain ⟨h1, h2, h3, h4, h5, h6⟩ := hok
  have hn := h3 next hl
  have hdec : (next + 2 ^ 32 - 1) % 2 ^ 32 = next - 1 := by omega
  rw [hdec]
  refine ⟨h1, ?_, ?_, ?_, ?_, by omega⟩
  · rintro x hx ⟨_, hlx⟩
    exact h2 x hx hlx
  · rintro id ⟨hne, hlx⟩
    have := h3 id hlx
    omega
  · intro id a b
    rcases h4 id a (by omega) with hlx | hm
    · exact Or.inl ⟨by omega, hlx⟩
    · exact Or.inr hm
  · intro x hx
    have := h5 x hx
    omega

/-- Release of an id below the counter: it goes on the free list. -/
theorem alloc_ok_release_mid (lv : Nat → Prop) (next x : Nat) (free : List Nat)
    (hok : alloc_ok lv next free) (hl : lv x) (hne : x ≠ next) :
    alloc_ok (fun id => id ≠ x ∧ lv id) next (free_list_insert x free) := by
  obtain ⟨h1, h2, h3, h4, h5, h6⟩ := hok
  have hx := h3 x hl
  have hnot : x ∉ free := fun hm => h2 x hm hl
  refine ⟨pairwise_free_list_insert x free h1 hnot, ?_, ?_, ?_, ?_, h6⟩
  · rintro y hy ⟨hne2, hly⟩
    rcases (mem_free_list_insert x y free).mp hy with rfl | hy
    · exact hne2 rfl
    · exact h2 y hy hly
  · rintro id ⟨_, hlx⟩
    exact h3 id hlx
  · intro id a b
    by_cases e : id = x
    · exact Or.inr ((mem_free_list_insert x id free).mpr (Or.inl e))
    · rcases h4 id a b with hlx | hm
      · exact Or.inl ⟨e, hlx⟩
      · exact Or.inr ((mem_free_list_insert x id free).mpr (Or.inr hm))
  · intro y hy
    rcases (mem_free_list_insert x y free).mp hy with rfl | hy
    · omega
    · exact h5 y hy

theorem client_release_client_table (ns : notify_state_t) (c : client_t) :
    (_internal_client_release ns c).client_table
      = _nc_table_delete_n ns.client_table c.client_id := by
  unfold _internal_client_release
  simp only
  split
  · rfl
  · split <;> rfl

theorem client_release_name_table (ns : notify_state_t) (c : client_t) :
    (_internal_client_release ns c).name_table = ns.name_table := by
  unfold _internal_client_release
  simp only
  split
  · rfl
  · split <;> rfl

theorem client_release_controlled_name (ns : notify_state_t) (c : client_t) :
    (_internal_client_release ns c).controlled_name = ns.controlled_name := by
  unfold _internal_client_release
  simp only
  split
  · rfl
  · split <;> rfl

theorem client_release_live (ns : notify_state_t) (c : client_t) (id : Nat) :
    live (_internal_client_release ns c) id ↔ (id ≠ c.client_id ∧ live ns id) := by
  simp only [live, client_release_client_table, find_n_delete]
  by_cases e : id = c.client_id <;> simp [e]

/-- The counter and the free list after a release. -/
theorem client_release_alloc (ns : notify_state_t) (c : client_t) :
    ((_internal_client_release ns c).free_client_list,
        (_internal_client_release ns c).client_id)
      = if c.client_id = ns.client_id then
          free_list_sweep ns.free_client_list ((ns.client_id + 2 ^ 32 - 1) % 2 ^ 32)
        else if ns.free_client_list = [] then ([c.client_id], ns.client_id)
        else free_list_sweep (free_list_insert c.client_id ns.free_client_list) ns.client_id := by
  unfold _internal_client_release
  simp only
  by_cases e : c.client_id = ns.client_id
  · rw [if_pos e, if_pos e]
  · rw [if_neg e, if_neg e]
    cases hf : ns.free_client_list with
    | nil => simp
    | cons p rest => simp

/-- A release of a live client keeps the invariant. -/
theorem client_release_ok (ns : notify_state_t) (c : client_t)
    (hinv : allocator_inv_strong ns) (hl : live ns c.client_id) :
    allocator_inv_strong (_internal_client_release ns c) := by
  unfold allocator_inv_strong at hinv ⊢
  apply alloc_ok_congr _ _ _ _ (client_release_live ns c)
  have halloc := client_release_alloc ns c
  have e1 : (_internal_client_release ns c).free_client_list
      = ((_internal_client_release ns c).free_client_list,
          (_internal_client_release ns c).client_id).1 := rfl
  have e2 : (_internal_client_release ns c).client_id
      = ((_internal_client_release ns c).free_client_list,
          (_internal_client_release ns c).client_id).2 := rfl
  rw [e1, e2, halloc]
  by_cases e : c.client_id = ns.client_id
  · rw [if_pos e, e]
    apply free_list_sweep_ok
    exact alloc_pre_release_top _ _ _ hinv (e ▸ hl)
  · rw [if_neg e]
    have hmid := alloc_ok_release_mid _ _ _ _ hinv hl e
    by_cases hf : ns.free_client_list = []
    · rw [if_pos hf]
      rw [hf] at hmid
      exact hmid
    · rw [if_neg hf, free_list_sweep_id _ _ (fun x hx => (hmid.2.2.2.2.1 x hx).2)]
      exact hmid

/-! ## The operations and the allocator -/

theorem allocator_inv_strong_congr (ns ms : notify_state_t)
    (h1 : ms.client_table = ns.client_table) (h2 : ms.client_id = ns.client_id)
    (h3 : ms.free_client_list = ns.free_client_list) (h : allocator_inv_strong ns) :
    allocator_inv_strong ms := by
  unfold allocator_inv_strong live at h ⊢
  rw [h1, h2, h3]
  exact h

theorem isSome_find_client_store (t : List client_t) (c : client_t) (id : Nat) :
    (_nc_table_find_n (client_store t c) id).isSome = (_nc_table_find_n t id).isSome := by
  rw [find_client_store]
  split <;> simp

@[simp] theorem find_or_new_name_client_table (k : notify_consts) (ns : notify_state_t)
    (name : cstring) : (find_or_new_name k ns name).1.client_table = ns.client_table := by
  unfold find_or_new_name; split <;> rfl

@[simp] theorem find_or_new_name_client_id (k : notify_consts) (ns : notify_state_t)
    (name : cstring) : (find_or_new_name k ns name).1.client_id = ns.client_id := by
  unfold find_or_new_name; split <;> rfl

@[simp] theorem find_or_new_name_free_client_list (k : notify_consts) (ns : notify_state_t)
    (name : cstring) :
    (find_or_new_name k ns name).1.free_client_list = ns.free_client_list := by
  unfold find_or_new_name; split <;> rfl

@[simp] theorem find_or_new_name_controlled_name (k : notify_consts) (ns : notify_state_t)
    (name : cstring) :
    (find_or_new_name k ns name).1.controlled_name = ns.controlled_name := by
  unfold find_or_new_name; split <;> rfl

theorem register_client_live (ns : notify_state_t) (n : name_info_t)
    (set : client_info_t → client_info_t) (id : Nat) :
    live (register_client ns n set).1 id ↔ live (_internal_client_new ns).1 id := by
  unfold live register_client
  simp only [isSome_find_client_store]

theorem register_client_inv (ns : notify_state_t) (n : name_info_t)
    (set : client_info_t → client_info_t) (hinv : allocator_inv_strong ns)
    (hroom : ns.client_id < 2 ^ 32 - 1) :
    allocator_inv_strong (register_client ns n set).1 := by
  have h := client_new_ok ns hinv (Or.inl hroom)
  unfold allocator_inv_strong at h ⊢
  exact alloc_ok_congr _ _ _ _ (register_client_live ns n set) h

theorem mutex_unlock_inv (s : notify_state_t) (h : allocator_inv_strong s) :
    allocator_inv_strong (mutex_unlock s) :=
  allocator_inv_strong_congr s _ (by simp) (by simp) (by simp) h

theorem find_or_new_name_inv (k : notify_consts) (ns : notify_state_t) (name : cstring)
    (h : allocator_inv_strong ns) :
    allocator_inv_strong (find_or_new_name k (mutex_lock ns) name).1 :=
  allocator_inv_strong_congr ns _ (by simp) (by simp) (by simp) h

theorem register_tail_inv (s : notify_state_t) (t : List name_info_t) (n : name_info_t)
    (set : client_info_t → client_info_t) (hinv : allocator_inv_strong s)
    (hroom : s.client_id < 2 ^ 32 - 1) :
    allocator_inv_strong (mutex_unlock (register_client { s with name_table := t } n set).1) := by
  apply mutex_unlock_inv
  apply register_client_inv
  · exact allocator_inv_strong_congr s _ rfl rfl rfl hinv
  · exact hroom

theorem register_plain_inv (k : notify_consts) (ns : notify_state_t) (name : cstring)
    (task slot uid gid tok : Nat) (r : status_t × notify_state_t × Nat)
    (h : _notify_lib_register_plain k ns name task slot uid gid tok = some r)
    (hinv : allocator_inv_strong ns) (hroom : ns.client_id < 2 ^ 32 - 1) :
    allocator_inv_strong r.2.1 := by
  unfold _notify_lib_register_plain at h
  simp only at h
  split at h
  · cases h
  · split at h
    · cases h
      exact mutex_unlock_inv _ (find_or_new_name_inv k ns name hinv)
    · cases h
      exact register_tail_inv _ _ _ _ (find_or_new_name_inv k ns name hinv)
        (by simpa using hroom)

theorem register_signal_inv (k : notify_consts) (pid_for_task : Nat → Option Int)
    (ns : notify_state_t) (name : cstring)
    (task sig uid gid tok : Nat) (r : status_t × notify_state_t × Nat)
    (h : _notify_lib_register_signal k pid_for_task ns name task sig uid gid tok = some r)
    (hinv : allocator_inv_strong ns) (hroom : ns.client_id < 2 ^ 32 - 1) :
    allocator_inv_strong r.2.1 := by
  unfold _notify_lib_register_signal at h
  simp only at h
  split at h
  · cases h
  · split at h
    · cases h
      exact mutex_unlock_inv _ (find_or_new_name_inv k ns name hinv)
    · split at h
      · cases h
        exact mutex_unlock_inv _ (find_or_new_name_inv k ns name hinv)
      · cases h
        exact register_tail_inv _ _ _ _ (find_or_new_name_inv k ns name hinv)
          (by simpa using hroom)

theorem register_file_descriptor_inv (k : notify_consts) (open_path : cstring → Int)
    (ns : notify_state_t) (name : cstring) (task : Nat) (path : cstring)
    (token uid gid tok : Nat) (r : status_t × notify_state_t × Nat)
    (h : _notify_lib_register_file_descriptor k open_path ns name task path token uid gid tok
      = some r)
    (hinv : allocator_inv_strong ns) (hroom : ns.client_id < 2 ^ 32 - 1) :
    allocator_inv_strong r.2.1 := by
  unfold _notify_lib_register_file_descriptor at h
  simp only at h
  split at h
  · cases h
  · split at h
    · cases h
      exact mutex_unlock_inv _ (find_or_new_name_inv k ns name hinv)
    · split at h
      · cases h
        exact find_or_new_name_inv k ns name hinv
      · cases h
        exact register_tail_inv _ _ _ _ (find_or_new_name_inv k ns name hinv)
          (by simpa using hroom)

theorem register_mach_port_inv (k : notify_consts) (ns : notify_state_t) (name : cstring)
    (task port token uid gid tok : Nat) (r : status_t × notify_state_t × Nat)
    (h : _notify_lib_register_mach_port k ns name task port token uid gid tok = some r)
    (hinv : allocator_inv_strong ns) (hroom : ns.client_id < 2 ^ 32 - 1) :
    allocator_inv_strong r.2.1 := by
  unfold _notify_lib_register_mach_port at h
  simp only at h
  split at h
  · cases h
  · split at h
    · cases h
      exact mutex_unlock_inv _ (find_or_new_name_inv k ns name hinv)
    · cases h
      exact register_tail_inv _ _ _ _ (find_or_new_name_inv k ns name hinv)
        (by simpa using hroom)

theorem internal_cancel_inv (ns ns1 : notify_state_t) (cid : Nat)
    (h : _internal_cancel ns cid = some ns1) (hinv : allocator_inv_strong ns) :
    allocator_inv_strong ns1 := by
  unfold _internal_cancel at h
  by_cases h0 : cid = 0
  · rw [if_pos h0] at h; cases h; exact hinv
  · rw [if_neg h0] at h
    cases hc : _nc_table_find_n ns.client_table cid with
    | none => rw [hc] at h; cases h; exact hinv
    | some c =>
      rw [hc] at h
      have hlive : live ns c.client_id := by
        unfold live
        rw [find_client_eq _ _ _ hc, hc]
        rfl
      cases hnp : c.info.name_info with
      | none => simp only [hnp] at h; cases h; exact hinv
      | some np =>
        simp only [hnp] at h
        cases hn : _nc_table_find ns.name_table np with
        | none => simp only [hn] at h; cases h
        | some n =>
          simp only [hn] at h
          by_cases hz : (n.refcount + 2 ^ 32 - 1) % 2 ^ 32 = 0
          · rw [if_pos hz] at h
            cases h
            apply allocator_inv_strong_congr (_internal_client_release _ c) _ rfl rfl rfl
            apply client_release_ok
            · exact allocator_inv_strong_congr ns _ rfl rfl rfl hinv
            · exact hlive
          · rw [if_neg hz] at h
            cases h
            apply client_release_ok
            · exact allocator_inv_strong_congr ns _ rfl rfl rfl hinv
            · exact hlive

theorem cancel_inv (ns ns1 : notify_state_t) (cid : Nat)
    (h : _notify_lib_cancel ns cid = some ns1) (hinv : allocator_inv_strong ns) :
    allocator_inv_strong ns1 := by
  unfold _notify_lib_cancel at h
  split at h
  · cases h
  · rename_i ns2 h2
    cases h
    have := internal_cancel_inv _ _ _ h2
      (allocator_inv_strong_congr ns _ (by simp) (by simp) (by simp) hinv)
    exact allocator_inv_strong_congr ns2 _ (by simp) (by simp) (by simp) this

theorem session_cancel_all_inv (l : List Nat) :
    ∀ ns ns1 : notify_state_t, session_cancel_all ns l = some ns1 →
      allocator_inv_strong ns → allocator_inv_strong ns1 := by
  induction l with
  | nil => intro ns ns1 h hinv; simp [session_cancel_all] at h; rw [← h]; exact hinv
  | cons cid rest ih =>
    intro ns ns1 h hinv
    simp only [session_cancel_all] at h
    split at h
    · cases h
    · rename_i ns2 h2
      exact ih ns2 ns1 h (internal_cancel_inv _ _ _ h2 hinv)

theorem cancel_session_inv (ns ns1 : notify_state_t) (t : Nat)
    (h : _notify_lib_cancel_session ns t = some ns1) (hinv : allocator_inv_strong ns) :
    allocator_inv_strong ns1 := by
  unfold _notify_lib_cancel_session at h
  simp only at h
  split at h
  · cases h
  · split at h
    · cases h
    · rename_i ns2 h2
      cases h
      have := session_cancel_all_inv _ _ _ h2
        (allocator_inv_strong_congr ns _ (by simp) (by simp) (by simp) hinv)
      exact allocator_inv_strong_congr ns2 _ (by simp) (by simp) (by simp) this

/-- The allocator invariant, in its inductive form, holds in every registry reachable by
registrations and cancellations in which the id counter does not wrap. -/
theorem allocator_inv_strong_reachable (k : notify_consts) (ns : notify_state_t)
    (h : reachable k register_or_cancel_no_wrap ns) : allocator_inv_strong ns := by
  induction h with
  | new flags => exact allocator_inv_strong_new k flags
  | step ns ns1 o _ hall hstep ih =>
    cases o with
    | register_plain name task slot uid gid tok =>
      have hroom : ns.client_id < 2 ^ 32 - 1 := by
        simpa [register_or_cancel_no_wrap, op_t.is_register, op_t.is_cancel] using hall
      obtain ⟨r, hr, rfl⟩ := Option.map_eq_some'.mp hstep
      exact register_plain_inv k ns name task slot uid gid tok r hr ih hroom
    | register_signal pid_for_task name task sig uid gid tok =>
      have hroom : ns.client_id < 2 ^ 32 - 1 := by
        simpa [register_or_cancel_no_wrap, op_t.is_register, op_t.is_cancel] using hall
      obtain ⟨r, hr, rfl⟩ := Option.map_eq_some'.mp hstep
      exact register_signal_inv k pid_for_task ns name task sig uid gid tok r hr ih hroom
    | register_file_descriptor open_path name task path token uid gid tok =>
      have hroom : ns.client_id < 2 ^ 32 - 1 := by
        simpa [register_or_cancel_no_wrap, op_t.is_register, op_t.is_cancel] using hall
      obtain ⟨r, hr, rfl⟩ := Option.map_eq_some'.mp hstep
      exact register_file_descriptor_inv k open_path ns name task path token uid gid tok r hr
        ih hroom
    | register_mach_port name task port token uid gid tok =>
      have hroom : ns.client_id < 2 ^ 32 - 1 := by
        simpa [register_or_cancel_no_wrap, op_t.is_register, op_t.is_cancel] using hall
      obtain ⟨r, hr, rfl⟩ := Option.map_eq_some'.mp hstep
      exact register_mach_port_inv k ns name task port token uid gid tok r hr ih hroom
    | cancel cid => exact cancel_inv ns ns1 cid hstep ih
    | cancel_session t => exact cancel_session_inv ns ns1 t hstep ih
    | _ => simp [register_or_cancel_no_wrap, op_t.is_register, op_t.is_cancel] at hall

/-- C4, amended: in every registry reachable from a new registry by registrations and
cancellations in which the id counter does not wrap (each registration starts with
client_id below 2^32 - 1), the free list is strictly decreasing, no id on it is live,
every live id lies in 1..client_id, and every id in 1..client_id is live or on the free
list. -/
theorem allocator_inv_reachable_no_wrap (k : notify_consts) (ns : notify_state_t)
    (h : reachable k register_or_cancel_no_wrap ns) : allocator_inv ns :=
  allocator_inv_of_strong ns (allocator_inv_strong_reachable k ns h)

/-- C4, amended, at a concrete registry: after two registrations and the cancellation
of client 1, the free list is [1] and the counter is 2. -/
theorem allocator_inv_reachable_no_wrap_witness :
    allocator_inv
      { flags := 0, lock := none,
        name_table := [{ name := [66], uid := 0, gid := 0, access := 201,
                         slot := 4294967295, refcount := 1, val := 1, state := 0,
                         client_list := [2], addr := 1 }],
        client_table := [{ client_id := 2, info := { calloc_client_info with
                             name_info := some [66], notify_type := NOTIFY_TYPE_PLAIN,
                             session := 7 } }],
        client_id := 2, free_client_list := [1], controlled_name := [], sock := -1 } :=
  allocator_inv_reachable_no_wrap spec_consts _
    (reachable.step _ _ (op_t.cancel 1)
      (reachable.step _ _ (op_t.register_plain [66] 7 4294967295 0 0 0)
        (reachable.step _ _ (op_t.register_plain [65] 7 5 0 0 0)
          (reachable.new 0) (Or.inl ⟨rfl, by decide⟩) rfl)
        (Or.inl ⟨rfl, by decide⟩) rfl)
      (Or.inr rfl) rfl)

/-- The shape of a successful plain registration: the common tail applied to a registry
with the client table and the allocator of the registry before. -/
theorem register_plain_shape (k : notify_consts) (ns : notify_state_t) (name : cstring)
    (task slot uid gid tok : Nat) (r : status_t × notify_state_t × Nat)
    (h : _notify_lib_register_plain k ns name task slot uid gid tok = some r)
    (hok : r.1 = NOTIFY_STATUS_OK) :
    ∃ (s : notify_state_t) (n : name_info_t) (set : client_info_t → client_info_t),
      s.client_table = ns.client_table ∧ s.client_id = ns.client_id ∧
      s.free_client_list = ns.free_client_list ∧
      r.2.1 = mutex_unlock (register_client s n set).1 ∧
      r.2.2 = (register_client s n set).2 := by
  unfold _notify_lib_register_plain at h
  simp only at h
  split at h
  · cases h
  · split at h
    · cases h
      cases hok
    · cases h
      exact ⟨_, _, _, by simp, by simp, by simp, rfl, rfl⟩

/-- A plain registration by uid 0 returns OK. -/
theorem register_plain_root (k : notify_consts) (ns : notify_state_t) (name : cstring)
    (task slot gid tok : Nat) :
    ∃ r, _notify_lib_register_plain k ns name task slot 0 gid tok = some r ∧
      r.1 = NOTIFY_STATUS_OK := by
  unfold _notify_lib_register_plain
  simp [_internal_check_access]

/-- A registration by uid 0 with an empty free list succeeds and takes the next id,
modulo 2^32. -/
theorem register_plain_root_fresh (k : notify_consts) (ns : notify_state_t) (name : cstring)
    (task slot gid tok : Nat) (hf : ns.free_client_list = []) :
    ∃ ns1, _notify_lib_register_plain k ns name task slot 0 gid tok
        = some (NOTIFY_STATUS_OK, ns1, (ns.client_id + 1) % 2 ^ 32) ∧
      ns1.client_id = (ns.client_id + 1) % 2 ^ 32 ∧ ns1.free_client_list = [] ∧
      live ns1 ((ns.client_id + 1) % 2 ^ 32) := by
  obtain ⟨r, hr, hok⟩ := register_plain_root k ns name task slot gid tok
  obtain ⟨s, n, set, h1, h2, h3, h4, h5⟩ :=
    register_plain_shape k ns name task slot 0 gid tok r hr hok
  have hsf : s.free_client_list = [] := h3.trans hf
  have e1 : (_internal_client_new s).2.client_id = (ns.client_id + 1) % 2 ^ 32 := by
    unfold _internal_client_new; rw [hsf, h2]
  have e2 : (_internal_client_new s).1.client_id = (ns.client_id + 1) % 2 ^ 32 := by
    unfold _internal_client_new; rw [hsf, h2]
  have e3 : (_internal_client_new s).1.free_client_list = [] := by
    unfold _internal_client_new; rw [hsf]
  obtain ⟨st, ns1, tok1⟩ := r
  simp only at hok h4 h5
  subst hok
  have htok : tok1 = (ns.client_id + 1) % 2 ^ 32 := by
    rw [h5]; exact e1
  refine ⟨ns1, by rw [hr, htok], ?_, ?_, ?_⟩
  · rw [h4]; simpa [register_client] using e2
  · rw [h4]; simpa [register_client] using e3
  · rw [h4]
    have := (register_client_live s n set ((ns.client_id + 1) % 2 ^ 32)).mpr
      ((client_new_live s _).mpr (Or.inl e1.symm))
    simpa [live] using this

/-- Registrations alone reach a registry with any given counter value and an empty free
list. -/
theorem reachable_counter (n : Nat) (hn : n ≤ 2 ^ 32 - 1) :
    ∃ ns, reachable spec_consts register_or_cancel ns ∧ ns.client_id = n ∧
      ns.free_client_list = [] := by
  induction n with
  | zero => exact ⟨_, reachable.new 0, rfl, rfl⟩
  | succ m ih =>
    obtain ⟨ns, hr, hid, hf⟩ := ih (by omega)
    obtain ⟨ns1, h1, h2, h3, _⟩ :=
      register_plain_root_fresh spec_consts ns [65] 0 4294967295 0 0 hf
    refine ⟨ns1, reachable.step ns ns1 (op_t.register_plain [65] 0 4294967295 0 0 0) hr
      (Or.inl rfl) ?_, ?_, h3⟩
    · simp [op_step, h1]
    · rw [h2, hid]
      omega

/-- C4 as stated fails: after 2^32 - 1 registrations the next one wraps the id counter
to 0, and the client it creates is live with an id outside 1..client_id. -/
theorem allocator_inv_fails_on_wrap :
    ¬ ∀ ns, reachable spec_consts register_or_cancel ns → allocator_inv ns := by
  intro hall
  obtain ⟨ns, hr, hid, hf⟩ := reachable_counter (2 ^ 32 - 1) (le_refl _)
  obtain ⟨ns1, h1, h2, h3, h4⟩ :=
    register_plain_root_fresh spec_consts ns [65] 0 4294967295 0 0 hf
  have hr1 : reachable spec_consts register_or_cancel ns1 :=
    reachable.step ns ns1 (op_t.register_plain [65] 0 4294967295 0 0 0) hr (Or.inl rfl)
      (by simp [op_step, h1])
  have hinv := hall ns1 hr1
  rw [hid] at h4
  have := (hinv.2.2.1 _ h4).1
  omega

/-- C5 fails on the code: register_plain on the name A followed by set_owner on A
reaches a registry in which the record of A is in the controlled-name list and has one
subscriber, yet its refcount is 1, not 2: set_owner takes the reference for the
controlled list only when it creates the record.  The cancellation of the subscriber
then frees the record while the controlled-name list still points to it, and the access
check of the next registration by a caller other than uid 0 dereferences the freed
record. -/
theorem refcount_pin_missing_after_set_owner :
    ∃ ns, reachable spec_consts refcount_ops ns ∧
      ns.name_table = [{ name := [65], uid := 501, gid := 20, access := 201,
                         slot := 4294967295, refcount := 1, val := 1, state := 0,
                         client_list := [1] }] ∧
      ns.controlled_name = [⟨[65], 0⟩] ∧
      ¬ refcount_inv ns ∧
      (∃ ns1, op_step spec_consts (op_t.cancel 1) ns = some ns1 ∧
        ns1.name_table = [] ∧ ns1.controlled_name = [⟨[65], 0⟩] ∧
        op_step spec_consts (op_t.register_plain [66] 7 4294967295 502 20 0) ns1 = none) := by
  refine ⟨_, reachable.step _ _ (op_t.set_owner [65] 501 20)
      (reachable.step _ _ (op_t.register_plain [65] 7 4294967295 0 0 0)
        (reachable.new 0) trivial rfl) trivial rfl, rfl, rfl, by decide, ?_⟩
  exact ⟨_, rfl, rfl, rfl, rfl⟩

/-- C6: the scenario "Basic post/check" runs as the specification gives it.  The
default access word is a constant of common.h and so a parameter here; it is taken to
grant read and write to other, as the numeral 0x1B3 of the specification does.  The
registration of a plain subscriber on A by uid 501 returns OK with client id 1, the first
check returns flag 1, the post by (501, 20) returns OK, the next check returns flag 1
and the one after it flag 0.  The record of A has the owner (0, 0) and the default access
word, which lets every caller read and the owner write. -/
theorem basic_post_check (k : notify_consts) (wr : Nat → Bool) (flags task : Nat)
    (hR : k.NOTIFY_ACCESS_DEFAULT &&& (k.NOTIFY_ACCESS_READ <<< k.NOTIFY_ACCESS_OTHER_SHIFT) ≠ 0)
    (hW : k.NOTIFY_ACCESS_DEFAULT &&& (k.NOTIFY_ACCESS_WRITE <<< k.NOTIFY_ACCESS_OTHER_SHIFT) ≠ 0) :
    _notify_lib_register_plain k (_notify_lib_notify_state_new k flags) [65] task 4294967295
        501 20 0 = some (NOTIFY_STATUS_OK, registry_A k flags task 1 0, 1) ∧
    _notify_lib_check (registry_A k flags task 1 0) 1 0
      = some (NOTIFY_STATUS_OK, registry_A k flags task 1 1, 1) ∧
    _notify_lib_post k wr (registry_A k flags task 1 1) [65] 501 20
      = some (NOTIFY_STATUS_OK, registry_A k flags task 2 1, []) ∧
    _notify_lib_check (registry_A k flags task 2 1) 1 0
      = some (NOTIFY_STATUS_OK, registry_A k flags task 2 2, 1) ∧
    _notify_lib_check (registry_A k flags task 2 2) 1 0
      = some (NOTIFY_STATUS_OK, registry_A k flags task 2 2, 0) ∧
    (∃ n, _nc_table_find (registry_A k flags task 1 0).name_table [65] = some n ∧
      n.uid = 0 ∧ n.gid = 0 ∧ n.access = k.NOTIFY_ACCESS_DEFAULT ∧
      (∀ uid gid, _internal_check_access k (registry_A k flags task 1 0) n uid gid
        k.NOTIFY_ACCESS_READ = some NOTIFY_STATUS_OK) ∧
      (∀ gid, _internal_check_access k (registry_A k flags task 1 0) n n.uid gid
        k.NOTIFY_ACCESS_WRITE = some NOTIFY_STATUS_OK)) := by
  have hrec : ∃ n, _nc_table_find (registry_A k flags task 1 0).name_table [65] = some n ∧
      n.uid = 0 ∧ n.gid = 0 ∧ n.access = k.NOTIFY_ACCESS_DEFAULT ∧
      (∀ uid gid, _internal_check_access k (registry_A k flags task 1 0) n uid gid
        k.NOTIFY_ACCESS_READ = some NOTIFY_STATUS_OK) ∧
      (∀ gid, _internal_check_access k (registry_A k flags task 1 0) n n.uid gid
        k.NOTIFY_ACCESS_WRITE = some NOTIFY_STATUS_OK) := by
    refine ⟨_, rfl, rfl, rfl, rfl, ?_, ?_⟩
    · intro uid gid
      by_cases hu : uid = 0
      · simp [_internal_check_access, hu]
      · simp [_internal_check_access, _internal_check_controlled_access,
          check_controlled_loop, registry_A, hu, hR]
    · intro gid
      simp [_internal_check_access]
  by_cases hl : flags &&& k.NOTIFY_STATE_USE_LOCKS = 0
  · refine ⟨?_, ?_, ?_, ?_, ?_, hrec⟩ <;>
    simp [_notify_lib_register_plain, _notify_lib_notify_state_new, find_or_new_name,
      _nc_table_find, _internal_new_name, fresh_addr, _nc_table_insert, _internal_check_access,
      _internal_check_controlled_access, check_controlled_loop, hR, hW, register_client,
      _internal_client_new, _nc_table_insert_n, client_store, name_store, calloc_client_info,
      _notify_lib_check, _nc_table_find_n, _notify_lib_post, post_loop, _internal_send,
      mutex_lock, mutex_unlock, registry_A, hl]
  · refine ⟨?_, ?_, ?_, ?_, ?_, hrec⟩ <;>
    simp [_notify_lib_register_plain, _notify_lib_notify_state_new, find_or_new_name,
      _nc_table_find, _internal_new_name, fresh_addr, _nc_table_insert, _internal_check_access,
      _internal_check_controlled_access, check_controlled_loop, hR, hW, register_client,
      _internal_client_new, _nc_table_insert_n, client_store, name_store, calloc_client_info,
      _notify_lib_check, _nc_table_find_n, _notify_lib_post, post_loop, _internal_send,
      mutex_lock, mutex_unlock, registry_A, hl]

/-- C6 at concrete constants.  (1) The layout of the specification (three bits each for
other, group and user) with the default access word 0x1B3 that the specification gives,
on a registry without mutex: the five calls of the scenario.  (2) The layout with four
bits each for user, group and other and the default access word 0x333, on a registry
with a mutex: the post by (501, 20) returns OK. -/
theorem basic_post_check_witness :
    (_notify_lib_register_plain { spec_consts with NOTIFY_ACCESS_DEFAULT := 0x1B3 }
        (_notify_lib_notify_state_new { spec_consts with NOTIFY_ACCESS_DEFAULT := 0x1B3 } 0)
        [65] 7 4294967295 501 20 0
      = some (NOTIFY_STATUS_OK,
          registry_A { spec_consts with NOTIFY_ACCESS_DEFAULT := 0x1B3 } 0 7 1 0, 1) ∧
    _notify_lib_check
        (registry_A { spec_consts with NOTIFY_ACCESS_DEFAULT := 0x1B3 } 0 7 1 0) 1 0
      = some (NOTIFY_STATUS_OK,
          registry_A { spec_consts with NOTIFY_ACCESS_DEFAULT := 0x1B3 } 0 7 1 1, 1) ∧
    _notify_lib_post { spec_consts with NOTIFY_ACCESS_DEFAULT := 0x1B3 } (fun _ => true)
        (registry_A { spec_consts with NOTIFY_ACCESS_DEFAULT := 0x1B3 } 0 7 1 1) [65] 501 20
      = some (NOTIFY_STATUS_OK,
          registry_A { spec_consts with NOTIFY_ACCESS_DEFAULT := 0x1B3 } 0 7 2 1, []) ∧
    _notify_lib_check
        (registry_A { spec_consts with NOTIFY_ACCESS_DEFAULT := 0x1B3 } 0 7 2 1) 1 0
      = some (NOTIFY_STATUS_OK,
          registry_A { spec_consts with NOTIFY_ACCESS_DEFAULT := 0x1B3 } 0 7 2 2, 1) ∧
    _notify_lib_check
        (registry_A { spec_consts with NOTIFY_ACCESS_DEFAULT := 0x1B3 } 0 7 2 2) 1 0
      = some (NOTIFY_STATUS_OK,
          registry_A { spec_consts with NOTIFY_ACCESS_DEFAULT := 0x1B3 } 0 7 2 2, 0)) ∧
    _notify_lib_post ⟨1, 2, 8, 4, 0, 0x333, 1⟩ (fun _ => true)
        (registry_A ⟨1, 2, 8, 4, 0, 0x333, 1⟩ 1 7 1 1) [65] 501 20
      = some (NOTIFY_STATUS_OK, registry_A ⟨1, 2, 8, 4, 0, 0x333, 1⟩ 1 7 2 1, []) :=
  have h := basic_post_check { spec_consts with NOTIFY_ACCESS_DEFAULT := 0x1B3 }
    (fun _ => true) 0 7 (by decide) (by decide)
  ⟨⟨h.1, h.2.1, h.2.2.1, h.2.2.2.1, h.2.2.2.2.1⟩,
    (basic_post_check ⟨1, 2, 8, 4, 0, 0x333, 1⟩ (fun _ => true) 1 7
      (by decide) (by decide)).2.2.1⟩

/-- C7: after set_owner of com.x to (501, 20) and set_access of com.x to a mode that
grants read to the user and no read to other, a plain registration on com.x.child by
uid 502 with a gid other than 20 returns NOT_AUTHORIZED, and the same call by uid 501
returns OK with client id 1 (the default access word granting read to other). -/
theorem access_hierarchy (k : notify_consts) (flags mode task gid tok : Nat)
    (hgid : gid ≠ 20)
    (hu : mode &&& (k.NOTIFY_ACCESS_READ <<< k.NOTIFY_ACCESS_USER_SHIFT) ≠ 0)
    (ho : mode &&& (k.NOTIFY_ACCESS_READ <<< k.NOTIFY_ACCESS_OTHER_SHIFT) = 0)
    (hd : k.NOTIFY_ACCESS_DEFAULT &&& (k.NOTIFY_ACCESS_READ <<< k.NOTIFY_ACCESS_OTHER_SHIFT) ≠ 0) :
    _notify_lib_set_owner k (_notify_lib_notify_state_new k flags) name_com_x 501 20
      = some (NOTIFY_STATUS_OK, registry_com_x k flags k.NOTIFY_ACCESS_DEFAULT) ∧
    _notify_lib_set_access k (registry_com_x k flags k.NOTIFY_ACCESS_DEFAULT) name_com_x mode
      = some (NOTIFY_STATUS_OK, registry_com_x k flags mode) ∧
    (∃ ns1, _notify_lib_register_plain k (registry_com_x k flags mode) name_com_x_child task
        4294967295 502 gid tok = some (NOTIFY_STATUS_NOT_AUTHORIZED, ns1, tok)) ∧
    (∃ ns1, _notify_lib_register_plain k (registry_com_x k flags mode) name_com_x_child task
        4294967295 501 gid tok = some (NOTIFY_STATUS_OK, ns1, 1)) := by
  have hgid2 : ¬ 20 = gid := fun h => hgid h.symm
  have s1 : strcmp name_com_x name_com_x_child ≠ 0 := by decide
  have s2 : strncmp name_com_x name_com_x_child 5 = 0 := by decide
  have s3 : ¬ name_com_x = name_com_x_child := by decide
  have s4 : ¬ name_com_x_child = name_com_x := by decide
  have s5 : name_com_x.length = 5 := rfl
  have s6 : name_com_x_child.length = 11 := rfl
  have s7 : ¬ strcmp name_com_x name_com_x > 0 := by decide
  by_cases hl : flags &&& k.NOTIFY_STATE_USE_LOCKS = 0
  · refine ⟨?_, ?_, ?_, ?_⟩
    · simp [_notify_lib_set_owner, _notify_lib_notify_state_new, _nc_table_find,
        _internal_new_name, fresh_addr, _nc_table_insert, name_store, _internal_insert_controlled_name, ptr_of, name_deref,
        controlled_insert, mutex_lock, mutex_unlock, registry_com_x, hl]
    · simp [_notify_lib_set_access, _nc_table_find, name_store,
        _internal_insert_controlled_name, ptr_of, name_deref, mutex_lock, mutex_unlock, registry_com_x, hl]
    · simp [_notify_lib_register_plain, find_or_new_name, _nc_table_find, s3, s4,
        _internal_new_name, fresh_addr, _nc_table_insert, _internal_check_access,
        _internal_check_controlled_access, check_controlled_loop, name_deref, s1, s2, s5, s6, hgid2, ho,
        mutex_lock, mutex_unlock, registry_com_x, hl]
    · by_cases hg : k.NOTIFY_ACCESS_DEFAULT &&&
          (k.NOTIFY_ACCESS_READ <<< k.NOTIFY_ACCESS_GROUP_SHIFT) = 0 <;>
      simp [_notify_lib_register_plain, find_or_new_name, _nc_table_find, s3, s4,
        _internal_new_name, fresh_addr, _nc_table_insert, _internal_check_access,
        _internal_check_controlled_access, check_controlled_loop, name_deref, s1, s2, s5, s6, hu, hd, hg,
        register_client, _internal_client_new, _nc_table_insert_n,
        mutex_lock, mutex_unlock, registry_com_x, hl]
  · refine ⟨?_, ?_, ?_, ?_⟩
    · simp [_notify_lib_set_owner, _notify_lib_notify_state_new, _nc_table_find,
        _internal_new_name, fresh_addr, _nc_table_insert, name_store, _internal_insert_controlled_name, ptr_of, name_deref,
        controlled_insert, mutex_lock, mutex_unlock, registry_com_x, hl]
    · simp [_notify_lib_set_access, _nc_table_find, name_store,
        _internal_insert_controlled_name, ptr_of, name_deref, mutex_lock, mutex_unlock, registry_com_x, hl]
    · simp [_notify_lib_register_plain, find_or_new_name, _nc_table_find, s3, s4,
        _internal_new_name, fresh_addr, _nc_table_insert, _internal_check_access,
        _internal_check_controlled_access, check_controlled_loop, name_deref, s1, s2, s5, s6, hgid2, ho,
        mutex_lock, mutex_unlock, registry_com_x, hl]
    · by_cases hg : k.NOTIFY_ACCESS_DEFAULT &&&
          (k.NOTIFY_ACCESS_READ <<< k.NOTIFY_ACCESS_GROUP_SHIFT) = 0 <;>
      simp [_notify_lib_register_plain, find_or_new_name, _nc_table_find, s3, s4,
        _internal_new_name, fresh_addr, _nc_table_insert, _internal_check_access,
        _internal_check_controlled_access, check_controlled_loop, name_deref, s1, s2, s5, s6, hu, hd, hg,
        register_client, _internal_client_new, _nc_table_insert_n,
        mutex_lock, mutex_unlock, registry_com_x, hl]

/-- C7 at the constants of the specification: the mode is user read and write plus
group read (no bit for other), the callers have gid 21. -/
theorem access_hierarchy_witness :
    (∃ ns1, _notify_lib_register_plain spec_consts (registry_com_x spec_consts 0 200)
        name_com_x_child 7 4294967295 502 21 0 = some (NOTIFY_STATUS_NOT_AUTHORIZED, ns1, 0)) ∧
    (∃ ns1, _notify_lib_register_plain spec_consts (registry_com_x spec_consts 0 200)
        name_com_x_child 7 4294967295 501 21 0 = some (NOTIFY_STATUS_OK, ns1, 1)) :=
  (access_hierarchy spec_consts 0 200 7 21 0 (by decide) (by decide) (by decide)
    (by decide)).2.2

/-- C8: from a new registry, three plain registrations return the client ids 1, 2
and 3; after cancel(2) the free list is [2] and the counter 3; after cancel(1) the free
list is [2, 1] and the counter 3; after cancel(3) the free list is empty and the
counter 0; the next registration returns the id 1.  The registrations are made on the
name A by uid 0, for which the access check consults no constant. -/
theorem id_recycling :
    _notify_lib_notify_state_new spec_consts 0 = registry_ids spec_consts 0 none 7 [] 0 [] ∧
    _notify_lib_register_plain spec_consts (registry_ids spec_consts 0 none 7 [] 0 [])
        [65] 7 4294967295 0 0 0
      = some (NOTIFY_STATUS_OK, registry_ids spec_consts 0 none 7 [1] 1 [], 1) ∧
    _notify_lib_register_plain spec_consts (registry_ids spec_consts 0 none 7 [1] 1 [])
        [65] 7 4294967295 0 0 0
      = some (NOTIFY_STATUS_OK, registry_ids spec_consts 0 none 7 [2, 1] 2 [], 2) ∧
    _notify_lib_register_plain spec_consts (registry_ids spec_consts 0 none 7 [2, 1] 2 [])
        [65] 7 4294967295 0 0 0
      = some (NOTIFY_STATUS_OK, registry_ids spec_consts 0 none 7 [3, 2, 1] 3 [], 3) ∧
    _notify_lib_cancel (registry_ids spec_consts 0 none 7 [3, 2, 1] 3 []) 2
      = some (registry_ids spec_consts 0 none 7 [3, 1] 3 [2]) ∧
    _notify_lib_cancel (registry_ids spec_consts 0 none 7 [3, 1] 3 [2]) 1
      = some (registry_ids spec_consts 0 none 7 [3] 3 [2, 1]) ∧
    _notify_lib_cancel (registry_ids spec_consts 0 none 7 [3] 3 [2, 1]) 3
      = some (registry_ids spec_consts 0 none 7 [] 0 []) ∧
    _notify_lib_register_plain spec_consts (registry_ids spec_consts 0 none 7 [] 0 [])
        [65] 7 4294967295 0 0 0
      = some (NOTIFY_STATUS_OK, registry_ids spec_consts 0 none 7 [1] 1 [], 1) := by
  refine ⟨?_, ?_, ?_, ?_, ?_, ?_, ?_, ?_⟩ <;> decide

/-- C9: a post returns INVALID_NAME exactly when the name is not in the name table,
and NOT_AUTHORIZED exactly when the name is present and the write check on its record
returns a status other than OK; whenever it returns one of the two, the name table
(so every val), the client table, the controlled names and the id allocator are as
before and nothing is handed to a transport. -/
theorem post_failures (k : notify_consts) (wr : Nat → Bool) (ns : notify_state_t)
    (name : cstring) (uid gid : Nat) :
    ((∃ ns1 ev, _notify_lib_post k wr ns name uid gid
          = some (NOTIFY_STATUS_INVALID_NAME, ns1, ev))
        ↔ _nc_table_find ns.name_table name = none) ∧
    ((∃ ns1 ev, _notify_lib_post k wr ns name uid gid
          = some (NOTIFY_STATUS_NOT_AUTHORIZED, ns1, ev))
        ↔ ∃ n auth, _nc_table_find ns.name_table name = some n ∧
            _internal_check_access k ns n uid gid k.NOTIFY_ACCESS_WRITE = some auth ∧
            auth ≠ NOTIFY_STATUS_OK) ∧
    (∀ st ns1 ev, _notify_lib_post k wr ns name uid gid = some (st, ns1, ev) →
        st = NOTIFY_STATUS_INVALID_NAME ∨ st = NOTIFY_STATUS_NOT_AUTHORIZED →
        ns1.name_table = ns.name_table ∧ ev = [] ∧ ns1.client_table = ns.client_table ∧
        ns1.controlled_name = ns.controlled_name ∧ ns1.client_id = ns.client_id ∧
        ns1.free_client_list = ns.free_client_list) := by
  cases hfind : _nc_table_find ns.name_table name with
  | none =>
    refine ⟨?_, ?_, ?_⟩
    · simp [_notify_lib_post, hfind]
    · simp [_notify_lib_post, hfind]
    · intro st ns1 ev h _
      simp [_notify_lib_post, hfind] at h
      obtain ⟨_, h2, h3⟩ := h
      subst h2; subst h3
      simp
  | some n =>
    cases hauth : _internal_check_access k ns n uid gid k.NOTIFY_ACCESS_WRITE with
    | none =>
      refine ⟨?_, ?_, ?_⟩ <;> simp [_notify_lib_post, hfind, hauth]
    | some auth =>
      by_cases hok : auth = NOTIFY_STATUS_OK
      · subst hok
        cases hloop : post_loop wr ns.client_table n.client_list with
        | none => refine ⟨?_, ?_, ?_⟩ <;> simp [_notify_lib_post, hfind, hauth, hloop]
        | some r =>
          obtain ⟨ct, ev⟩ := r
          refine ⟨?_, ?_, ?_⟩
          · simp [_notify_lib_post, hfind, hauth, hloop]
          · simp [_notify_lib_post, hfind, hauth, hloop]
          · intro st ns1 ev1 h hst
            simp [_notify_lib_post, hfind, hauth, hloop] at h
            rcases hst with hst | hst <;> rw [hst] at h <;> simp at h
      · refine ⟨?_, ?_, ?_⟩
        · simp [_notify_lib_post, hfind, hauth, hok]
        · simp [_notify_lib_post, hfind, hauth, hok]
        · intro st ns1 ev h _
          simp [_notify_lib_post, hfind, hauth, hok] at h
          obtain ⟨_, h2, h3⟩ := h
          subst h2; subst h3
          simp

/-- C10 fails on the code: with com.x controlled, owned by (501, 20) and granting no
read to other, the plain registration on the unknown name com.x.child by (502, 21)
returns NOT_AUTHORIZED, yet the name table afterwards holds a record for com.x.child,
with refcount 0 and no subscriber: _internal_new_name inserts the record before the
access check and the error return does not take it out again. -/
theorem failed_registration_leaves_name :
    _nc_table_find (registry_com_x spec_consts 0 200).name_table name_com_x_child = none ∧
    _notify_lib_register_plain spec_consts (registry_com_x spec_consts 0 200)
        name_com_x_child 7 4294967295 502 21 0
      = some (NOTIFY_STATUS_NOT_AUTHORIZED,
          { registry_com_x spec_consts 0 200 with
            name_table :=
              [{ name := name_com_x_child, uid := 0, gid := 0, access := 201,
                 slot := 4294967295, refcount := 0, val := 1, state := 0, client_list := [],
                 addr := 1 },
               { name := name_com_x, uid := 501, gid := 20, access := 200,
                 slot := 4294967295, refcount := 1, val := 1, state := 0,
                 client_list := [] }] },
          0) := by
  constructor <;> decide

/-- C11 fails on the code: set_owner and set_access on com.x followed by a plain
registration on com.x.child by (502, 21), which returns NOT_AUTHORIZED, reach a registry
whose name table holds a record with refcount 0: the record that _internal_new_name
created for com.x.child before the access check. -/
theorem zero_refcount_record_reachable :
    ∃ ns, reachable spec_consts any_op ns ∧
      _notify_lib_register_plain spec_consts (registry_com_x spec_consts 0 200)
        name_com_x_child 7 4294967295 502 21 0 = some (NOTIFY_STATUS_NOT_AUTHORIZED, ns, 0) ∧
      _nc_table_find ns.name_table name_com_x_child
        = some { name := name_com_x_child, uid := 0, gid := 0, access := 201,
                 slot := 4294967295, refcount := 0, val := 1, state := 0,
                 client_list := [], addr := 1 } := by
  refine ⟨_, reachable.step _ _ (op_t.register_plain name_com_x_child 7 4294967295 502 21 0)
      (reachable.step _ _ (op_t.set_access name_com_x 200)
        (reachable.step _ _ (op_t.set_owner name_com_x 501 20)
          (reachable.new 0) trivial rfl) trivial rfl) trivial rfl, ?_, ?_⟩
  · rfl
  · rfl

/-- C12 fails on the code: a plain registration on A returns the client id 1, and
release_name on A by uid 0 then frees the record of A, whose refcount was 1, although
A was never a controlled name.  Client 1 is still in the client table and its name_info
still designates A, which is no longer in the name table; a check by client 1
dereferences the freed record. -/
theorem client_name_freed_by_release :
    ∃ ns1 ns, _notify_lib_register_plain spec_consts (_notify_lib_notify_state_new spec_consts 0)
        [65] 7 4294967295 0 0 0 = some (NOTIFY_STATUS_OK, ns1, 1) ∧
      _notify_lib_release_name ns1 [65] 0 0 = some (NOTIFY_STATUS_OK, ns) ∧
      reachable spec_consts any_op ns ∧
      (∃ c, _nc_table_find_n ns.client_table 1 = some c ∧ c.info.name_info = some [65]) ∧
      _nc_table_find ns.name_table [65] = none ∧
      _notify_lib_check ns 1 0 = none := by
  refine ⟨_, _, rfl, rfl, reachable.step _ _ (op_t.release_name [65] 0 0)
      (reachable.step _ _ (op_t.register_plain [65] 7 4294967295 0 0 0)
        (reachable.new 0) trivial rfl) trivial rfl, ⟨_, rfl, rfl⟩, rfl, rfl⟩

/-! ## Register followed by cancel -/

theorem name_store_name_store (t : List name_info_t) (a b : name_info_t)
    (h : a.name = b.name) : name_store (name_store t a) b = name_store t b := by
  induction t with
  | nil => rfl
  | cons m rest ih =>
    by_cases hm : m.name = a.name
    · have hm2 : m.name = b.name := hm.trans h
      simp [name_store, hm, hm2, h]
    · have hm2 : ¬ m.name = b.name := fun e => hm (e.trans h.symm)
      simp [name_store, hm, hm2, ih]

theorem name_store_self (t : List name_info_t) (key : cstring) (n : name_info_t)
    (h : _nc_table_find t key = some n) : name_store t n = t := by
  induction t with
  | nil => rfl
  | cons m rest ih =>
    have hk := find_name_eq _ _ _ h
    by_cases hm : m.name = key
    · simp [_nc_table_find, hm] at h
      subst h
      simp [name_store]
    · simp [_nc_table_find, hm] at h
      have hm2 : ¬ m.name = n.name := by rw [hk]; exact hm
      simp [name_store, hm2, ih h]

theorem table_delete_of_find_none (t : List name_info_t) (key : cstring)
    (h : _nc_table_find t key = none) : _nc_table_delete t key = t := by
  induction t with
  | nil => rfl
  | cons m rest ih =>
    by_cases hm : m.name = key
    · simp [_nc_table_find, hm] at h
    · simp [_nc_table_find, hm] at h
      simp [_nc_table_delete, hm, ih h]

theorem delete_n_of_find_none (t : List client_t) (id : Nat)
    (h : _nc_table_find_n t id = none) : _nc_table_delete_n t id = t := by
  induction t with
  | nil => rfl
  | cons m rest ih =>
    by_cases hm : m.client_id = id
    · simp [_nc_table_find_n, hm] at h
    · simp [_nc_table_find_n, hm] at h
      simp [_nc_table_delete_n, hm, ih h]

/-- The outcome of _internal_cancel for a client found in the client table whose name
pointer designates a record of the name table. -/
theorem internal_cancel_eq (ns : notify_state_t) (cid : Nat) (c : client_t) (np : cstring)
    (n : name_info_t) (h0 : cid ≠ 0) (hc : _nc_table_find_n ns.client_table cid = some c)
    (hnp : c.info.name_info = some np) (hn : _nc_table_find ns.name_table np = some n) :
    ∃ ns1, _internal_cancel ns cid = some ns1 ∧
      ns1.name_table
        = (if (n.refcount + 2 ^ 32 - 1) % 2 ^ 32 = 0 then
            _nc_table_delete (name_store ns.name_table
              { n with refcount := (n.refcount + 2 ^ 32 - 1) % 2 ^ 32,
                       client_list := _nc_list_find_release n.client_list c.client_id }) n.name
          else name_store ns.name_table
              { n with refcount := (n.refcount + 2 ^ 32 - 1) % 2 ^ 32,
                       client_list := _nc_list_find_release n.client_list c.client_id }) ∧
      ns1.client_table = _nc_table_delete_n ns.client_table c.client_id ∧
      (ns1.free_client_list, ns1.client_id)
        = (if c.client_id = ns.client_id then
            free_list_sweep ns.free_client_list ((ns.client_id + 2 ^ 32 - 1) % 2 ^ 32)
          else if ns.free_client_list = [] then ([c.client_id], ns.client_id)
          else free_list_sweep (free_list_insert c.client_id ns.free_client_list) ns.client_id) ∧
      ns1.controlled_name = ns.controlled_name ∧ ns1.lock = ns.lock ∧
      ns1.flags = ns.flags ∧ ns1.sock = ns.sock := by
  unfold _internal_cancel
  rw [if_neg h0, hc]
  simp only [hnp, hn]
  by_cases hz : (n.refcount + 2 ^ 32 - 1) % 2 ^ 32 = 0
  · rw [if_pos hz, if_pos hz]
    refine ⟨_, rfl, ?_, ?_, ?_, ?_, ?_, ?_, ?_⟩
    · simp only [client_release_name_table]
    · simp only [client_release_client_table]
    · exact client_release_alloc _ c
    · simp only [client_release_controlled_name]
    · unfold _internal_client_release; simp only; split; rfl; split <;> rfl
    · unfold _internal_client_release; simp only; split; rfl; split <;> rfl
    · unfold _internal_client_release; simp only; split; rfl; split <;> rfl
  · rw [if_neg hz, if_neg hz]
    refine ⟨_, rfl, ?_, ?_, ?_, ?_, ?_, ?_, ?_⟩
    · simp only [client_release_name_table]
    · simp only [client_release_client_table]
    · exact client_release_alloc _ c
    · simp only [client_release_controlled_name]
    · unfold _internal_client_release; simp only; split; rfl; split <;> rfl
    · unfold _internal_client_release; simp only; split; rfl; split <;> rfl
    · unfold _internal_client_release; simp only; split; rfl; split <;> rfl

/-- The registry and the id that the common tail of the registrations returns. -/
theorem register_client_fields (s : notify_state_t) (n : name_info_t)
    (set : client_info_t → client_info_t) :
    (register_client s n set).2 = next_client_id s ∧
    (register_client s n set).1.client_table
      = { client_id := next_client_id s,
          info := set { calloc_client_info with name_info := some n.name } }
        :: s.client_table ∧
    (register_client s n set).1.name_table
      = name_store s.name_table { n with client_list := next_client_id s :: n.client_list } ∧
    ((register_client s n set).1.free_client_list, (register_client s n set).1.client_id)
      = (match s.free_client_list with
         | _ :: rest => (rest, s.client_id)
         | [] => ([], (s.client_id + 1) % 2 ^ 32)) ∧
    (register_client s n set).1.controlled_name = s.controlled_name := by
  unfold register_client _internal_client_new next_client_id
  cases s.free_client_list with
  | nil => simp [client_store, _nc_table_insert_n]
  | cons x rest => simp [client_store, _nc_table_insert_n]

/-- The record that a name has after a lookup-or-create, and the name table then. -/
theorem find_or_new_name_cases (k : notify_consts) (ns : notify_state_t) (name : cstring) :
    (∃ n, _nc_table_find ns.name_table name = some n ∧
        (find_or_new_name k ns name).2 = n ∧
        (find_or_new_name k ns name).1.name_table = ns.name_table) ∨
    (_nc_table_find ns.name_table name = none ∧
        (find_or_new_name k ns name).2
          = { name := name, uid := 0, gid := 0, access := k.NOTIFY_ACCESS_DEFAULT,
              slot := 2 ^ 32 - 1, refcount := 0, val := 1, state := 0, client_list := [],
              addr := fresh_addr ns } ∧
        (find_or_new_name k ns name).1.name_table
          = (find_or_new_name k ns name).2 :: ns.name_table) := by
  unfold find_or_new_name
  cases h : _nc_table_find ns.name_table name with
  | some n => left; exact ⟨n, rfl, rfl, rfl⟩
  | none => right; exact ⟨rfl, rfl, rfl⟩

theorem find_or_new_name_find (k : notify_consts) (ns : notify_state_t) (name : cstring) :
    _nc_table_find (find_or_new_name k ns name).1.name_table name
      = some (find_or_new_name k ns name).2 ∧
    (find_or_new_name k ns name).2.name = name := by
  rcases find_or_new_name_cases k ns name with ⟨n, h1, h2, h3⟩ | ⟨h1, h2, h3⟩
  · rw [h3, h2]; exact ⟨h1, find_name_eq _ _ _ h1⟩
  · rw [h3]
    have : (find_or_new_name k ns name).2.name = name := by rw [h2]
    simp [_nc_table_find, this]

theorem next_client_id_congr (s t : notify_state_t)
    (h1 : s.free_client_list = t.free_client_list) (h2 : s.client_id = t.client_id) :
    next_client_id s = next_client_id t := by
  unfold next_client_id; rw [h1, h2]

/-- The registry after a plain registration that returns OK. -/
theorem register_plain_ok_fields (k : notify_consts) (ns : notify_state_t) (name : cstring)
    (task slot uid gid tok : Nat) (ns1 : notify_state_t) (c : Nat)
    (h : _notify_lib_register_plain k ns name task slot uid gid tok
      = some (NOTIFY_STATUS_OK, ns1, c)) :
    c = next_client_id ns ∧
    ns1.client_table
      = { client_id := c,
          info := { calloc_client_info with
            name_info := some name,
            notify_type := if slot = 2 ^ 32 - 1 then NOTIFY_TYPE_PLAIN else NOTIFY_TYPE_MEMORY,
            session := task } } :: ns.client_table ∧
    ns1.name_table
      = name_store (find_or_new_name k (mutex_lock ns) name).1.name_table
          { (find_or_new_name k (mutex_lock ns) name).2 with
            refcount := ((find_or_new_name k (mutex_lock ns) name).2.refcount + 1) % 2 ^ 32,
            slot := if slot = 2 ^ 32 - 1 then (find_or_new_name k (mutex_lock ns) name).2.slot
                    else slot,
            client_list := c :: (find_or_new_name k (mutex_lock ns) name).2.client_list } ∧
    (ns1.free_client_list, ns1.client_id)
      = (match ns.free_client_list with
         | _ :: rest => (rest, ns.client_id)
         | [] => ([], (ns.client_id + 1) % 2 ^ 32)) ∧
    ns1.controlled_name = ns.controlled_name := by
  have hname := (find_or_new_name_find k (mutex_lock ns) name).2
  unfold _notify_lib_register_plain at h
  simp only at h
  split at h
  · cases h
  · split at h
    · cases h
    · simp only [Option.some.injEq, Prod.mk.injEq, true_and] at h
      obtain ⟨h1, h2⟩ := h
      subst h1
      subst h2
      by_cases hs : slot = 2 ^ 32 - 1
      · simp only [hs, ne_eq, not_true_eq_false, if_false, if_true]
        obtain ⟨f1, f2, f3, f4, f5⟩ := register_client_fields
          { (find_or_new_name k (mutex_lock ns) name).1 with
            name_table := name_store (find_or_new_name k (mutex_lock ns) name).1.name_table
              { (find_or_new_name k (mutex_lock ns) name).2 with
                refcount :=
                  ((find_or_new_name k (mutex_lock ns) name).2.refcount + 1) % 2 ^ 32 } }
          { (find_or_new_name k (mutex_lock ns) name).2 with
            refcount := ((find_or_new_name k (mutex_lock ns) name).2.refcount + 1) % 2 ^ 32 }
          (fun i => { i with notify_type := NOTIFY_TYPE_PLAIN, session := task })
        have hid := next_client_id_congr
          { (find_or_new_name k (mutex_lock ns) name).1 with
            name_table := name_store (find_or_new_name k (mutex_lock ns) name).1.name_table
              { (find_or_new_name k (mutex_lock ns) name).2 with
                refcount :=
                  ((find_or_new_name k (mutex_lock ns) name).2.refcount + 1) % 2 ^ 32 } }
          ns (by simp) (by simp)
        rw [hid] at f1 f2 f3
        refine ⟨f1, ?_, ?_, ?_, ?_⟩
        · rw [mutex_unlock_client_table, f2, f1]
          simp [hname, calloc_client_info]
        · rw [mutex_unlock_name_table, f3, f1, name_store_name_store _ _ _ (by rfl)]
        · rw [mutex_unlock_free_client_list, mutex_unlock_client_id, f4]
          simp
        · rw [mutex_unlock_controlled_name, f5]
          simp
      · simp only [hs, ne_eq, not_false_eq_true, if_false, if_true]
        obtain ⟨f1, f2, f3, f4, f5⟩ := register_client_fields
          { (find_or_new_name k (mutex_lock ns) name).1 with
            name_table := name_store (find_or_new_name k (mutex_lock ns) name).1.name_table
              { (find_or_new_name k (mutex_lock ns) name).2 with
                refcount :=
                  ((find_or_new_name k (mutex_lock ns) name).2.refcount + 1) % 2 ^ 32,
                slot := slot } }
          { (find_or_new_name k (mutex_lock ns) name).2 with
            refcount := ((find_or_new_name k (mutex_lock ns) name).2.refcount + 1) % 2 ^ 32,
            slot := slot }
          (fun i => { i with notify_type := NOTIFY_TYPE_MEMORY, session := task })
        have hid := next_client_id_congr
          { (find_or_new_name k (mutex_lock ns) name).1 with
            name_table := name_store (find_or_new_name k (mutex_lock ns) name).1.name_table
              { (find_or_new_name k (mutex_lock ns) name).2 with
                refcount :=
                  ((find_or_new_name k (mutex_lock ns) name).2.refcount + 1) % 2 ^ 32,
                slot := slot } }
          ns (by simp) (by simp)
        rw [hid] at f1 f2 f3
        refine ⟨f1, ?_, ?_, ?_, ?_⟩
        · rw [mutex_unlock_client_table, f2, f1]
          simp [hname, calloc_client_info]
        · rw [mutex_unlock_name_table, f3, f1, name_store_name_store _ _ _ (by rfl)]
        · rw [mutex_unlock_free_client_list, mutex_unlock_client_id, f4]
          simp
        · rw [mutex_unlock_controlled_name, f5]
          simp

/-- The id handed out next is nonzero and not live, when the allocator invariant holds in
its inductive form and the counter does not wrap. -/
theorem next_client_id_fresh (ns : notify_state_t) (hinv : allocator_inv_strong ns)
    (hroom : ns.client_id < 2 ^ 32 - 1) :
    next_client_id ns ≠ 0 ∧ _nc_table_find_n ns.client_table (next_client_id ns) = none := by
  obtain ⟨h1, h2, h3, h4, h5, h6⟩ := hinv
  unfold next_client_id
  cases hf : ns.free_client_list with
  | cons x rest =>
    rw [hf] at h2 h5
    have hx := h5 x (List.mem_cons_self _ _)
    have hl := h2 x (List.mem_cons_self _ _)
    refine ⟨by simp only; omega, ?_⟩
    simp only
    unfold live at hl
    simpa using hl
  | nil =>
    have hid : (ns.client_id + 1) % 2 ^ 32 = ns.client_id + 1 := by omega
    simp only [hid]
    refine ⟨by omega, ?_⟩
    by_contra hne
    have hl : live ns (ns.client_id + 1) := by
      unfold live
      cases hh : _nc_table_find_n ns.client_table (ns.client_id + 1) with
      | none => exact absurd hh hne
      | some v => rfl
    have := h3 _ hl
    omega

/-- The counter and the free list after the allocation of an id and its release, when
the allocator invariant holds in its inductive form and the counter does not wrap. -/
theorem alloc_new_release (ns : notify_state_t) (hinv : allocator_inv_strong ns)
    (hroom : ns.client_id < 2 ^ 32 - 1) :
    (if next_client_id ns = (match ns.free_client_list with
          | _ :: rest => (rest, ns.client_id)
          | [] => ([], (ns.client_id + 1) % 2 ^ 32)).2 then
        free_list_sweep (match ns.free_client_list with
          | _ :: rest => (rest, ns.client_id)
          | [] => ([], (ns.client_id + 1) % 2 ^ 32)).1
          (((match ns.free_client_list with
          | _ :: rest => (rest, ns.client_id)
          | [] => ([], (ns.client_id + 1) % 2 ^ 32)).2 + 2 ^ 32 - 1) % 2 ^ 32)
      else if (match ns.free_client_list with
          | _ :: rest => (rest, ns.client_id)
          | [] => ([], (ns.client_id + 1) % 2 ^ 32)).1 = [] then
        ([next_client_id ns], (match ns.free_client_list with
          | _ :: rest => (rest, ns.client_id)
          | [] => ([], (ns.client_id + 1) % 2 ^ 32)).2)
      else free_list_sweep (free_list_insert (next_client_id ns)
          (match ns.free_client_list with
          | _ :: rest => (rest, ns.client_id)
          | [] => ([], (ns.client_id + 1) % 2 ^ 32)).1)
          (match ns.free_client_list with
          | _ :: rest => (rest, ns.client_id)
          | [] => ([], (ns.client_id + 1) % 2 ^ 32)).2)
      = (ns.free_client_list, ns.client_id) := by
  obtain ⟨h1, h2, h3, h4, h5, h6⟩ := hinv
  unfold next_client_id
  cases hf : ns.free_client_list with
  | nil =>
    have hid : (ns.client_id + 1) % 2 ^ 32 = ns.client_id + 1 := by omega
    have hdec : (ns.client_id + 1 + 2 ^ 32 - 1) % 2 ^ 32 = ns.client_id := by omega
    simp only [hid, hdec, if_true, free_list_sweep]
  | cons x rest =>
    rw [hf] at h1 h5
    have hx := h5 x (List.mem_cons_self _ _)
    have hp := List.pairwise_cons.mp h1
    have hne : x ≠ ns.client_id := by omega
    simp only [hne, if_false]
    cases rest with
    | nil => simp
    | cons y rest2 =>
      have hy : ¬ y > x := by
        have := hp.1 y (List.mem_cons_self _ _)
        omega
      have hins : free_list_insert x (y :: rest2) = x :: y :: rest2 := by
        simp [free_list_insert, hy]
      simp only [hins, if_false, List.cons_ne_nil]
      exact free_list_sweep_id _ _ (fun z hz => (h5 z hz).2)

/-- C13, amended: in a registry that satisfies the allocator invariant in its inductive
form (the ids on the free list lie below the counter) with the counter below 2^32 - 1,
where the name, if it is in the name table, has a 32-bit refcount other than 0 and the
slot argument is the unassigned sentinel or the slot the name already has, a plain
registration that returns OK followed by the cancellation of the returned client id
gives back the name table, the client table, the counter, the free list and the
controlled names of the registry before the registration. -/
theorem register_then_cancel (k : notify_consts) (ns : notify_state_t) (name : cstring)
    (task slot uid gid tok : Nat) (ns1 : notify_state_t) (c : Nat)
    (hinv : allocator_inv_strong ns) (hroom : ns.client_id < 2 ^ 32 - 1)
    (hname : ∀ n, _nc_table_find ns.name_table name = some n →
      n.refcount ≠ 0 ∧ n.refcount < 2 ^ 32 ∧ (slot = 2 ^ 32 - 1 ∨ slot = n.slot))
    (hreg : _notify_lib_register_plain k ns name task slot uid gid tok
      = some (NOTIFY_STATUS_OK, ns1, c)) :
    ∃ ns2, _notify_lib_cancel ns1 c = some ns2 ∧
      ns2.name_table = ns.name_table ∧ ns2.client_table = ns.client_table ∧
      ns2.client_id = ns.client_id ∧ ns2.free_client_list = ns.free_client_list ∧
      ns2.controlled_name = ns.controlled_name := by
  obtain ⟨hc, hct, hnt, hal, hcn⟩ :=
    register_plain_ok_fields k ns name task slot uid gid tok ns1 c hreg
  obtain ⟨hc0, hcfree⟩ := next_client_id_fresh ns hinv hroom
  rw [← hc] at hc0 hcfree
  obtain ⟨hfind, hfname⟩ := find_or_new_name_find k (mutex_lock ns) name
  -- the record of the name after the registration
  have hfind1 : _nc_table_find (mutex_lock ns1).name_table name
      = some { (find_or_new_name k (mutex_lock ns) name).2 with
            refcount := ((find_or_new_name k (mutex_lock ns) name).2.refcount + 1) % 2 ^ 32,
            slot := if slot = 2 ^ 32 - 1 then (find_or_new_name k (mutex_lock ns) name).2.slot
                    else slot,
            client_list := c :: (find_or_new_name k (mutex_lock ns) name).2.client_list } := by
    rw [mutex_lock_name_table, hnt, find_name_store]
    simp [hfname, hfind]
  have hfindc : _nc_table_find_n (mutex_lock ns1).client_table c
      = some { client_id := c,
               info := { calloc_client_info with
                 name_info := some name,
                 notify_type := if slot = 2 ^ 32 - 1 then NOTIFY_TYPE_PLAIN
                                else NOTIFY_TYPE_MEMORY,
                 session := task } } := by
    rw [mutex_lock_client_table, hct]
    simp [_nc_table_find_n]
  obtain ⟨ns3, hcan, g1, g2, g3, g4, _⟩ :=
    internal_cancel_eq (mutex_lock ns1) c _ name _ hc0 hfindc rfl hfind1
  refine ⟨mutex_unlock ns3, ?_, ?_, ?_, ?_, ?_, ?_⟩
  · unfold _notify_lib_cancel
    rw [hcan]
  · rw [mutex_unlock_name_table, g1, mutex_lock_name_table, hnt,
      name_store_name_store _ _ _ (by rfl)]
    simp only [_nc_list_find_release, if_true]
    rcases find_or_new_name_cases k (mutex_lock ns) name with ⟨n, e1, e2, e3⟩ | ⟨e1, e2, e3⟩
    · rw [mutex_lock_name_table] at e1 e3
      obtain ⟨r0, r32, hslot⟩ := hname n e1
      rw [e3, e2]
      have hdec : ((n.refcount + 1) % 2 ^ 32 + 2 ^ 32 - 1) % 2 ^ 32 = n.refcount := by omega
      have hsl : (if slot = 2 ^ 32 - 1 then n.slot else slot) = n.slot := by
        rcases hslot with h | h
        · rw [if_pos h]
        · split
          · rfl
          · exact h
      rw [hdec, hsl, if_neg r0]
      exact name_store_self _ _ _ e1
    · rw [mutex_lock_name_table] at e1 e3
      rw [e3, e2]
      have hdec : ((0 + 1) % 2 ^ 32 + 2 ^ 32 - 1) % 2 ^ 32 = 0 := by decide
      simp only [hdec, if_true]
      simp only [name_store, if_true, _nc_table_delete]
      exact table_delete_of_find_none _ _ e1
  · rw [mutex_unlock_client_table, g2, mutex_lock_client_table, hct]
    simp only [_nc_table_delete_n, if_true]
    exact delete_n_of_find_none _ _ hcfree
  · have g3a := congrArg Prod.snd g3
    simp only [mutex_lock_client_id, mutex_lock_free_client_list] at g3a
    have e1 : ns1.free_client_list = (ns1.free_client_list, ns1.client_id).1 := rfl
    have e2 : ns1.client_id = (ns1.free_client_list, ns1.client_id).2 := rfl
    rw [e1, e2, hal, hc, alloc_new_release ns hinv hroom] at g3a
    rw [mutex_unlock_client_id]
    exact g3a
  · have g3a := congrArg Prod.fst g3
    simp only [mutex_lock_client_id, mutex_lock_free_client_list] at g3a
    have e1 : ns1.free_client_list = (ns1.free_client_list, ns1.client_id).1 := rfl
    have e2 : ns1.client_id = (ns1.free_client_list, ns1.client_id).2 := rfl
    rw [e1, e2, hal, hc, alloc_new_release ns hinv hroom] at g3a
    rw [mutex_unlock_free_client_list]
    exact g3a
  · rw [mutex_unlock_controlled_name, g4, mutex_lock_controlled_name, hcn]


/-- The registry with the single subscriber 1 of A, counter 1 and an empty free list
satisfies the allocator invariant in its inductive form. -/
theorem registry_ids_one_inv :
    allocator_inv_strong (registry_ids spec_consts 0 none 7 [1] 1 []) := by
  refine ⟨List.Pairwise.nil, ?_, ?_, ?_, ?_, by decide⟩
  · intro x hx
    cases hx
  · intro id h
    have : id = 1 := by
      by_contra hne
      simp [live, registry_ids, _nc_table_find_n, hne] at h
      exact hne h.symm
    subst this
    exact ⟨by decide, by decide⟩
  · intro id h1 h2
    have : id = 1 := Nat.le_antisymm h2 h1
    subst this
    left
    decide
  · intro x hx
    cases hx

/-- C13, amended, on the registry with the single subscriber 1 of A: a plain registration
on A without slot returns the id 2, and the cancellation of 2 restores the registry. -/
theorem register_then_cancel_witness :
    ∃ ns2, _notify_lib_cancel (registry_ids spec_consts 0 none 7 [2, 1] 2 []) 2 = some ns2 ∧
      ns2.name_table = (registry_ids spec_consts 0 none 7 [1] 1 []).name_table ∧
      ns2.client_table = (registry_ids spec_consts 0 none 7 [1] 1 []).client_table ∧
      ns2.client_id = (registry_ids spec_consts 0 none 7 [1] 1 []).client_id ∧
      ns2.free_client_list = (registry_ids spec_consts 0 none 7 [1] 1 []).free_client_list ∧
      ns2.controlled_name = (registry_ids spec_consts 0 none 7 [1] 1 []).controlled_name :=
  register_then_cancel spec_consts (registry_ids spec_consts 0 none 7 [1] 1 []) [65] 7
    4294967295 0 0 0 (registry_ids spec_consts 0 none 7 [2, 1] 2 []) 2
    registry_ids_one_inv (by decide)
    (by
      intro n hn
      have : n = ⟨[65], 0, 0, 201, 4294967295, 1, 1, 0, [1], 0⟩ := by
        have h2 : _nc_table_find (registry_ids spec_consts 0 none 7 [1] 1 []).name_table [65]
          = some ⟨[65], 0, 0, 201, 4294967295, 1, 1, 0, [1], 0⟩ := by decide
        rw [h2] at hn
        exact (Option.some.inj hn).symm
      subst this
      exact ⟨by decide, by decide, Or.inl (by decide)⟩)
    (by rfl)

/-- A registry without clients satisfies the allocator invariant when its free list is
strictly decreasing and holds every id in 1..client_id. -/
theorem allocator_inv_no_clients (ns : notify_state_t) (hct : ns.client_table = [])
    (hf : List.Pairwise (fun a b => a > b) ns.free_client_list)
    (hall : ∀ id, 1 ≤ id → id ≤ ns.client_id → id ∈ ns.free_client_list) :
    allocator_inv ns := by
  have hl : ∀ id, ¬ live ns id := by
    intro id
    simp [live, hct, _nc_table_find_n]
  exact ⟨hf, fun x _ => hl x, fun id h => absurd h (hl id),
    fun id h1 h2 => Or.inr (hall id h1 h2)⟩

/-- C13 as stated fails, in three registries that satisfy the allocator and the refcount
invariant.  (1) The name A with slot unassigned and the subscriber 1: after a plain
registration on A with the slot argument 5 and the cancellation of the returned id 2,
the slot of A is 5.  (2) No client, counter 1 and free list [1]: after a plain
registration on A, which returns the id 1, and the cancellation of 1, the counter is 0
and the free list is empty.  (3) The controlled name com.x and a record of com.x.child
with refcount 0: after a plain registration on com.x.child and the cancellation of the
returned id 1, com.x.child is no longer in the name table. -/
theorem register_then_cancel_differs :
    (allocator_inv (registry_ids spec_consts 0 none 7 [1] 1 []) ∧
      refcount_inv (registry_ids spec_consts 0 none 7 [1] 1 []) ∧
      ∃ ns1 ns2,
        _notify_lib_register_plain spec_consts (registry_ids spec_consts 0 none 7 [1] 1 [])
          [65] 7 5 0 0 0 = some (NOTIFY_STATUS_OK, ns1, 2) ∧
        _notify_lib_cancel ns1 2 = some ns2 ∧
        (_nc_table_find (registry_ids spec_consts 0 none 7 [1] 1 []).name_table [65]).map
          (fun n => n.slot) = some 4294967295 ∧
        (_nc_table_find ns2.name_table [65]).map (fun n => n.slot) = some 5) ∧
    (allocator_inv (registry_ids spec_consts 0 none 7 [] 1 [1]) ∧
      refcount_inv (registry_ids spec_consts 0 none 7 [] 1 [1]) ∧
      ∃ ns1 ns2,
        _notify_lib_register_plain spec_consts (registry_ids spec_consts 0 none 7 [] 1 [1])
          [65] 7 4294967295 0 0 0 = some (NOTIFY_STATUS_OK, ns1, 1) ∧
        _notify_lib_cancel ns1 1 = some ns2 ∧
        (registry_ids spec_consts 0 none 7 [] 1 [1]).client_id = 1 ∧
        (registry_ids spec_consts 0 none 7 [] 1 [1]).free_client_list = [1] ∧
        ns2.client_id = 0 ∧ ns2.free_client_list = []) ∧
    (allocator_inv
        { registry_com_x spec_consts 0 200 with
          name_table :=
            ⟨name_com_x_child, 0, 0, 201, 4294967295, 0, 1, 0, [], 1⟩
              :: (registry_com_x spec_consts 0 200).name_table } ∧
      refcount_inv
        { registry_com_x spec_consts 0 200 with
          name_table :=
            ⟨name_com_x_child, 0, 0, 201, 4294967295, 0, 1, 0, [], 1⟩
              :: (registry_com_x spec_consts 0 200).name_table } ∧
      ∃ ns1 ns2,
        _notify_lib_register_plain spec_consts
          { registry_com_x spec_consts 0 200 with
            name_table :=
              ⟨name_com_x_child, 0, 0, 201, 4294967295, 0, 1, 0, [], 1⟩
                :: (registry_com_x spec_consts 0 200).name_table }
          name_com_x_child 7 4294967295 501 20 0 = some (NOTIFY_STATUS_OK, ns1, 1) ∧
        _notify_lib_cancel ns1 1 = some ns2 ∧
        _nc_table_find ns2.name_table name_com_x_child = none) := by
  refine ⟨⟨allocator_inv_of_strong _ registry_ids_one_inv, by decide, _, _, rfl, rfl, ?_⟩,
    ⟨allocator_inv_no_clients _ rfl (by decide) ?_, by decide, _, _, rfl, rfl, ?_⟩,
    ⟨allocator_inv_no_clients _ rfl (by decide) ?_, by decide, _, _, rfl, rfl, ?_⟩⟩
  · decide
  · intro id h1 h2
    have h3 : id ≤ 1 := h2
    have : id = 1 := by omega
    subst this
    decide
  · decide
  · intro id h1 h2
    have h3 : id ≤ 0 := h2
    omega
  · decide

/-- The id a registration hands out is decided by the allocator state before the call. -/
theorem next_client_id_find_or_new (k : notify_consts) (ns : notify_state_t) (name : cstring)
    (n : name_info_t) :
    next_client_id { (find_or_new_name k (mutex_lock ns) name).1 with
      name_table := name_store (find_or_new_name k (mutex_lock ns) name).1.name_table n }
      = next_client_id ns :=
  next_client_id_congr _ ns (by simp) (by simp)

/-- A plain registration that returns OK returns the id the allocator hands out next. -/
theorem register_plain_token (k : notify_consts) (ns : notify_state_t) (name : cstring)
    (task slot uid gid tok : Nat) (ns1 : notify_state_t) (c : Nat)
    (h : _notify_lib_register_plain k ns name task slot uid gid tok
      = some (NOTIFY_STATUS_OK, ns1, c)) : c = next_client_id ns :=
  (register_plain_ok_fields k ns name task slot uid gid tok ns1 c h).1

/-- A signal registration that returns OK after pid_for_task has succeeded returns the
id the allocator hands out next. -/
theorem register_signal_token (k : notify_consts) (pid_for_task : Nat → Option Int)
    (ns : notify_state_t) (name : cstring)
    (task sig uid gid tok : Nat) (ns1 : notify_state_t) (c : Nat)
    (hpid : pid_for_task task ≠ none)
    (h : _notify_lib_register_signal k pid_for_task ns name task sig uid gid tok
      = some (NOTIFY_STATUS_OK, ns1, c)) : c = next_client_id ns := by
  unfold _notify_lib_register_signal at h
  simp only at h
  split at h
  · cases h
  · split at h
    · cases h
    · split at h
      · rename_i hp
        exact absurd hp hpid
      · simp only [Option.some.injEq, Prod.mk.injEq, true_and] at h
        rw [← h.2, (register_client_fields _ _ _).1]
        exact next_client_id_find_or_new k ns name _

/-- A file-descriptor registration that returns OK returns the id the allocator hands
out next. -/
theorem register_file_descriptor_token (k : notify_consts) (open_path : cstring → Int)
    (ns : notify_state_t) (name : cstring) (task : Nat) (path : cstring)
    (token uid gid tok : Nat) (ns1 : notify_state_t) (c : Nat)
    (h : _notify_lib_register_file_descriptor k open_path ns name task path token uid gid tok
      = some (NOTIFY_STATUS_OK, ns1, c)) : c = next_client_id ns := by
  unfold _notify_lib_register_file_descriptor at h
  simp only at h
  split at h
  · cases h
  · split at h
    · cases h
    · split at h
      · cases h
      · simp only [Option.some.injEq, Prod.mk.injEq, true_and] at h
        rw [← h.2, (register_client_fields _ _ _).1]
        exact next_client_id_find_or_new k ns name _

/-- A port registration that returns OK returns the id the allocator hands out next. -/
theorem register_mach_port_token (k : notify_consts)
    (ns : notify_state_t) (name : cstring) (task port token uid gid tok : Nat)
    (ns1 : notify_state_t) (c : Nat)
    (h : _notify_lib_register_mach_port k ns name task port token uid gid tok
      = some (NOTIFY_STATUS_OK, ns1, c)) : c = next_client_id ns := by
  unfold _notify_lib_register_mach_port at h
  simp only at h
  split at h
  · cases h
  · split at h
    · cases h
    · simp only [Option.some.injEq, Prod.mk.injEq, true_and] at h
      rw [← h.2, (register_client_fields _ _ _).1]
      exact next_client_id_find_or_new k ns name _

/-- The id of a new client.  In a registry that satisfies the allocator invariant, whose
recycled ids are nonzero (as every client id of the data model) and whose counter is
below 2^32 - 1, the id that _internal_client_new gives to the new client is the head of
the free list when the free list is not empty, and then no id on the free list is larger,
and the counter plus one otherwise; it is not 0 and it is not the id of a live client;
and a registration that returns OK returns that id, but for the signal registration in
which pid_for_task fails. -/
theorem registration_returns_next_id (k : notify_consts) (ns : notify_state_t)
    (hinv : allocator_inv ns) (hfree : ∀ x ∈ ns.free_client_list, x ≠ 0)
    (hroom : ns.client_id < 2 ^ 32 - 1) :
    (_internal_client_new ns).2.client_id
      = (match ns.free_client_list with
         | x :: _ => x
         | [] => ns.client_id + 1) ∧
    (∀ y ∈ ns.free_client_list, y ≤ (_internal_client_new ns).2.client_id) ∧
    (_internal_client_new ns).2.client_id ≠ 0 ∧
    ¬ live ns (_internal_client_new ns).2.client_id ∧
    (∀ name task slot uid gid tok ns1 c,
      _notify_lib_register_plain k ns name task slot uid gid tok
        = some (NOTIFY_STATUS_OK, ns1, c) → c = (_internal_client_new ns).2.client_id) ∧
    (∀ pid_for_task name task sig uid gid tok ns1 c, pid_for_task task ≠ none →
      _notify_lib_register_signal k pid_for_task ns name task sig uid gid tok
        = some (NOTIFY_STATUS_OK, ns1, c) → c = (_internal_client_new ns).2.client_id) ∧
    (∀ open_path name task path token uid gid tok ns1 c,
      _notify_lib_register_file_descriptor k open_path ns name task path token uid gid tok
        = some (NOTIFY_STATUS_OK, ns1, c) → c = (_internal_client_new ns).2.client_id) ∧
    (∀ name task port token uid gid tok ns1 c,
      _notify_lib_register_mach_port k ns name task port token uid gid tok
        = some (NOTIFY_STATUS_OK, ns1, c) → c = (_internal_client_new ns).2.client_id) := by
  have hnew : (_internal_client_new ns).2.client_id = next_client_id ns := by
    unfold _internal_client_new next_client_id
    cases ns.free_client_list <;> rfl
  obtain ⟨hsorted, hnotlive, hrange, _⟩ := hinv
  refine ⟨?_, ?_, ?_, ?_, ?_, ?_, ?_, ?_⟩
  · rw [hnew]
    unfold next_client_id
    cases ns.free_client_list with
    | nil =>
      simp only
      omega
    | cons x rest => rfl
  · rw [hnew]
    unfold next_client_id
    intro y hy
    cases hfl : ns.free_client_list with
    | nil => rw [hfl] at hy; cases hy
    | cons x rest =>
      rw [hfl] at hy hsorted
      simp only
      rcases List.mem_cons.mp hy with h | h
      · exact le_of_eq h
      · exact le_of_lt ((List.pairwise_cons.mp hsorted).1 y h)
  · rw [hnew]
    unfold next_client_id
    cases hfl : ns.free_client_list with
    | nil =>
      simp only
      omega
    | cons x rest =>
      simp only
      exact hfree x (by rw [hfl]; exact List.mem_cons_self _ _)
  · rw [hnew]
    unfold next_client_id
    cases hfl : ns.free_client_list with
    | nil =>
      simp only
      intro hl
      have := (hrange _ hl).2
      omega
    | cons x rest =>
      simp only
      exact hnotlive x (by rw [hfl]; exact List.mem_cons_self _ _)
  · intro name task slot uid gid tok ns1 c h
    rw [hnew]
    exact register_plain_token k ns name task slot uid gid tok ns1 c h
  · intro pid_for_task name task sig uid gid tok ns1 c hpid h
    rw [hnew]
    exact register_signal_token k pid_for_task ns name task sig uid gid tok ns1 c hpid h
  · intro open_path name task path token uid gid tok ns1 c h
    rw [hnew]
    exact register_file_descriptor_token k open_path ns name task path token uid gid tok
      ns1 c h
  · intro name task port token uid gid tok ns1 c h
    rw [hnew]
    exact register_mach_port_token k ns name task port token uid gid tok ns1 c h


/-- The registry with the live clients 3 and 1, the counter 3 and the free list [2]
satisfies the allocator invariant. -/
theorem registry_ids_gap_inv :
    allocator_inv (registry_ids spec_consts 0 none 7 [3, 1] 3 [2]) := by
  have hl : ∀ id, live (registry_ids spec_consts 0 none 7 [3, 1] 3 [2]) id ↔
      id = 3 ∨ id = 1 := by
    intro id
    by_cases h3 : id = 3
    · subst h3; simp [live, registry_ids, _nc_table_find_n]
    · by_cases h1 : id = 1
      · subst h1; simp [live, registry_ids, _nc_table_find_n]
      · have h3b : ¬ 3 = id := fun h => h3 h.symm
        have h1b : ¬ 1 = id := fun h => h1 h.symm
        simp [live, registry_ids, _nc_table_find_n, h3, h1, h3b, h1b]
  refine ⟨by decide, ?_, ?_, ?_⟩
  · intro x hx
    have : x = 2 := by simpa [registry_ids] using hx
    subst this
    decide
  · intro id h
    have hc : (registry_ids spec_consts 0 none 7 [3, 1] 3 [2]).client_id = 3 := rfl
    rw [hc]
    rcases (hl id).mp h with h | h <;> omega
  · intro id h1 h2
    have hc : (registry_ids spec_consts 0 none 7 [3, 1] 3 [2]).client_id = 3 := rfl
    rw [hc] at h2
    have hf : (registry_ids spec_consts 0 none 7 [3, 1] 3 [2]).free_client_list = [2] := rfl
    rw [hf, hl id]
    have : id = 1 ∨ id = 2 ∨ id = 3 := by omega
    rcases this with h | h | h
    · exact Or.inl (Or.inr h)
    · exact Or.inr (by rw [h]; exact List.mem_cons_self _ _)
    · exact Or.inl (Or.inl h)

/-- The id of a new client on the registry with the live clients 3 and 1, counter 3 and
free list [2]: a plain registration returns the id 2, the head of the free list. -/
theorem registration_returns_next_id_witness :
    allocator_inv (registry_ids spec_consts 0 none 7 [3, 1] 3 [2]) ∧
    _notify_lib_register_plain spec_consts (registry_ids spec_consts 0 none 7 [3, 1] 3 [2])
      [65] 7 4294967295 0 0 0
      = some (NOTIFY_STATUS_OK, registry_ids spec_consts 0 none 7 [2, 3, 1] 3 [], 2) ∧
    2 = (_internal_client_new (registry_ids spec_consts 0 none 7 [3, 1] 3 [2])).2.client_id ∧
    (_internal_client_new (registry_ids spec_consts 0 none 7 [3, 1] 3 [2])).2.client_id ≠ 0 ∧
    ¬ live (registry_ids spec_consts 0 none 7 [3, 1] 3 [2])
      (_internal_client_new (registry_ids spec_consts 0 none 7 [3, 1] 3 [2])).2.client_id :=
  have h := registration_returns_next_id spec_consts
    (registry_ids spec_consts 0 none 7 [3, 1] 3 [2]) registry_ids_gap_inv
    (by decide) (by decide)
  ⟨registry_ids_gap_inv, rfl,
    h.2.2.2.2.1 [65] 7 4294967295 0 0 0 (registry_ids spec_consts 0 none 7 [2, 3, 1] 3 []) 2
      rfl,
    h.2.2.1, h.2.2.2.1⟩

/-- C14 fails on the code: the registry with the live clients 3 and 1, the counter 3 and
the free list [2] satisfies the allocator invariant, with the counter below 2^32 - 1.  A
signal registration in which pid_for_task fails returns there the status 0, which is
NOTIFY_STATUS_OK, without allocating a client and without writing the out-parameter
(`return 0` where the other failure returns give a status): the registry is as before,
and the id the caller reads is the value the out-parameter had before the call.  With 3
there, the registration reports success with the id of a client that was live before the
call; with 0 there, with the id 0; the allocator would have handed out 2, the head of
the free list. -/
theorem register_signal_ok_without_client :
    allocator_inv (registry_ids spec_consts 0 none 7 [3, 1] 3 [2]) ∧
    (registry_ids spec_consts 0 none 7 [3, 1] 3 [2]).client_id < 2 ^ 32 - 1 ∧
    (registry_ids spec_consts 0 none 7 [3, 1] 3 [2]).free_client_list = [2] ∧
    (_internal_client_new (registry_ids spec_consts 0 none 7 [3, 1] 3 [2])).2.client_id = 2 ∧
    _notify_lib_register_signal spec_consts (fun _ => none)
        (registry_ids spec_consts 0 none 7 [3, 1] 3 [2]) [65] 7 30 0 0 3
      = some (NOTIFY_STATUS_OK, registry_ids spec_consts 0 none 7 [3, 1] 3 [2], 3) ∧
    live (registry_ids spec_consts 0 none 7 [3, 1] 3 [2]) 3 ∧
    _notify_lib_register_signal spec_consts (fun _ => none)
        (registry_ids spec_consts 0 none 7 [3, 1] 3 [2]) [65] 7 30 0 0 0
      = some (NOTIFY_STATUS_OK, registry_ids spec_consts 0 none 7 [3, 1] 3 [2], 0) :=
  ⟨registry_ids_gap_inv, by decide, rfl, rfl, rfl, by decide, rfl⟩

/-- C17: for a live client (nonzero id) subscribed to a name present in the name table,
the first of two consecutive checks returns OK with flag 0 or 1, and the second, made on
the registry the first one leaves, returns OK with flag 0, whatever the values of the
out-parameter before the calls. -/
theorem check_twice (ns : notify_state_t) (cid : Nat) (check check2 : Int) (c : client_t)
    (np : cstring) (n : name_info_t)
    (hcid : cid ≠ 0)
    (hc : _nc_table_find_n ns.client_table cid = some c)
    (hnp : c.info.name_info = some np)
    (hn : _nc_table_find ns.name_table np = some n) :
    ∃ ns1 flag ns2, _notify_lib_check ns cid check = some (NOTIFY_STATUS_OK, ns1, flag) ∧
      (flag = 0 ∨ flag = 1) ∧
      _notify_lib_check ns1 cid check2 = some (NOTIFY_STATUS_OK, ns2, 0) := by
  have hid := find_client_eq _ _ _ hc
  by_cases hv : n.val = c.info.lastval
  · refine ⟨mutex_unlock (mutex_lock ns), 0, mutex_unlock (mutex_lock (mutex_unlock (mutex_lock ns))),
      ?_, Or.inl rfl, ?_⟩
    · simp [_notify_lib_check, hcid, hc, hnp, hn, hv]
    · simp [_notify_lib_check, hcid, hc, hnp, hn, hv]
  · refine ⟨mutex_unlock
        { mutex_lock ns with
          client_table := client_store ns.client_table
            { c with info := { c.info with lastval := n.val } } },
      1, mutex_unlock (mutex_lock (mutex_unlock
        { mutex_lock ns with
          client_table := client_store ns.client_table
            { c with info := { c.info with lastval := n.val } } })), ?_, Or.inr rfl, ?_⟩
    · simp [_notify_lib_check, hcid, hc, hnp, hn, hv]
    · simp [_notify_lib_check, hcid, hc, hnp, hn, hv, find_client_store, hid]

/-- C17 at the registry of the scenario "Basic post/check" after a post: client 1 saw
val 1 last and the name is at val 2; the two checks return the flags 1 and 0. -/
theorem check_twice_witness :
    _notify_lib_check (registry_A spec_consts 0 7 2 1) 1 0
      = some (NOTIFY_STATUS_OK, registry_A spec_consts 0 7 2 2, 1) ∧
    ∃ ns1 flag ns2, _notify_lib_check (registry_A spec_consts 0 7 2 1) 1 0
        = some (NOTIFY_STATUS_OK, ns1, flag) ∧
      (flag = 0 ∨ flag = 1) ∧
      _notify_lib_check ns1 1 1 = some (NOTIFY_STATUS_OK, ns2, 0) :=
  ⟨rfl, check_twice (registry_A spec_consts 0 7 2 1) 1 0 1
    { client_id := 1,
      info := { calloc_client_info with
        name_info := some [65], notify_type := NOTIFY_TYPE_PLAIN,
        lastval := 1, session := 7 } }
    [65]
    ⟨[65], 0, 0, 201, 4294967295, 1, 2, 0, [1], 0⟩
    (by decide) (by decide) (by decide) (by decide)⟩

/-- The int that get_val reads back from the uint32_t in which set_val stored an int. -/
theorem int_round_trip (v : Int) (h1 : -2 ^ 31 ≤ v) (h2 : v < 2 ^ 31) :
    (if (v % 2 ^ 32).toNat < 2 ^ 31 then (((v % 2 ^ 32).toNat : Nat) : Int)
      else (((v % 2 ^ 32).toNat : Nat) : Int) - 2 ^ 32) = v := by
  have hnn : 0 ≤ v % 2 ^ 32 := Int.emod_nonneg _ (by norm_num)
  have hc : (((v % 2 ^ 32).toNat : Nat) : Int) = v % 2 ^ 32 := Int.toNat_of_nonneg hnn
  have hlt : ((v % 2 ^ 32).toNat < 2 ^ 31) ↔ v % 2 ^ 32 < 2 ^ 31 := by
    rw [← hc]
    norm_cast
  rw [hc]
  simp only [hlt]
  split <;> omega

/-- C18: for a live client (nonzero id) subscribed to a name present in the name table
and a caller that passes the write check on that name: set_val with an int v returns OK
and get_val on the registry it leaves returns OK and v, and the record of the name is
then the one before with val replaced, so that state is unchanged; set_state with a
64-bit s returns OK and get_state on the registry it leaves returns OK and s, and the
record of the name is then the one before with state replaced, so that val is
unchanged. -/
theorem set_get_round_trip (k : notify_consts) (ns : notify_state_t) (cid : Nat)
    (c : client_t) (np : cstring) (n : name_info_t) (uid gid : Nat) (v : Int) (s : Nat)
    (hcid : cid ≠ 0)
    (hc : _nc_table_find_n ns.client_table cid = some c)
    (hnp : c.info.name_info = some np)
    (hn : _nc_table_find ns.name_table np = some n)
    (hw : _internal_check_access k ns n uid gid k.NOTIFY_ACCESS_WRITE = some NOTIFY_STATUS_OK)
    (hv1 : -2 ^ 31 ≤ v) (hv2 : v < 2 ^ 31) (hs : s < 2 ^ 64) :
    (∃ ns1 ns2, _notify_lib_set_val k ns cid v uid gid = some (NOTIFY_STATUS_OK, ns1) ∧
      _notify_lib_get_val ns1 cid = some (NOTIFY_STATUS_OK, ns2, v) ∧
      _nc_table_find ns1.name_table np = some { n with val := (v % 2 ^ 32).toNat }) ∧
    (∃ ns1 ns2, _notify_lib_set_state k ns cid s uid gid = some (NOTIFY_STATUS_OK, ns1) ∧
      _notify_lib_get_state ns1 cid = some (NOTIFY_STATUS_OK, ns2, s) ∧
      _nc_table_find ns1.name_table np = some { n with state := s }) := by
  have hname := find_name_eq _ _ _ hn
  constructor
  · have hf : _nc_table_find (name_store ns.name_table { n with val := (v % 2 ^ 32).toNat }) np
        = some { n with val := (v % 2 ^ 32).toNat } := by
      rw [find_name_store]
      simp [hname, hn]
    refine ⟨mutex_unlock { mutex_lock ns with
        name_table := name_store ns.name_table { n with val := (v % 2 ^ 32).toNat } },
      mutex_unlock (mutex_lock (mutex_unlock { mutex_lock ns with
        name_table := name_store ns.name_table { n with val := (v % 2 ^ 32).toNat } })),
      ?_, ?_, ?_⟩
    · unfold _notify_lib_set_val
      simp only [if_neg hcid, mutex_lock_client_table, hc, hnp, mutex_lock_name_table, hn,
        check_access_mutex_lock, hw, ne_eq, not_true_eq_false, if_false]
    · unfold _notify_lib_get_val
      simp only [if_neg hcid, mutex_lock_client_table, mutex_unlock_client_table, hc, hnp,
        mutex_lock_name_table, mutex_unlock_name_table, hf]
      rw [int_round_trip v hv1 hv2]
    · simp only [mutex_unlock_name_table, hf]
  · have hf : _nc_table_find (name_store ns.name_table { n with state := s }) np
        = some { n with state := s } := by
      rw [find_name_store]
      simp [hname, hn]
    refine ⟨mutex_unlock { mutex_lock ns with
        name_table := name_store ns.name_table { n with state := s } },
      mutex_unlock (mutex_lock (mutex_unlock { mutex_lock ns with
        name_table := name_store ns.name_table { n with state := s } })),
      ?_, ?_, ?_⟩
    · unfold _notify_lib_set_state
      simp only [if_neg hcid, mutex_lock_client_table, hc, hnp, mutex_lock_name_table, hn,
        check_access_mutex_lock, hw, ne_eq, not_true_eq_false, if_false]
    · unfold _notify_lib_get_state
      simp only [if_neg hcid, mutex_lock_client_table, mutex_unlock_client_table, hc, hnp,
        mutex_lock_name_table, mutex_unlock_name_table, hf]
    · simp only [mutex_unlock_name_table, hf]

/-- C18 at the registry of the scenario "Basic post/check": uid 0 sets the val of the
name of client 1 to -1 and reads -1 back, and sets the state to 2^64 - 1 and reads it
back. -/
theorem set_get_round_trip_witness :
    (∃ ns1 ns2, _notify_lib_set_val spec_consts (registry_A spec_consts 0 7 1 1) 1 (-1) 0 0
        = some (NOTIFY_STATUS_OK, ns1) ∧
      _notify_lib_get_val ns1 1 = some (NOTIFY_STATUS_OK, ns2, -1) ∧
      _nc_table_find ns1.name_table [65]
        = some ⟨[65], 0, 0, 201, 4294967295, 1, 4294967295, 0, [1], 0⟩) ∧
    (∃ ns1 ns2, _notify_lib_set_state spec_consts (registry_A spec_consts 0 7 1 1) 1
        18446744073709551615 0 0 = some (NOTIFY_STATUS_OK, ns1) ∧
      _notify_lib_get_state ns1 1 = some (NOTIFY_STATUS_OK, ns2, 18446744073709551615) ∧
      _nc_table_find ns1.name_table [65]
        = some ⟨[65], 0, 0, 201, 4294967295, 1, 1, 18446744073709551615, [1], 0⟩) :=
  set_get_round_trip spec_consts (registry_A spec_consts 0 7 1 1) 1
    { client_id := 1,
      info := { calloc_client_info with
        name_info := some [65], notify_type := NOTIFY_TYPE_PLAIN,
        lastval := 1, session := 7 } }
    [65]
    ⟨[65], 0, 0, 201, 4294967295, 1, 1, 0, [1], 0⟩ 0 0 (-1) 18446744073709551615
    (by decide) (by decide) (by decide) (by decide) (by decide) (by decide) (by decide)
    (by decide)

/-- The insertion loop returns when every entry designates a record of the name table. -/
theorem controlled_insert_some (ns : notify_state_t) (n : name_ptr) (l : List name_ptr)
    (h : ∀ q ∈ l, (name_deref ns.name_table q).isSome) :
    ∃ l2, controlled_insert ns n l = some l2 := by
  induction l with
  | nil => exact ⟨_, rfl⟩
  | cons q rest ih =>
    obtain ⟨p, hp⟩ := Option.isSome_iff_exists.mp (h q (List.mem_cons_self _ _))
    obtain ⟨l3, hl3⟩ := ih (fun x hx => h x (List.mem_cons_of_mem _ hx))
    simp only [controlled_insert, hp, hl3]
    split
    · exact ⟨_, rfl⟩
    · exact ⟨_, rfl⟩

/-- The function _internal_insert_controlled_name returns and leaves the name table as it
is when every entry designates a record of the name table. -/
theorem insert_controlled_name_some (ns : notify_state_t) (n : name_ptr)
    (h : ∀ q ∈ ns.controlled_name, (name_deref ns.name_table q).isSome) :
    ∃ ns1, _internal_insert_controlled_name ns n = some ns1 ∧
      ns1.name_table = ns.name_table := by
  unfold _internal_insert_controlled_name
  split
  · exact ⟨ns, rfl, rfl⟩
  · obtain ⟨l2, hl2⟩ := controlled_insert_some ns n ns.controlled_name h
    rw [hl2]
    exact ⟨_, rfl, rfl⟩

theorem isSome_find_name_store (t : List name_info_t) (n : name_info_t) (key : cstring) :
    (_nc_table_find (name_store t n) key).isSome = (_nc_table_find t key).isSome := by
  rw [find_name_store]
  split <;> simp

theorem isSome_find_new_name (k : notify_consts) (ns : notify_state_t) (name key : cstring)
    (h : (_nc_table_find ns.name_table key).isSome) :
    (_nc_table_find (_internal_new_name k ns name).1.name_table key).isSome := by
  simp only [_internal_new_name, _nc_table_insert, _nc_table_find]
  split
  · rfl
  · exact h

/-- A write through a pointer leaves the record at its address, so the pointers that
designated a record before the write designate one after it. -/
theorem isSome_deref_name_store (t : List name_info_t) (n r : name_info_t) (q : name_ptr)
    (hr : _nc_table_find t n.name = some r) (ha : n.addr = r.addr) :
    (name_deref (name_store t n) q).isSome = (name_deref t q).isSome := by
  unfold name_deref
  rw [find_name_store]
  by_cases hq : q.name = n.name
  · rw [if_pos hq, hq, hr]
    simp only [Option.map, ha]
    by_cases hra : r.addr = q.addr
    · simp only [if_pos hra, Option.isSome]
    · simp only [if_neg hra, Option.isSome]
  · rw [if_neg hq]

/-- The pointers that designate a record still designate it once a record is created for
a name that was not in the name table. -/
theorem deref_new_name (k : notify_consts) (ns : notify_state_t) (name : cstring)
    (q : name_ptr) (hnone : _nc_table_find ns.name_table name = none)
    (h : (name_deref ns.name_table q).isSome) :
    name_deref (_internal_new_name k ns name).1.name_table q = name_deref ns.name_table q := by
  have hq : ¬ name = q.name := by
    intro e
    unfold name_deref at h
    rw [← e, hnone] at h
    simp at h
  simp only [_internal_new_name, _nc_table_insert, name_deref, _nc_table_find, if_neg hq]

theorem insert_controlled_name_ne_none (ns : notify_state_t) (n : name_ptr)
    (h : ∀ q ∈ ns.controlled_name, (name_deref ns.name_table q).isSome) :
    _internal_insert_controlled_name ns n ≠ none := by
  obtain ⟨ns1, h1, _⟩ := insert_controlled_name_some ns n h
  rw [h1]
  exact Option.some_ne_none _

theorem insert_controlled_name_name_table (ns ns1 : notify_state_t) (n : name_ptr)
    (h : _internal_insert_controlled_name ns n = some ns1) :
    ns1.name_table = ns.name_table := by
  unfold _internal_insert_controlled_name at h
  split at h
  · cases h; rfl
  · split at h
    · cases h
    · cases h; rfl

/-- C19: in a registry whose controlled names all designate records of the name table,
set_access of any name to a 32-bit mode word returns OK, and get_access of that name on
the registry it leaves returns OK and the mode word. -/
theorem set_access_get_access (k : notify_consts) (ns : notify_state_t) (name : cstring)
    (mode : Nat) (hmode : mode < 2 ^ 32)
    (hvalid : ∀ q ∈ ns.controlled_name, (name_deref ns.name_table q).isSome) :
    ∃ ns1 ns2, _notify_lib_set_access k ns name mode = some (NOTIFY_STATUS_OK, ns1) ∧
      _notify_lib_get_access k ns1 name = some (NOTIFY_STATUS_OK, ns2, mode) := by
  unfold _notify_lib_set_access
  simp only
  cases hfind : _nc_table_find (mutex_lock ns).name_table name with
  | some n =>
    have hname := find_name_eq _ _ _ hfind
    simp only
    split
    · rename_i heq
      refine absurd heq (insert_controlled_name_ne_none _ _ ?_)
      intro q hq
      have hv : (name_deref (mutex_lock ns).name_table q).isSome = true := by
        rw [mutex_lock_name_table]
        exact hvalid q (by simpa using hq)
      have hr : _nc_table_find (mutex_lock ns).name_table
          ({ n with access := mode } : name_info_t).name = some n := by
        show _nc_table_find (mutex_lock ns).name_table n.name = some n
        rw [hname]
        exact hfind
      exact (isSome_deref_name_store (mutex_lock ns).name_table { n with access := mode } n q
        hr rfl).trans hv
    · rename_i ns1 heq
      have h2 := insert_controlled_name_name_table _ _ _ heq
      refine ⟨_, mutex_unlock (mutex_lock (mutex_unlock ns1)), rfl, ?_⟩
      unfold _notify_lib_get_access
      have hf : _nc_table_find (mutex_lock (mutex_unlock ns1)).name_table name
          = some { n with access := mode } := by
        rw [mutex_lock_name_table, mutex_unlock_name_table, h2]
        simp only [find_name_store, hname, if_true, hfind, Option.map]
      simp only [hf]
  | none =>
    simp only
    split
    · rename_i heq
      refine absurd heq (insert_controlled_name_ne_none _ _ ?_)
      intro q hq
      have hv : (name_deref (mutex_lock ns).name_table q).isSome = true := by
        rw [mutex_lock_name_table]
        exact hvalid q (by simpa [_internal_new_name] using hq)
      have hd := deref_new_name k (mutex_lock ns) name q hfind hv
      have hb := isSome_deref_name_store
        (_internal_new_name k (mutex_lock ns) name).1.name_table
        { (_internal_new_name k (mutex_lock ns) name).2 with
          refcount := ((_internal_new_name k (mutex_lock ns) name).2.refcount + 1) % 2 ^ 32 }
        (_internal_new_name k (mutex_lock ns) name).2 q
        (by simp [_internal_new_name, _nc_table_insert, _nc_table_find]) rfl
      have ha := isSome_deref_name_store
        (name_store (_internal_new_name k (mutex_lock ns) name).1.name_table
          { (_internal_new_name k (mutex_lock ns) name).2 with
            refcount := ((_internal_new_name k (mutex_lock ns) name).2.refcount + 1) % 2 ^ 32 })
        { (_internal_new_name k (mutex_lock ns) name).2 with
          refcount := ((_internal_new_name k (mutex_lock ns) name).2.refcount + 1) % 2 ^ 32,
          access := mode }
        { (_internal_new_name k (mutex_lock ns) name).2 with
          refcount := ((_internal_new_name k (mutex_lock ns) name).2.refcount + 1) % 2 ^ 32 }
        q
        (by simp [find_name_store, _internal_new_name, _nc_table_insert, _nc_table_find]) rfl
      exact ha.trans (hb.trans (by rw [hd]; exact hv))
    · rename_i ns1 heq
      have h2 := insert_controlled_name_name_table _ _ _ heq
      refine ⟨_, mutex_unlock (mutex_lock (mutex_unlock ns1)), rfl, ?_⟩
      unfold _notify_lib_get_access
      have hf : _nc_table_find (mutex_lock (mutex_unlock ns1)).name_table name
          = some { (_internal_new_name k (mutex_lock ns) name).2 with
                refcount := ((_internal_new_name k (mutex_lock ns) name).2.refcount + 1)
                  % 2 ^ 32,
                access := mode } := by
        rw [mutex_lock_name_table, mutex_unlock_name_table, h2]
        simp [find_name_store, _internal_new_name, _nc_table_insert, _nc_table_find]
      simp only [hf]

/-- C19 at the registry of the scenario "Access hierarchy": com.x is controlled, and
com.x.child, which is not in the name table, is given the mode word 438. -/
theorem set_access_get_access_witness :
    ∃ ns1 ns2, _notify_lib_set_access spec_consts (registry_com_x spec_consts 0 200)
        name_com_x_child 438 = some (NOTIFY_STATUS_OK, ns1) ∧
      _notify_lib_get_access spec_consts ns1 name_com_x_child
        = some (NOTIFY_STATUS_OK, ns2, 438) :=
  set_access_get_access spec_consts (registry_com_x spec_consts 0 200) name_com_x_child 438
    (by decide) (by decide)

/-- The loop of get_owner and get_access over a list of valid controlled names, for a
name that is not in the name table: either no entry is a proper leading part of the name
and the loop runs to the end, or it returns at the first entry that is one. -/
theorem controlled_lookup_spec (ns : notify_state_t) (name : cstring) (l : List name_ptr)
    (hnone : _nc_table_find ns.name_table name = none)
    (hvalid : ∀ q ∈ l, (name_deref ns.name_table q).isSome) :
    ((∀ q ∈ l, ¬ proper_lead q.name name) ∧ controlled_lookup ns name l = some none) ∨
    (∃ l1 q l2 p, l = l1 ++ q :: l2 ∧ (∀ x ∈ l1, ¬ proper_lead x.name name) ∧
        proper_lead q.name name ∧ name_deref ns.name_table q = some p ∧
        controlled_lookup ns name l = some (some (p, true))) := by
  induction l with
  | nil => left; exact ⟨by simp, rfl⟩
  | cons q rest ih =>
    obtain ⟨p, hp⟩ := Option.isSome_iff_exists.mp (hvalid q (List.mem_cons_self _ _))
    have hpq : p.name = q.name := (name_deref_some _ _ _ hp).2.1
    have ih1 := ih (fun x hx => hvalid x (List.mem_cons_of_mem _ hx))
    have h1 : ¬ strcmp q.name name = 0 := by
      rw [strcmp_eq_zero_iff]
      intro e
      have hf := (name_deref_some _ _ _ hp).1
      rw [e, hnone] at hf
      cases hf
    by_cases hlead : proper_lead q.name name
    · right
      refine ⟨[], q, rest, p, rfl, by simp, hlead, hp, ?_⟩
      obtain ⟨_, h2, h3⟩ := (scan_match_iff q.name name).mpr hlead
      simp only [controlled_lookup, hp, hpq, if_neg h1, if_neg h2, if_neg h3]
    · have hskip : controlled_lookup ns name (q :: rest) = controlled_lookup ns name rest := by
        simp only [controlled_lookup, hp, hpq]
        by_cases h2 : q.name.length ≥ name.length
        · simp only [if_neg h1, if_pos h2]
        · by_cases h3 : strncmp q.name name q.name.length ≠ 0
          · simp only [if_neg h1, if_neg h2, if_pos h3]
          · exact absurd ((scan_match_iff q.name name).mp ⟨h1, h2, h3⟩) hlead
      rcases ih1 with ⟨hno, hres⟩ | ⟨l1, q1, l2, p1, hl, hno, hl1, hp1, hres⟩
      · left
        refine ⟨?_, by rw [hskip, hres]⟩
        intro x hx
        rcases List.mem_cons.mp hx with rfl | hx
        · exact hlead
        · exact hno x hx
      · right
        refine ⟨q :: l1, q1, l2, p1, by simp [hl], ?_, hl1, hp1, by rw [hskip, hres]⟩
        intro x hx
        rcases List.mem_cons.mp hx with rfl | hx
        · exact hlead
        · exact hno x hx

/-- C20: with the controlled names in reverse lexicographic order (and each pointer of
the list designating a record of the name table), get_owner of a name that is in the
name table returns OK with the uid and gid of its record; get_owner of a name that is
not in the name table returns OK with the uid and gid of the record of the longest
controlled name that is a proper leading part of the name, and with (0, 0) when no
controlled name is a proper leading part of it. -/
theorem get_owner_deepest (ns : notify_state_t) (name : cstring)
    (hsorted : reverse_sorted ns.controlled_name)
    (hvalid : ∀ q ∈ ns.controlled_name, (name_deref ns.name_table q).isSome) :
    (∀ n, _nc_table_find ns.name_table name = some n →
      ∃ ns1, _notify_lib_get_owner ns name = some (NOTIFY_STATUS_OK, ns1, n.uid, n.gid)) ∧
    (_nc_table_find ns.name_table name = none →
      (∀ q p, longest_controlled_lead ns name q → name_deref ns.name_table q = some p →
        ∃ ns1, _notify_lib_get_owner ns name = some (NOTIFY_STATUS_OK, ns1, p.uid, p.gid)) ∧
      ((∀ q ∈ ns.controlled_name, ¬ proper_lead q.name name) →
        ∃ ns1, _notify_lib_get_owner ns name = some (NOTIFY_STATUS_OK, ns1, 0, 0))) := by
  constructor
  · intro n hn
    refine ⟨mutex_unlock (mutex_lock ns), ?_⟩
    simp only [_notify_lib_get_owner, mutex_lock_name_table, hn]
  · intro hnone
    have hspec := controlled_lookup_spec ns name ns.controlled_name hnone hvalid
    have hcongr : controlled_lookup (mutex_lock ns) name (mutex_lock ns).controlled_name
        = controlled_lookup ns name ns.controlled_name := by
      rw [mutex_lock_controlled_name]
      generalize ns.controlled_name = l
      induction l with
      | nil => rfl
      | cons q rest ih => simp only [controlled_lookup, mutex_lock_name_table, ih]
    constructor
    · intro q p hq hp
      rcases hspec with ⟨hno, _⟩ | ⟨l1, q1, l2, p1, hl, hno, hl1, hp1, hres⟩
      · exact absurd hq.2.1 (hno q hq.1)
      · have hlong := first_lead_longest ns name l1 l2 q1 hl hsorted hno hl1
        have e := longest_lead_unique ns name q q1 hq hlong
        have e2 := name_deref_same_name ns.name_table q q1 p p1 e hp hp1
        subst e2
        refine ⟨mutex_unlock (mutex_lock ns), ?_⟩
        simp only [_notify_lib_get_owner, mutex_lock_name_table, hnone, hcongr, hres, if_true]
    · intro hno
      rcases hspec with ⟨_, hres⟩ | ⟨l1, q1, l2, p1, hl, _, hl1, _, _⟩
      · refine ⟨mutex_unlock (mutex_lock ns), ?_⟩
        simp only [_notify_lib_get_owner, mutex_lock_name_table, hnone, hcongr, hres]
      · exact absurd hl1 (hno q1 (by rw [hl]; simp))

/-- C20 at the registry of the scenario "Access hierarchy": com.x, owned by (501, 20),
is the only controlled name, and com.x.child is not in the name table; get_owner of
com.x.child returns (501, 20). -/
theorem get_owner_deepest_witness :
    reverse_sorted (registry_com_x spec_consts 0 200).controlled_name ∧
    _nc_table_find (registry_com_x spec_consts 0 200).name_table name_com_x_child = none ∧
    ∃ ns1, _notify_lib_get_owner (registry_com_x spec_consts 0 200) name_com_x_child
      = some (NOTIFY_STATUS_OK, ns1, 501, 20) :=
  ⟨by decide, by decide,
    ((get_owner_deepest (registry_com_x spec_consts 0 200) name_com_x_child
        (by decide) (by decide)).2 (by decide)).1 ⟨name_com_x, 0⟩
      ⟨name_com_x, 501, 20, 200, 4294967295, 1, 1, 0, [], 0⟩
      ⟨by decide, ⟨[46, 99, 104, 105, 108, 100], by decide, by decide⟩,
        fun q2 hq2 _ => by
          have e : q2 = ⟨name_com_x, 0⟩ := by simpa [registry_com_x] using hq2
          rw [e]⟩
      (by decide)⟩

/-! ## The order of the controlled names -/

theorem controlled_remove_sublist (n : name_ptr) (l : List name_ptr) :
    List.Sublist (controlled_remove n l) l := by
  induction l with
  | nil => exact List.Sublist.refl _
  | cons q rest ih =>
    simp only [controlled_remove]
    split
    · exact List.sublist_cons_self _ _
    · exact List.Sublist.cons₂ _ ih

/-- After a write through the pointer to a record of the name table, the pointer to the
record designates the record as written. -/
theorem name_deref_store_self (t : List name_info_t) (n : name_info_t)
    (h : (_nc_table_find t n.name).isSome) :
    name_deref (name_store t n) (ptr_of n) = some n := by
  obtain ⟨r, hr⟩ := Option.isSome_iff_exists.mp h
  refine name_deref_ptr_of (name_store t n) n.name n ?_
  rw [find_name_store, if_pos rfl, hr]
  rfl

theorem internal_cancel_controlled_name (ns ns1 : notify_state_t) (cid : Nat)
    (h : _internal_cancel ns cid = some ns1) : ns1.controlled_name = ns.controlled_name := by
  unfold _internal_cancel at h
  by_cases h0 : cid = 0
  · rw [if_pos h0] at h; cases h; rfl
  · rw [if_neg h0] at h
    cases hc : _nc_table_find_n ns.client_table cid with
    | none => rw [hc] at h; cases h; rfl
    | some c =>
      rw [hc] at h
      cases hnp : c.info.name_info with
      | none => simp only [hnp] at h; cases h; rfl
      | some np =>
        simp only [hnp] at h
        cases hn : _nc_table_find ns.name_table np with
        | none => simp only [hn] at h; cases h
        | some n =>
          simp only [hn] at h
          by_cases hz : (n.refcount + 2 ^ 32 - 1) % 2 ^ 32 = 0
          · rw [if_pos hz] at h
            cases h
            exact client_release_controlled_name _ c
          · rw [if_neg hz] at h
            cases h
            exact client_release_controlled_name _ c

theorem session_cancel_all_controlled_name (l : List Nat) :
    ∀ ns ns1 : notify_state_t, session_cancel_all ns l = some ns1 →
      ns1.controlled_name = ns.controlled_name := by
  induction l with
  | nil => intro ns ns1 h; simp [session_cancel_all] at h; rw [← h]
  | cons cid rest ih =>
    intro ns ns1 h
    simp only [session_cancel_all] at h
    split at h
    · cases h
    · rename_i ns2 h2
      rw [ih ns2 ns1 h, internal_cancel_controlled_name _ _ _ h2]

/-- Every public operation other than set_owner, set_access and release_name leaves the
controlled-name list as it is. -/
theorem op_step_controlled_name (k : notify_consts) (o : op_t) (ns ns1 : notify_state_t)
    (h : op_step k o ns = some ns1) :
    ns1.controlled_name = ns.controlled_name ∨
    (∃ name uid gid, o = op_t.set_owner name uid gid) ∨
    (∃ name mode, o = op_t.set_access name mode) ∨
    (∃ name uid gid, o = op_t.release_name name uid gid) := by
  cases o with
  | register_plain name task slot uid gid tok =>
    left
    obtain ⟨r, hr, rfl⟩ := Option.map_eq_some'.mp h
    unfold _notify_lib_register_plain at hr
    simp only at hr
    split at hr
    · cases hr
    · split at hr
      · cases hr; simp
      · cases hr
        simp only [mutex_unlock_controlled_name, (register_client_fields _ _ _).2.2.2.2]
        simp
  | register_signal pid_for_task name task sig uid gid tok =>
    left
    obtain ⟨r, hr, rfl⟩ := Option.map_eq_some'.mp h
    unfold _notify_lib_register_signal at hr
    simp only at hr
    split at hr
    · cases hr
    · split at hr
      · cases hr; simp
      · split at hr
        · cases hr; simp
        · cases hr
          simp only [mutex_unlock_controlled_name, (register_client_fields _ _ _).2.2.2.2]
          simp
  | register_file_descriptor open_path name task path token uid gid tok =>
    left
    obtain ⟨r, hr, rfl⟩ := Option.map_eq_some'.mp h
    unfold _notify_lib_register_file_descriptor at hr
    simp only at hr
    split at hr
    · cases hr
    · split at hr
      · cases hr; simp
      · split at hr
        · cases hr; simp
        · cases hr
          simp only [mutex_unlock_controlled_name, (register_client_fields _ _ _).2.2.2.2]
          simp
  | register_mach_port name task port token uid gid tok =>
    left
    obtain ⟨r, hr, rfl⟩ := Option.map_eq_some'.mp h
    unfold _notify_lib_register_mach_port at hr
    simp only at hr
    split at hr
    · cases hr
    · split at hr
      · cases hr; simp
      · cases hr
        simp only [mutex_unlock_controlled_name, (register_client_fields _ _ _).2.2.2.2]
        simp
  | cancel cid =>
    left
    simp only [op_step] at h
    unfold _notify_lib_cancel at h
    split at h
    · cases h
    · rename_i ns2 h2
      cases h
      rw [mutex_unlock_controlled_name, internal_cancel_controlled_name _ _ _ h2,
        mutex_lock_controlled_name]
  | cancel_session t =>
    left
    simp only [op_step] at h
    unfold _notify_lib_cancel_session at h
    simp only at h
    split at h
    · cases h
    · split at h
      · cases h
      · rename_i ns2 h2
        cases h
        rw [mutex_unlock_controlled_name, session_cancel_all_controlled_name _ _ _ h2,
          mutex_lock_controlled_name]
  | post wr name uid gid =>
    left
    obtain ⟨r, hr, rfl⟩ := Option.map_eq_some'.mp h
    unfold _notify_lib_post at hr
    simp only at hr
    split at hr
    · cases hr; simp
    · split at hr
      · cases hr
      · split at hr
        · cases hr; simp
        · split at hr
          · cases hr
          · cases hr; simp
  | check cid check =>
    left
    obtain ⟨r, hr, rfl⟩ := Option.map_eq_some'.mp h
    unfold _notify_lib_check at hr
    simp only at hr
    split at hr
    · cases hr; rfl
    · split at hr
      · cases hr; simp
      · split at hr
        · cases hr; simp
        · split at hr
          · cases hr
          · split at hr
            · cases hr; simp
            · cases hr; simp
  | peek cid val =>
    left
    obtain ⟨r, hr, rfl⟩ := Option.map_eq_some'.mp h
    unfold _notify_lib_peek at hr
    simp only at hr
    split at hr
    · cases hr; rfl
    · split at hr
      · cases hr; simp
      · split at hr
        · cases hr; simp
        · split at hr
          · cases hr
          · cases hr; simp
  | get_state cid =>
    left
    obtain ⟨r, hr, rfl⟩ := Option.map_eq_some'.mp h
    unfold _notify_lib_get_state at hr
    simp only at hr
    split at hr
    · cases hr; rfl
    · split at hr
      · cases hr; simp
      · split at hr
        · cases hr; simp
        · split at hr
          · cases hr
          · cases hr; simp
  | set_state cid state uid gid =>
    left
    obtain ⟨r, hr, rfl⟩ := Option.map_eq_some'.mp h
    unfold _notify_lib_set_state at hr
    simp only at hr
    split at hr
    · cases hr; rfl
    · split at hr
      · cases hr; simp
      · split at hr
        · cases hr; simp
        · split at hr
          · cases hr
          · split at hr
            · cases hr
            · split at hr
              · cases hr; simp
              · cases hr; simp
  | get_val cid =>
    left
    obtain ⟨r, hr, rfl⟩ := Option.map_eq_some'.mp h
    unfold _notify_lib_get_val at hr
    simp only at hr
    split at hr
    · cases hr; rfl
    · split at hr
      · cases hr; simp
      · split at hr
        · cases hr; simp
        · split at hr
          · cases hr
          · cases hr; simp
  | set_val cid val uid gid =>
    left
    obtain ⟨r, hr, rfl⟩ := Option.map_eq_some'.mp h
    unfold _notify_lib_set_val at hr
    simp only at hr
    split at hr
    · cases hr; rfl
    · split at hr
      · cases hr; simp
      · split at hr
        · cases hr; simp
        · split at hr
          · cases hr
          · split at hr
            · cases hr
            · split at hr
              · cases hr; simp
              · cases hr; simp
  | set_owner name uid gid => exact Or.inr (Or.inl ⟨_, _, _, rfl⟩)
  | get_owner name =>
    left
    obtain ⟨r, hr, rfl⟩ := Option.map_eq_some'.mp h
    unfold _notify_lib_get_owner at hr
    simp only at hr
    split at hr
    · cases hr; simp
    · split at hr
      · cases hr
      · cases hr
        split <;> simp
      · cases hr; simp
  | set_access name mode => exact Or.inr (Or.inr (Or.inl ⟨_, _, rfl⟩))
  | get_access name =>
    left
    obtain ⟨r, hr, rfl⟩ := Option.map_eq_some'.mp h
    unfold _notify_lib_get_access at hr
    simp only at hr
    split at hr
    · cases hr; simp
    · split at hr
      · cases hr
      · cases hr; simp
      · cases hr; simp
  | release_name name uid gid => exact Or.inr (Or.inr (Or.inr ⟨_, _, _, rfl⟩))

/-- The registry with the pointer to a freed record of A in the controlled-name list
and a later record of A in the name table is reachable. -/
theorem registry_stale_reachable : reachable spec_consts any_op registry_stale :=
  reachable.step _ _ (op_t.register_plain [65] 7 4294967295 0 0 0)
    (reachable.step _ _ (op_t.cancel 1)
      (reachable.step _ _ (op_t.set_owner [65] 501 20)
        (reachable.step _ _ (op_t.register_plain [65] 7 4294967295 0 0 0)
          (reachable.new 0) trivial rfl) trivial rfl) trivial rfl) trivial rfl

/-- In that registry the access check of a caller other than uid 0 reads the freed first
record of A through the pointer of the controlled-name list, although the name table
holds a record of A: the registration has no result. -/
theorem registry_stale_read :
    _notify_lib_register_plain spec_consts registry_stale [65, 46, 66] 8 4294967295 502 20 0
      = none ∧
    _notify_lib_set_owner spec_consts registry_stale [65] 501 20 = none := by
  constructor <;> rfl

theorem find_table_delete (t : List name_info_t) (key k2 : cstring) :
    _nc_table_find (_nc_table_delete t key) k2
      = if k2 = key then none else _nc_table_find t k2 := by
  induction t with
  | nil => simp [_nc_table_delete, _nc_table_find]
  | cons m rest ih =>
    by_cases hm : m.name = key
    · by_cases hk : k2 = key
      · subst hk
        simp [_nc_table_delete, _nc_table_find, hm, ih]
      · have : ¬ key = k2 := fun h => hk h.symm
        simp [_nc_table_delete, _nc_table_find, hm, hk, ih, this]
    · by_cases hk : k2 = key
      · subst hk
        simp [_nc_table_delete, _nc_table_find, hm, ih]
      · by_cases hmk : m.name = k2
        · simp [_nc_table_delete, _nc_table_find, hm, hk, hmk]
        · simp [_nc_table_delete, _nc_table_find, hm, hk, hmk, ih]

theorem find_release_filter (c : Nat) (l : List Nat) (h : l.Nodup) :
    _nc_list_find_release l c = l.filter (fun d => decide (d ≠ c)) := by
  induction l with
  | nil => rfl
  | cons d rest ih =>
    obtain ⟨hd, hrest⟩ := List.nodup_cons.mp h
    by_cases hdc : d = c
    · subst hdc
      simp only [_nc_list_find_release, if_true, ne_eq, not_true_eq_false, decide_False,
        List.filter_cons_of_neg, Bool.false_eq_true, not_false_eq_true]
      symm
      rw [List.filter_eq_self]
      intro x hx
      have : x ≠ d := fun e => hd (e ▸ hx)
      simp [this]
    · simp [_nc_list_find_release, hdc, ih hrest]

theorem find_of_mem (t : List name_info_t) (n : name_info_t)
    (hp : List.Pairwise (fun a b : name_info_t => a.name ≠ b.name) t) (h : n ∈ t) :
    _nc_table_find t n.name = some n := by
  induction t with
  | nil => cases h
  | cons m rest ih =>
    obtain ⟨hm, hrest⟩ := List.pairwise_cons.mp hp
    rcases List.mem_cons.mp h with e | h
    · subst e; simp [_nc_table_find]
    · have : ¬ m.name = n.name := hm n h
      simp [_nc_table_find, this, ih hrest h]

theorem mem_of_find (t : List name_info_t) (key : cstring) (n : name_info_t)
    (h : _nc_table_find t key = some n) : n ∈ t := by
  induction t with
  | nil => simp [_nc_table_find] at h
  | cons m rest ih =>
    by_cases hm : m.name = key
    · simp [_nc_table_find, hm] at h
      rw [h]; exact List.mem_cons_self _ _
    · simp [_nc_table_find, hm] at h
      exact List.mem_cons_of_mem _ (ih h)

/-- The inner loop of the traversal collects the clients of the list whose session is
t. -/
theorem session_collect_list_spec (ct : List client_t) (t : Nat) (l : List Nat) :
    ∀ x0 : List Nat, (∀ cid ∈ l, ∃ c, _nc_table_find_n ct cid = some c) →
      ∃ x, session_collect_list ct t l x0 = some x ∧
        ∀ d, d ∈ x ↔ d ∈ x0 ∨ (d ∈ l ∧ has_session ct t d = true) := by
  induction l with
  | nil => intro x0 _; exact ⟨x0, rfl, by simp⟩
  | cons cid rest ih =>
    intro x0 hv
    obtain ⟨c, hc⟩ := hv cid (List.mem_cons_self _ _)
    have hid := find_client_eq _ _ _ hc
    have hrest : ∀ d ∈ rest, ∃ c, _nc_table_find_n ct d = some c :=
      fun d hd => hv d (List.mem_cons_of_mem _ hd)
    simp only [session_collect_list, hc]
    by_cases hs : c.info.session = t
    · rw [if_pos hs]
      obtain ⟨x, hx, hmem⟩ := ih (c.client_id :: x0) hrest
      refine ⟨x, hx, ?_⟩
      intro d
      rw [hmem d, hid]
      have hcs : has_session ct t cid = true := by simp [has_session, hc, hs]
      constructor
      · rintro (h | h)
        · rcases List.mem_cons.mp h with e | h
          · right; rw [e]; exact ⟨List.mem_cons_self _ _, hcs⟩
          · left; exact h
        · right; exact ⟨List.mem_cons_of_mem _ h.1, h.2⟩
      · rintro (h | ⟨h, h2⟩)
        · left; exact List.mem_cons_of_mem _ h
        · rcases List.mem_cons.mp h with e | h
          · left; rw [e]; exact List.mem_cons_self _ _
          · right; exact ⟨h, h2⟩
    · rw [if_neg hs]
      obtain ⟨x, hx, hmem⟩ := ih x0 hrest
      refine ⟨x, hx, ?_⟩
      intro d
      rw [hmem d]
      have hcs : ¬ has_session ct t cid = true := by simp [has_session, hc, hs]
      constructor
      · rintro (h | h)
        · left; exact h
        · right; exact ⟨List.mem_cons_of_mem _ h.1, h.2⟩
      · rintro (h | ⟨h, h2⟩)
        · left; exact h
        · rcases List.mem_cons.mp h with e | h
          · rw [e] at h2; exact absurd h2 hcs
          · right; exact ⟨h, h2⟩

/-- The traversal of the name table collects the clients on the client lists whose
session is t. -/
theorem session_collect_spec (ct : List client_t) (t : Nat) (nt : List name_info_t) :
    ∀ x0 : List Nat,
      (∀ n ∈ nt, ∀ cid ∈ n.client_list, ∃ c, _nc_table_find_n ct cid = some c) →
      ∃ x, session_collect ct t nt x0 = some x ∧
        ∀ d, d ∈ x ↔ d ∈ x0 ∨ ∃ n ∈ nt, d ∈ n.client_list ∧ has_session ct t d = true := by
  induction nt with
  | nil => intro x0 _; exact ⟨x0, rfl, by simp⟩
  | cons n rest ih =>
    intro x0 hv
    obtain ⟨x1, hx1, hmem1⟩ :=
      session_collect_list_spec ct t n.client_list x0 (hv n (List.mem_cons_self _ _))
    obtain ⟨x, hx, hmem⟩ := ih x1 (fun m hm => hv m (List.mem_cons_of_mem _ hm))
    refine ⟨x, by simp only [session_collect, hx1, hx], ?_⟩
    intro d
    rw [hmem d, hmem1 d]
    constructor
    · rintro ((h | h) | ⟨m, hm, h⟩)
      · left; exact h
      · right; exact ⟨n, List.mem_cons_self _ _, h⟩
      · right; exact ⟨m, List.mem_cons_of_mem _ hm, h⟩
    · rintro (h | ⟨m, hm, h⟩)
      · left; left; exact h
      · rcases List.mem_cons.mp hm with e | hm
        · left; right; rw [← e]; exact h
        · right; exact ⟨m, hm, h⟩

theorem cancelled_record_congr (n : name_info_t) (ids ids2 : List Nat)
    (h : ∀ d ∈ n.client_list, (d ∈ ids ↔ d ∈ ids2)) :
    cancelled_record ids n = cancelled_record ids2 n := by
  have e1 : n.client_list.filter (fun d => decide (d ∈ ids))
      = n.client_list.filter (fun d => decide (d ∈ ids2)) := by
    apply List.filter_congr
    intro d hd
    simp only [decide_eq_decide]
    exact h d hd
  have e2 : n.client_list.filter (fun d => decide (d ∉ ids))
      = n.client_list.filter (fun d => decide (d ∉ ids2)) := by
    apply List.filter_congr
    intro d hd
    simp only [decide_eq_decide]
    exact not_congr (h d hd)
  unfold cancelled_record
  rw [e1, e2]

theorem filter_mem_cons_length (cid : Nat) (ids : List Nat) (l : List Nat) (hl : l.Nodup)
    (hin : cid ∈ l) (hnot : cid ∉ ids) :
    (l.filter (fun d => decide (d ∈ cid :: ids))).length
      = (l.filter (fun d => decide (d ∈ ids))).length + 1 := by
  induction l with
  | nil => cases hin
  | cons a rest ih =>
    obtain ⟨ha, hrest⟩ := List.nodup_cons.mp hl
    by_cases hac : a = cid
    · subst hac
      have e : rest.filter (fun d => decide (d ∈ a :: ids))
          = rest.filter (fun d => decide (d ∈ ids)) := by
        apply List.filter_congr
        intro d hd
        have : d ≠ a := fun e => ha (e ▸ hd)
        simp [this]
      have h1 : decide (a ∈ a :: ids) = true := by simp
      have h2 : decide (a ∈ ids) = false := by simp [hnot]
      simp only [List.filter_cons, h1, h2, if_true, Bool.false_eq_true, if_false,
        List.length_cons, e]
    · have hin2 : cid ∈ rest := by
        rcases List.mem_cons.mp hin with e | h
        · exact absurd e.symm hac
        · exact h
      have ih2 := ih hrest hin2
      by_cases haD : a ∈ ids
      · have h1 : decide (a ∈ cid :: ids) = true := by simp [haD]
        have h2 : decide (a ∈ ids) = true := by simp [haD]
        simp only [List.filter_cons, h1, h2, if_true, List.length_cons, ih2]
      · have h1 : decide (a ∈ cid :: ids) = false := by simp [haD, hac]
        have h2 : decide (a ∈ ids) = false := by simp [haD]
        simp only [List.filter_cons, h1, h2, Bool.false_eq_true, if_false, ih2]

theorem filter_not_mem_cons (cid : Nat) (ids : List Nat) (l : List Nat) :
    (l.filter (fun d => decide (d ∉ ids))).filter (fun d => decide (d ≠ cid))
      = l.filter (fun d => decide (d ∉ cid :: ids)) := by
  rw [List.filter_filter]
  apply List.filter_congr
  intro d _
  simp [not_or]

/-- One cancellation of the second loop of cancel_session: the client cid, which is on
the client list of a name of the consistent registry ns0, is cancelled in a registry
that is ns0 with the clients in ids cancelled. -/
theorem cancel_step (ns0 ns : notify_state_t) (ids : List Nat) (cid : Nat)
    (hwf : registry_consistent ns0) (hrel : cancelled_from ns0 ids ns)
    (n0 : name_info_t) (hn0 : n0 ∈ ns0.name_table) (hcid : cid ∈ n0.client_list) :
    ∃ ns1, _internal_cancel ns cid = some ns1 ∧ cancelled_from ns0 (cid :: ids) ns1 := by
  obtain ⟨hnames, hlists, _⟩ := hwf
  obtain ⟨hnodup, hlen, h32, hcl⟩ := hlists n0 hn0
  obtain ⟨hcid0, c, hc, hcname⟩ := hcl cid hcid
  have hcidc : c.client_id = cid := find_client_eq _ _ _ hc
  by_cases hD : cid ∈ ids
  · have hnone : _nc_table_find_n ns.client_table cid = none := by
      rw [hrel.1 cid, if_pos hD]
    refine ⟨ns, ?_, ?_, ?_⟩
    · unfold _internal_cancel
      rw [if_neg hcid0, hnone]
    · intro d
      rw [hrel.1 d]
      by_cases hd : d ∈ ids
      · rw [if_pos hd, if_pos (List.mem_cons_of_mem _ hd)]
      · have : d ∉ cid :: ids := by
          intro h
          rcases List.mem_cons.mp h with e | h
          · exact hd (e ▸ hD)
          · exact hd h
        rw [if_neg hd, if_neg this]
    · intro key
      rw [hrel.2 key]
      cases hk : _nc_table_find ns0.name_table key with
      | none => rfl
      | some n2 =>
        simp only [Option.bind]
        apply cancelled_record_congr
        intro d _
        constructor
        · exact fun h => List.mem_cons_of_mem _ h
        · intro h
          rcases List.mem_cons.mp h with e | h
          · exact e ▸ hD
          · exact h
  · -- the client is still live, and its name is still in the name table
    have hlive : _nc_table_find_n ns.client_table cid = some c := by
      rw [hrel.1 cid, if_neg hD, hc]
    have hfind0 : _nc_table_find ns0.name_table n0.name = some n0 :=
      find_of_mem _ _ hnames hn0
    have hm1 := filter_mem_cons_length cid ids n0.client_list hnodup hcid hD
    have hmle := List.length_filter_le (fun d => decide (d ∈ cid :: ids)) n0.client_list
    generalize hm : (n0.client_list.filter (fun d => decide (d ∈ ids))).length = m at hm1
    generalize hm2 : (n0.client_list.filter (fun d => decide (d ∈ cid :: ids))).length = m2
      at hm1 hmle
    have hrec : cancelled_record ids n0
        = some { n0 with
            refcount := n0.refcount - m,
            client_list := n0.client_list.filter (fun d => decide (d ∉ ids)) } := by
      unfold cancelled_record
      rw [hm, if_neg (by omega)]
    have hfind : _nc_table_find ns.name_table n0.name
        = some { n0 with
            refcount := n0.refcount - m,
            client_list := n0.client_list.filter (fun d => decide (d ∉ ids)) } := by
      rw [hrel.2 n0.name, hfind0]
      exact hrec
    obtain ⟨ns1, hcan, hnt, hct, _⟩ :=
      internal_cancel_eq ns cid c n0.name _ hcid0 hlive hcname hfind
    have hdec : (n0.refcount - m + 2 ^ 32 - 1) % 2 ^ 32 = n0.refcount - m2 := by omega
    have hlist : _nc_list_find_release
        (n0.client_list.filter (fun d => decide (d ∉ ids))) c.client_id
        = n0.client_list.filter (fun d => decide (d ∉ cid :: ids)) := by
      rw [hcidc, find_release_filter _ _ (List.Nodup.filter _ hnodup), filter_not_mem_cons]
    simp only [hdec, hlist] at hnt
    have hrec2 : cancelled_record (cid :: ids) n0
        = if n0.refcount - m2 = 0 then none
          else some { n0 with
            refcount := n0.refcount - m2,
            client_list := n0.client_list.filter (fun d => decide (d ∉ cid :: ids)) } := by
      unfold cancelled_record
      rw [hm2]
      by_cases hz : n0.refcount - m2 = 0
      · rw [if_pos hz, if_pos (by omega)]
      · rw [if_neg hz, if_neg (by omega)]
    refine ⟨ns1, hcan, ?_, ?_⟩
    · intro d
      rw [hct, hcidc, find_n_delete, hrel.1 d]
      by_cases hdc : d = cid
      · rw [if_pos hdc, if_pos (by rw [hdc]; exact List.mem_cons_self _ _)]
      · rw [if_neg hdc]
        by_cases hd : d ∈ ids
        · rw [if_pos hd, if_pos (List.mem_cons_of_mem _ hd)]
        · have : d ∉ cid :: ids := by
            intro h
            rcases List.mem_cons.mp h with e | h
            · exact hdc e
            · exact hd h
          rw [if_neg hd, if_neg this]
    · intro key
      by_cases hk : key = n0.name
      · rw [hk, hfind0]
        simp only [Option.bind]
        rw [hrec2, hnt]
        by_cases hz : n0.refcount - m2 = 0
        · rw [if_pos hz, if_pos hz, find_table_delete, if_pos rfl]
        · rw [if_neg hz, if_neg hz, find_name_store, if_pos rfl, hfind]
          rfl
      · have hother : _nc_table_find ns1.name_table key = _nc_table_find ns.name_table key := by
          rw [hnt]
          by_cases hz : n0.refcount - m2 = 0
          · rw [if_pos hz, find_table_delete, if_neg hk, find_name_store, if_neg hk]
          · rw [if_neg hz, find_name_store, if_neg hk]
        rw [hother, hrel.2 key]
        cases hk2 : _nc_table_find ns0.name_table key with
        | none => rfl
        | some n2 =>
          simp only [Option.bind]
          apply cancelled_record_congr
          intro d hd
          have hn2 : n2 ∈ ns0.name_table := mem_of_find _ _ _ hk2
          have hn2name : n2.name = key := find_name_eq _ _ _ hk2
          have hdne : d ≠ cid := by
            intro e
            obtain ⟨_, c2, hc2, hc2name⟩ := (hlists n2 hn2).2.2.2 d hd
            rw [e, hc] at hc2
            cases hc2
            rw [hcname] at hc2name
            exact hk (by rw [← hn2name]; exact (Option.some.inj hc2name).symm)
          constructor
          · exact fun h => List.mem_cons_of_mem _ h
          · intro h
            rcases List.mem_cons.mp h with e | h
            · exact absurd e hdne
            · exact h

theorem cancelled_record_nil (n : name_info_t) : cancelled_record [] n = some n := by
  unfold cancelled_record
  simp

/-- The second loop of cancel_session over a list of clients that are on client lists of
the consistent registry ns0. -/
theorem session_cancel_all_spec (ns0 : notify_state_t) (hwf : registry_consistent ns0) :
    ∀ (x ids : List Nat) (ns : notify_state_t),
      (∀ cid ∈ x, ∃ n0 ∈ ns0.name_table, cid ∈ n0.client_list) →
      cancelled_from ns0 ids ns →
      ∃ ns1 ids1, session_cancel_all ns x = some ns1 ∧ cancelled_from ns0 ids1 ns1 ∧
        ∀ d, d ∈ ids1 ↔ d ∈ x ∨ d ∈ ids := by
  intro x
  induction x with
  | nil => intro ids ns _ hrel; exact ⟨ns, ids, rfl, hrel, by simp⟩
  | cons cid rest ih =>
    intro ids ns hx hrel
    obtain ⟨n0, hn0, hcid⟩ := hx cid (List.mem_cons_self _ _)
    obtain ⟨ns2, hcan, hrel2⟩ := cancel_step ns0 ns ids cid hwf hrel n0 hn0 hcid
    obtain ⟨ns1, ids1, hall, hrel1, hmem⟩ :=
      ih (cid :: ids) ns2 (fun d hd => hx d (List.mem_cons_of_mem _ hd)) hrel2
    refine ⟨ns1, ids1, by simp only [session_cancel_all, hcan, hall], hrel1, ?_⟩
    intro d
    rw [hmem d]
    simp only [List.mem_cons]
    tauto

/-- The cancellation of a session in a consistent registry (distinct names; each client
list without repetition, its clients nonzero, in the client table and designating the
name; each client of the client table on the client list of its name; each refcount a
32-bit value not below the length of the client list): cancel_session of the session t
returns and afterwards no
client of the client table has session t; every client whose session is not t is in the
client table with the same record; and for each name, with m the number of the clients
on its client list whose session was t, the name is no longer in the name table when
m is positive and equal to its refcount, and else its record has the refcount less
m. -/
theorem cancel_session_spec (ns : notify_state_t) (t : Nat) (hwf : registry_consistent ns) :
    ∃ ns1, _notify_lib_cancel_session ns t = some ns1 ∧
      (∀ d c, _nc_table_find_n ns1.client_table d = some c → c.info.session ≠ t) ∧
      (∀ d c, _nc_table_find_n ns.client_table d = some c → c.info.session ≠ t →
        _nc_table_find_n ns1.client_table d = some c) ∧
      (∀ n ∈ ns.name_table,
        (0 < (n.client_list.filter (has_session ns.client_table t)).length ∧
            n.refcount = (n.client_list.filter (has_session ns.client_table t)).length →
          _nc_table_find ns1.name_table n.name = none) ∧
        (¬ (0 < (n.client_list.filter (has_session ns.client_table t)).length ∧
            n.refcount = (n.client_list.filter (has_session ns.client_table t)).length) →
          ∃ n1, _nc_table_find ns1.name_table n.name = some n1 ∧
            n1.refcount
              = n.refcount - (n.client_list.filter (has_session ns.client_table t)).length)) := by
  have hwf0 := hwf
  obtain ⟨hnames, hlists, hclients⟩ := hwf
  obtain ⟨x, hx, hxmem⟩ := session_collect_spec ns.client_table t ns.name_table []
    (fun n hn cid hcid => by
      obtain ⟨_, c, hc, _⟩ := (hlists n hn).2.2.2 cid hcid
      exact ⟨c, hc⟩)
  have hrel0 : cancelled_from ns [] (mutex_lock ns) := by
    constructor
    · intro d; simp
    · intro key
      rw [mutex_lock_name_table]
      cases _nc_table_find ns.name_table key with
      | none => rfl
      | some n => simp only [Option.bind, cancelled_record_nil]
  obtain ⟨ns1, ids1, hall, hrel1, hmem⟩ := session_cancel_all_spec ns hwf0 x [] (mutex_lock ns)
    (fun cid hcid => by
      rcases (hxmem cid).mp hcid with h | ⟨n, hn, h1, _⟩
      · cases h
      · exact ⟨n, hn, h1⟩)
    hrel0
  have hids : ∀ d, d ∈ ids1 ↔
      ∃ n ∈ ns.name_table, d ∈ n.client_list ∧ has_session ns.client_table t d = true := by
    intro d
    rw [hmem d, hxmem d]
    simp
  refine ⟨mutex_unlock ns1, ?_, ?_, ?_, ?_⟩
  · unfold _notify_lib_cancel_session
    simp only [mutex_lock_client_table, mutex_lock_name_table, hx, hall]
  · intro d c hd hs
    rw [mutex_unlock_client_table, hrel1.1 d] at hd
    by_cases hin : d ∈ ids1
    · rw [if_pos hin] at hd; cases hd
    · rw [if_neg hin] at hd
      obtain ⟨n, hn, _, hdn⟩ := hclients d c hd
      exact hin ((hids d).mpr ⟨n, hn, hdn, by simp [has_session, hd, hs]⟩)
  · intro d c hd hs
    rw [mutex_unlock_client_table, hrel1.1 d]
    have hin : d ∉ ids1 := by
      intro h
      obtain ⟨_, _, _, h2⟩ := (hids d).mp h
      simp [has_session, hd, hs] at h2
    rw [if_neg hin, hd]
  · intro n hn
    have hfind : _nc_table_find (mutex_unlock ns1).name_table n.name
        = cancelled_record ids1 n := by
      rw [mutex_unlock_name_table, hrel1.2 n.name, find_of_mem _ _ hnames hn]
      rfl
    have e : n.client_list.filter (fun d => decide (d ∈ ids1))
        = n.client_list.filter (has_session ns.client_table t) := by
      apply List.filter_congr
      intro d hd
      by_cases hs : has_session ns.client_table t d = true
      · have : d ∈ ids1 := (hids d).mpr ⟨n, hn, hd, hs⟩
        simp [this, hs]
      · have : d ∉ ids1 := fun h => hs ((hids d).mp h).choose_spec.2.2
        simp [this, hs]
    rw [hfind]
    unfold cancelled_record
    rw [e]
    constructor
    · intro h
      rw [if_pos h]
    · intro h
      rw [if_neg h]
      exact ⟨_, rfl, rfl⟩

theorem mem_of_find_n (t : List client_t) (key : Nat) (c : client_t)
    (h : _nc_table_find_n t key = some c) : c ∈ t := by
  induction t with
  | nil => simp [_nc_table_find_n] at h
  | cons m rest ih =>
    by_cases hm : m.client_id = key
    · simp [_nc_table_find_n, hm] at h
      rw [h]; exact List.mem_cons_self _ _
    · simp [_nc_table_find_n, hm] at h
      exact List.mem_cons_of_mem _ (ih h)

/-- Consistency from conditions that can be evaluated on a concrete registry. -/
theorem registry_consistent_of (ns : notify_state_t)
    (h1 : List.Pairwise (fun a b : name_info_t => a.name ≠ b.name) ns.name_table)
    (h2 : ∀ n ∈ ns.name_table,
      n.client_list.Nodup ∧ n.client_list.length ≤ n.refcount ∧ n.refcount < 2 ^ 32 ∧
      ∀ cid ∈ n.client_list, cid ≠ 0 ∧
        (_nc_table_find_n ns.client_table cid).bind (fun c => c.info.name_info)
          = some n.name)
    (h3 : ∀ c ∈ ns.client_table,
      ∃ n ∈ ns.name_table, c.info.name_info = some n.name ∧ c.client_id ∈ n.client_list) :
    registry_consistent ns := by
  refine ⟨h1, ?_, ?_⟩
  · intro n hn
    obtain ⟨a, b, c, d⟩ := h2 n hn
    refine ⟨a, b, c, ?_⟩
    intro cid hcid
    obtain ⟨e, f⟩ := d cid hcid
    refine ⟨e, ?_⟩
    cases hf : _nc_table_find_n ns.client_table cid with
    | none => rw [hf] at f; cases f
    | some cl => rw [hf] at f; exact ⟨cl, rfl, f⟩
  · intro cid c hc
    obtain ⟨n, hn, a, b⟩ := h3 c (mem_of_find_n _ _ _ hc)
    rw [find_client_eq _ _ _ hc] at b
    exact ⟨n, hn, a, b⟩

theorem registry_sessions_consistent : registry_consistent registry_sessions :=
  registry_consistent_of _ (by decide) (by decide) (by decide)

/-- The cancellation of a session on the registry of the scenario "Session cancel": after
cancel_session of the session 7 no client has session 7, the clients 5 and 3 of session 8
are as before, A is no longer in the name table and B has refcount 2. -/
theorem cancel_session_spec_witness :
    registry_consistent registry_sessions ∧
    ∃ ns1, _notify_lib_cancel_session registry_sessions 7 = some ns1 ∧
      (∀ d c, _nc_table_find_n ns1.client_table d = some c → c.info.session ≠ 7) ∧
      ns1.client_table.map (fun c => c.client_id) = [5, 3] ∧
      _nc_table_find ns1.name_table [65] = none ∧
      (_nc_table_find ns1.name_table [66]).map (fun n => n.refcount) = some 2 :=
  ⟨registry_sessions_consistent,
    (cancel_session_spec registry_sessions 7 registry_sessions_consistent).imp
      (fun ns1 h => ⟨h.1, h.2.1,
        by
          have e : ns1 = (_notify_lib_cancel_session registry_sessions 7).get (by decide) := by
            simp [h.1]
          rw [e]
          decide⟩)⟩

/-- C15 fails on the code: from a new registry, a plain registration on A for the
session 7 returns the client id 1, and release_name on A by uid 0 then frees the record
of A, whose refcount was 1 (the defect shown for C12: release_name gives back a
reference that A, never a controlled name, did not hold).  Client 1 is then in the
client table, with session 7, and on no client list.  cancel_session of the session 7
on that registry returns and changes nothing: it collects the clients from the client
lists of the name table, which is empty, and client 1 of session 7 is still live after
it. -/
theorem cancel_session_misses_client :
    ∃ ns1 ns2, _notify_lib_register_plain spec_consts (_notify_lib_notify_state_new spec_consts 0)
        [65] 7 4294967295 0 0 0 = some (NOTIFY_STATUS_OK, ns1, 1) ∧
      _notify_lib_release_name ns1 [65] 0 0 = some (NOTIFY_STATUS_OK, ns2) ∧
      reachable spec_consts any_op ns2 ∧
      ns2.name_table = [] ∧
      _notify_lib_cancel_session ns2 7 = some ns2 ∧
      live ns2 1 ∧
      ∃ c, _nc_table_find_n ns2.client_table 1 = some c ∧ c.info.session = 7 ∧
        c.info.name_info = some [65] := by
  refine ⟨_, _, rfl, rfl,
    reachable.step _ _ (op_t.release_name [65] 0 0)
      (reachable.step _ _ (op_t.register_plain [65] 7 4294967295 0 0 0)
        (reachable.new 0) trivial rfl) trivial rfl, rfl, rfl, by decide, _, rfl, rfl, rfl⟩

/-! ## The mutex over a call -/

/-- Taking and releasing the mutex gives the registry back when the mutex was not held. -/
theorem mutex_unlock_lock (ns : notify_state_t) (h : ¬ lock_held ns) :
    mutex_unlock (mutex_lock ns) = ns := by
  obtain ⟨flags, lock, nt, ct, id, fl, cn, sock⟩ := ns
  cases lock with
  | none => rfl
  | some b =>
    cases b with
    | false => rfl
    | true => exact absurd rfl h

/-- C21: in a registry whose mutex is not held, for a client id that is 0 or not in the
client table, check, peek, get_val, get_state, set_val and set_state return
INVALID_TOKEN and the registry is the one before the call; check and peek return their
out-parameter as it was, get_val and get_state return 0 in theirs. -/
theorem invalid_token_unchanged (k : notify_consts) (ns : notify_state_t) (cid : Nat)
    (check val v : Int) (state uid gid : Nat)
    (hlock : ¬ lock_held ns)
    (hcid : cid = 0 ∨ _nc_table_find_n ns.client_table cid = none) :
    _notify_lib_check ns cid check = some (NOTIFY_STATUS_INVALID_TOKEN, ns, check) ∧
    _notify_lib_peek ns cid val = some (NOTIFY_STATUS_INVALID_TOKEN, ns, val) ∧
    _notify_lib_get_val ns cid = some (NOTIFY_STATUS_INVALID_TOKEN, ns, 0) ∧
    _notify_lib_get_state ns cid = some (NOTIFY_STATUS_INVALID_TOKEN, ns, 0) ∧
    _notify_lib_set_val k ns cid v uid gid = some (NOTIFY_STATUS_INVALID_TOKEN, ns) ∧
    _notify_lib_set_state k ns cid state uid gid = some (NOTIFY_STATUS_INVALID_TOKEN, ns) := by
  have hu := mutex_unlock_lock ns hlock
  by_cases h0 : cid = 0
  · refine ⟨?_, ?_, ?_, ?_, ?_, ?_⟩
    · unfold _notify_lib_check; rw [if_pos h0]
    · unfold _notify_lib_peek; rw [if_pos h0]
    · unfold _notify_lib_get_val; rw [if_pos h0]
    · unfold _notify_lib_get_state; rw [if_pos h0]
    · unfold _notify_lib_set_val; rw [if_pos h0]
    · unfold _notify_lib_set_state; rw [if_pos h0]
  · have hnone : _nc_table_find_n ns.client_table cid = none := by
      rcases hcid with h | h
      · exact absurd h h0
      · exact h
    refine ⟨?_, ?_, ?_, ?_, ?_, ?_⟩
    · unfold _notify_lib_check
      simp only [if_neg h0, mutex_lock_client_table, hnone, hu]
    · unfold _notify_lib_peek
      simp only [if_neg h0, mutex_lock_client_table, hnone, hu]
    · unfold _notify_lib_get_val
      simp only [if_neg h0, mutex_lock_client_table, hnone, hu]
    · unfold _notify_lib_get_state
      simp only [if_neg h0, mutex_lock_client_table, hnone, hu]
    · unfold _notify_lib_set_val
      simp only [if_neg h0, mutex_lock_client_table, hnone, hu]
    · unfold _notify_lib_set_state
      simp only [if_neg h0, mutex_lock_client_table, hnone, hu]

/-- C21 on the registry of the scenario "Basic post/check" with a mutex: the client id 9
is not in the client table. -/
theorem invalid_token_unchanged_witness :
    _notify_lib_check (registry_A spec_consts 1 7 2 1) 9 5
      = some (NOTIFY_STATUS_INVALID_TOKEN, registry_A spec_consts 1 7 2 1, 5) ∧
    _notify_lib_peek (registry_A spec_consts 1 7 2 1) 9 5
      = some (NOTIFY_STATUS_INVALID_TOKEN, registry_A spec_consts 1 7 2 1, 5) ∧
    _notify_lib_get_val (registry_A spec_consts 1 7 2 1) 9
      = some (NOTIFY_STATUS_INVALID_TOKEN, registry_A spec_consts 1 7 2 1, 0) ∧
    _notify_lib_get_state (registry_A spec_consts 1 7 2 1) 9
      = some (NOTIFY_STATUS_INVALID_TOKEN, registry_A spec_consts 1 7 2 1, 0) ∧
    _notify_lib_set_val spec_consts (registry_A spec_consts 1 7 2 1) 9 3 0 0
      = some (NOTIFY_STATUS_INVALID_TOKEN, registry_A spec_consts 1 7 2 1) ∧
    _notify_lib_set_state spec_consts (registry_A spec_consts 1 7 2 1) 9 4 0 0
      = some (NOTIFY_STATUS_INVALID_TOKEN, registry_A spec_consts 1 7 2 1) :=
  invalid_token_unchanged spec_consts (registry_A spec_consts 1 7 2 1) 9 5 5 3 4 0 0
    (by decide) (Or.inr (by decide))

/-! ## Release of a name -/

theorem controlled_remove_filter (n : name_ptr) (l : List name_ptr) (h : l.Nodup) :
    controlled_remove n l = l.filter (fun q => decide (q ≠ n)) := by
  induction l with
  | nil => rfl
  | cons q rest ih =>
    obtain ⟨hq, hrest⟩ := List.nodup_cons.mp h
    by_cases hqn : q = n
    · subst hqn
      have h1 : decide (q ≠ q) = false := by simp
      simp only [controlled_remove, if_true, List.filter_cons, h1, Bool.false_eq_true, if_false]
      symm
      rw [List.filter_eq_self]
      intro x hx
      have : x ≠ q := fun e => hq (e ▸ hx)
      simp [this]
    · have h1 : decide (q ≠ n) = true := by simp [hqn]
      simp only [controlled_remove, if_neg hqn, List.filter_cons, h1, if_true, ih hrest]

/-- C22: in a registry whose mutex is not held and whose controlled-name list holds no
pointer twice, for a name that is in the name table with the record n.  For a caller with
uid 0 or the uid of n, release_name returns OK; afterwards the pointer to n is not in
the controlled-name list, which is the list before without that pointer, the other
entries in their order (a pointer to a freed record of the same name is not the pointer
to n and stays); the refcount of the record is decremented by 1 (as a uint32_t) and the
record is otherwise as before, or the name is no longer in the name table when the
decremented refcount is 0; every other name is looked up as before; the client table,
the id counter, the free list and the mutex are as before.  For a caller whose uid is
neither 0 nor the uid of n, it returns NOT_AUTHORIZED and the registry is the one before
the call. -/
theorem release_name_frame (ns : notify_state_t) (name : cstring) (uid gid : Nat)
    (n : name_info_t) (hlock : ¬ lock_held ns) (hnodup : ns.controlled_name.Nodup)
    (hn : _nc_table_find ns.name_table name = some n) :
    (uid = 0 ∨ uid = n.uid →
      ∃ ns1, _notify_lib_release_name ns name uid gid = some (NOTIFY_STATUS_OK, ns1) ∧
        ptr_of n ∉ ns1.controlled_name ∧
        ns1.controlled_name = ns.controlled_name.filter (fun q => decide (q ≠ ptr_of n)) ∧
        _nc_table_find ns1.name_table name
          = (if (n.refcount + 2 ^ 32 - 1) % 2 ^ 32 = 0 then none
             else some { n with refcount := (n.refcount + 2 ^ 32 - 1) % 2 ^ 32 }) ∧
        (0 < n.refcount → n.refcount < 2 ^ 32 →
          (n.refcount + 2 ^ 32 - 1) % 2 ^ 32 = n.refcount - 1) ∧
        (∀ key, key ≠ name →
          _nc_table_find ns1.name_table key = _nc_table_find ns.name_table key) ∧
        ns1.client_table = ns.client_table ∧ ns1.client_id = ns.client_id ∧
        ns1.free_client_list = ns.free_client_list ∧ ns1.lock = ns.lock ∧
        ns1.flags = ns.flags ∧ ns1.sock = ns.sock) ∧
    (uid ≠ 0 ∧ uid ≠ n.uid →
      _notify_lib_release_name ns name uid gid = some (NOTIFY_STATUS_NOT_AUTHORIZED, ns)) := by
  have hname : n.name = name := find_name_eq _ _ _ hn
  have hu := mutex_unlock_lock ns hlock
  constructor
  · intro huid
    have hauth : ¬ (n.uid ≠ uid ∧ uid ≠ 0) := by
      rintro ⟨h1, h2⟩
      rcases huid with h | h
      · exact h2 h
      · exact h1 h.symm
    have hdec : 0 < n.refcount → n.refcount < 2 ^ 32 →
        (n.refcount + 2 ^ 32 - 1) % 2 ^ 32 = n.refcount - 1 := by
      intro h1 h2; omega
    have hlk : ∀ s : notify_state_t, s.lock = (mutex_lock ns).lock →
        (mutex_unlock s).lock = ns.lock := by
      intro s hs
      obtain ⟨flags, lock, nt, ct, id, fl, cn, sock⟩ := ns
      cases lock with
      | none =>
        unfold mutex_unlock
        simp only [mutex_lock] at hs
        rw [hs]
        exact hs
      | some b =>
        cases b with
        | true => exact absurd rfl hlock
        | false =>
          unfold mutex_unlock
          simp only [mutex_lock] at hs
          rw [hs]
    have hrem : controlled_remove (ptr_of n) (mutex_lock ns).controlled_name
        = ns.controlled_name.filter (fun q => decide (q ≠ ptr_of n)) := by
      rw [mutex_lock_controlled_name, controlled_remove_filter _ _ hnodup]
    have hnotin : ptr_of n ∉ ns.controlled_name.filter (fun q => decide (q ≠ ptr_of n)) := by
      intro h
      have := (List.mem_filter.mp h).2
      simp at this
    by_cases hz : (n.refcount + 2 ^ 32 - 1) % 2 ^ 32 = 0
    · refine ⟨mutex_unlock
          { mutex_lock ns with
            controlled_name := controlled_remove (ptr_of n) (mutex_lock ns).controlled_name,
            name_table := _nc_table_delete
              (name_store (mutex_lock ns).name_table { n with refcount := (n.refcount + 2 ^ 32 - 1) % 2 ^ 32 }) n.name },
        ?_, ?_, ?_, ?_, hdec, ?_, ?_, ?_, ?_, ?_, ?_, ?_⟩
      · unfold _notify_lib_release_name
        simp only [mutex_lock_name_table, hn, if_neg hauth]
        rw [if_pos hz]
      · rw [mutex_unlock_controlled_name, hrem]; exact hnotin
      · rw [mutex_unlock_controlled_name, hrem]
      · rw [mutex_unlock_name_table, if_pos hz, hname, find_table_delete, if_pos rfl]
      · intro key hk
        have hkn : ¬ key = n.name := fun e => hk (e.trans hname)
        simp only [mutex_unlock_name_table, find_table_delete, find_name_store,
          mutex_lock_name_table, hkn, if_false]
      · rw [mutex_unlock_client_table]; exact mutex_lock_client_table ns
      · rw [mutex_unlock_client_id]; exact mutex_lock_client_id ns
      · rw [mutex_unlock_free_client_list]; exact mutex_lock_free_client_list ns
      · exact hlk _ rfl
      · rw [mutex_unlock_flags]; exact mutex_lock_flags ns
      · rw [mutex_unlock_sock]; exact mutex_lock_sock ns
    · refine ⟨mutex_unlock
          { mutex_lock ns with
            controlled_name := controlled_remove (ptr_of n) (mutex_lock ns).controlled_name,
            name_table := name_store (mutex_lock ns).name_table { n with refcount := (n.refcount + 2 ^ 32 - 1) % 2 ^ 32 } },
        ?_, ?_, ?_, ?_, hdec, ?_, ?_, ?_, ?_, ?_, ?_, ?_⟩
      · unfold _notify_lib_release_name
        simp only [mutex_lock_name_table, hn, if_neg hauth]
        rw [if_neg hz]
      · rw [mutex_unlock_controlled_name, hrem]; exact hnotin
      · rw [mutex_unlock_controlled_name, hrem]
      · rw [mutex_unlock_name_table, if_neg hz, find_name_store, mutex_lock_name_table]
        have : name = ({ n with refcount := (n.refcount + 2 ^ 32 - 1) % 2 ^ 32 } :
            name_info_t).name := hname.symm
        rw [if_pos this, hn]
        rfl
      · intro key hk
        have hkn : ¬ key = n.name := fun e => hk (e.trans hname)
        simp only [mutex_unlock_name_table, find_name_store, mutex_lock_name_table, hkn,
          if_false]
      · rw [mutex_unlock_client_table]; exact mutex_lock_client_table ns
      · rw [mutex_unlock_client_id]; exact mutex_lock_client_id ns
      · rw [mutex_unlock_free_client_list]; exact mutex_lock_free_client_list ns
      · exact hlk _ rfl
      · rw [mutex_unlock_flags]; exact mutex_lock_flags ns
      · rw [mutex_unlock_sock]; exact mutex_lock_sock ns
  · rintro ⟨h1, h2⟩
    have hauth : n.uid ≠ uid ∧ uid ≠ 0 := ⟨fun e => h2 e.symm, h1⟩
    unfold _notify_lib_release_name
    simp only [mutex_lock_name_table, hn, if_pos hauth, hu]

/-- C22 on two registries.  (1) The registry of the scenario "Access hierarchy" with a
mutex: the owner 501 releases com.x, which leaves the controlled-name list and, its
refcount being 1, the name table; the release by uid 502 returns NOT_AUTHORIZED and
changes nothing.  (2) The registry in which the controlled-name list holds the pointer
to a freed record of A and the name table a later record of A: the release of A by
uid 0 returns OK and leaves the list as it is. -/
theorem release_name_frame_witness :
    (∃ ns1, _notify_lib_release_name (registry_com_x spec_consts 1 200) name_com_x 501 20
        = some (NOTIFY_STATUS_OK, ns1) ∧
      (⟨name_com_x, 0⟩ : name_ptr) ∉ ns1.controlled_name ∧
      ns1.controlled_name = [] ∧
      _nc_table_find ns1.name_table name_com_x = none ∧
      ns1.lock = (registry_com_x spec_consts 1 200).lock) ∧
    _notify_lib_release_name (registry_com_x spec_consts 1 200) name_com_x 502 21
      = some (NOTIFY_STATUS_NOT_AUTHORIZED, registry_com_x spec_consts 1 200) ∧
    (∃ ns1, _notify_lib_release_name registry_stale [65] 0 0 = some (NOTIFY_STATUS_OK, ns1) ∧
      (⟨[65], 1⟩ : name_ptr) ∉ ns1.controlled_name ∧
      ns1.controlled_name = [⟨[65], 0⟩] ∧
      _nc_table_find ns1.name_table [65] = none) :=
  ⟨((release_name_frame (registry_com_x spec_consts 1 200) name_com_x 501 20
        ⟨name_com_x, 501, 20, 200, 4294967295, 1, 1, 0, [], 0⟩
        (by decide) (by decide) (by decide)).1 (Or.inr rfl)).imp
      (fun ns1 h => ⟨h.1, h.2.1, h.2.2.1.trans (by decide),
        h.2.2.2.1.trans (if_pos (by decide)), h.2.2.2.2.2.2.2.2.2.1⟩),
    (release_name_frame (registry_com_x spec_consts 1 200) name_com_x 502 21
        ⟨name_com_x, 501, 20, 200, 4294967295, 1, 1, 0, [], 0⟩
        (by decide) (by decide) (by decide)).2 ⟨by decide, by decide⟩,
    ((release_name_frame registry_stale [65] 0 0
        ⟨[65], 0, 0, 201, 4294967295, 1, 1, 0, [1], 1⟩
        (by decide) (by decide) (by decide)).1 (Or.inl rfl)).imp
      (fun ns1 h => ⟨h.1, h.2.1, h.2.2.1.trans (by decide),
        h.2.2.2.1.trans (if_pos (by decide))⟩)⟩

/-- C24 fails on the code: on a new registry with a mutex, which is not held, a
file-descriptor registration whose open fails returns INVALID_FILE and leaves the mutex
held: the return after the failed open has no pthread_mutex_unlock, unlike the other
returns of the function. -/
theorem register_file_descriptor_keeps_lock :
    ¬ lock_held (_notify_lib_notify_state_new spec_consts 1) ∧
    ∃ ns1, _notify_lib_register_file_descriptor spec_consts (fun _ => -1)
        (_notify_lib_notify_state_new spec_consts 1) [65] 7 [47, 120] 0 0 0 0
        = some (NOTIFY_STATUS_INVALID_FILE, ns1, 0) ∧
      lock_held ns1 :=
  ⟨by decide, _, rfl, by decide⟩

/-! ## Delivery to every subscriber -/

/-- The delivery loop over a client list without repetition: each client is sent to once,
in the order of the list, and the client table afterwards holds, for the clients of the
list, the records that _internal_send leaves. -/
theorem post_loop_full (wr : Nat → Bool) (l : List Nat) :
    ∀ ct : List client_t, (∀ c ∈ l, (_nc_table_find_n ct c).isSome) → l.Nodup →
      ∃ ct2, post_loop wr ct l = some (ct2, (l.map (send_events wr ct)).flatten) ∧
        ∀ key, _nc_table_find_n ct2 key
          = if key ∈ l then (_nc_table_find_n ct key).map (fun c => (_internal_send wr c).1)
            else _nc_table_find_n ct key := by
  induction l with
  | nil => intro ct _ _; exact ⟨ct, rfl, fun _ => by simp⟩
  | cons cid rest ih =>
    intro ct hl hnodup
    obtain ⟨hcid, hrest⟩ := List.nodup_cons.mp hnodup
    obtain ⟨c, hc⟩ := Option.isSome_iff_exists.mp (hl cid (List.mem_cons_self _ _))
    have hid := find_client_eq ct cid c hc
    have hfind : ∀ d, d ≠ cid →
        _nc_table_find_n (client_store ct (_internal_send wr c).1) d = _nc_table_find_n ct d := by
      intro d hd
      rw [find_client_store, send_client_id, hid, if_neg hd]
    have hlive : ∀ d ∈ rest,
        (_nc_table_find_n (client_store ct (_internal_send wr c).1) d).isSome := by
      intro d hd
      rw [hfind d (fun e => hcid (e ▸ hd))]
      exact hl d (List.mem_cons_of_mem _ hd)
    obtain ⟨ct2, h2, h3⟩ := ih _ hlive hrest
    have hev : rest.map (send_events wr (client_store ct (_internal_send wr c).1))
        = rest.map (send_events wr ct) := by
      apply List.map_congr_left
      intro d hd
      unfold send_events
      rw [hfind d (fun e => hcid (e ▸ hd))]
    refine ⟨ct2, ?_, ?_⟩
    · simp only [post_loop, hc, h2, hev, List.map_cons, List.flatten_cons]
      simp only [send_events, hc]
    · intro key
      rw [h3 key]
      by_cases hk : key = cid
      · subst hk
        rw [if_neg hcid, if_pos (List.mem_cons_self _ _), find_client_store, send_client_id,
          hid, if_pos rfl]
        simp [hc]
      · rw [hfind key hk]
        by_cases hr : key ∈ rest
        · rw [if_pos hr, if_pos (List.mem_cons_of_mem _ hr)]
        · have : key ∉ cid :: rest := by
            intro h
            rcases List.mem_cons.mp h with e | h
            · exact hk e
            · exact hr h
          rw [if_neg hr, if_neg this]

/-- The events of a client other than d are not writes for d. -/
theorem send_events_not_write (wr : Nat → Bool) (ct : List client_t) (c d : Nat)
    (hcd : c ≠ d) (fd : Int) (token : Nat) :
    delivery_t.write d fd token ∉ send_events wr ct c := by
  unfold send_events
  cases hc : _nc_table_find_n ct c with
  | none => simp
  | some cl =>
    have hid := find_client_eq ct c cl hc
    simp only
    unfold _internal_send
    cases cl.info.notify_type with
    | NOTIFY_TYPE_FD =>
      simp only
      split
      · split
        · simp only [hid, List.mem_singleton, delivery_t.write.injEq, not_and]
          intro e; exact absurd e.symm hcd
        · simp only [hid, List.mem_cons, delivery_t.write.injEq, List.mem_singleton,
            reduceCtorEq, or_false, not_and, List.not_mem_nil]
          intro e; exact absurd e.symm hcd
      · simp
    | NOTIFY_TYPE_PORT =>
      simp only
      cases cl.info.msg <;> simp
    | _ => simp

/-- The function _internal_send does for one subscriber what the dispatcher of the
specification says: the same is handed to the transports, and the record of the
subscriber afterwards is the same. -/
theorem internal_send_dispatch_spec (wr : Nat → Bool) (c : client_t) :
    (_internal_send wr c).2 = dispatch_spec wr c ∧
    (_internal_send wr c).1 = dispatched_spec wr c := by
  unfold _internal_send dispatch_spec dispatched_spec
  cases ht : c.info.notify_type with
  | NOTIFY_TYPE_FD =>
    by_cases hfd : c.info.fd ≥ 0
    · have hlt : ¬ c.info.fd < 0 := by omega
      cases hw : wr c.client_id <;> simp [hfd, hlt, hw]
    · have hlt : c.info.fd < 0 := by omega
      simp [hfd, hlt]
  | NOTIFY_TYPE_PORT => cases c.info.msg <;> simp
  | NOTIFY_TYPE_SIGNAL => simp
  | NOTIFY_TYPE_PLAIN => simp
  | NOTIFY_TYPE_MEMORY => simp
  | NOTIFY_TYPE_NONE => simp

theorem send_events_dispatch_spec (wr : Nat → Bool) (ct : List client_t) :
    send_events wr ct = dispatch_events_spec wr ct := by
  funext c
  unfold send_events dispatch_events_spec
  cases _nc_table_find_n ct c with
  | none => rfl
  | some cl => exact (internal_send_dispatch_spec wr cl).1

/-- C25: a post to a name whose record n is in the name table, by a caller that passes
the write check, where the client list of n holds each client once, each of them in the
client table, and d is on it with the descriptor record cd.  The post returns OK and val
is incremented by 1 modulo 2^32.  What is handed to the transports is what the
dispatcher of the specification hands out for each client of the list, once, in
client_list order: a signal for a signal subscriber, a message for a port subscriber, a
write (with a close when it fails) for a descriptor subscriber whose descriptor is not
marked invalid, nothing for a plain or memory-slot subscriber.  The client records
afterwards are those before, but for the descriptor subscribers of the list whose write
failed, which have fd -1.  When the fd of cd is not negative and the write for d fails,
d has fd -1 afterwards.  When the fd of cd is negative (as after a failed write), the
record of d is unchanged, so that the same holds for the next post, nothing handed to
the transports is a write for d, and what is handed out is what the dispatcher hands out
for the other clients, in client_list order. -/
theorem failed_write_disables_descriptor (k : notify_consts) (wr : Nat → Bool)
    (ns : notify_state_t) (name : cstring) (uid gid : Nat) (n : name_info_t) (d : Nat)
    (cd : client_t)
    (hn : _nc_table_find ns.name_table name = some n)
    (hauth : _internal_check_access k ns n uid gid k.NOTIFY_ACCESS_WRITE
      = some NOTIFY_STATUS_OK)
    (hvalid : ∀ c ∈ n.client_list, (_nc_table_find_n ns.client_table c).isSome)
    (hnodup : n.client_list.Nodup) (hd : d ∈ n.client_list)
    (hcd : _nc_table_find_n ns.client_table d = some cd)
    (hfd : cd.info.notify_type = NOTIFY_TYPE_FD) :
    ∃ ns1 ev, _notify_lib_post k wr ns name uid gid = some (NOTIFY_STATUS_OK, ns1, ev) ∧
      _nc_table_find ns1.name_table name = some { n with val := (n.val + 1) % 2 ^ 32 } ∧
      ev = (n.client_list.map (dispatch_events_spec wr ns.client_table)).flatten ∧
      (∀ key, _nc_table_find_n ns1.client_table key
        = if key ∈ n.client_list then
            (_nc_table_find_n ns.client_table key).map (dispatched_spec wr)
          else _nc_table_find_n ns.client_table key) ∧
      (cd.info.fd ≥ 0 → wr d = false →
        _nc_table_find_n ns1.client_table d
          = some { cd with info := { cd.info with fd := -1 } }) ∧
      (cd.info.fd < 0 →
        _nc_table_find_n ns1.client_table d = some cd ∧
        (∀ fd token, delivery_t.write d fd token ∉ ev) ∧
        ev = ((n.client_list.filter (fun c => decide (c ≠ d))).map
          (dispatch_events_spec wr ns.client_table)).flatten) := by
  have hname : n.name = name := find_name_eq _ _ _ hn
  have hidd : cd.client_id = d := find_client_eq _ _ _ hcd
  obtain ⟨ct2, hloop, hct2⟩ := post_loop_full wr n.client_list ns.client_table hvalid hnodup
  rw [← send_events_dispatch_spec]
  refine ⟨mutex_unlock
      { mutex_lock ns with
        name_table := name_store (mutex_lock ns).name_table
          { n with val := (n.val + 1) % 2 ^ 32 },
        client_table := ct2 },
    (n.client_list.map (send_events wr ns.client_table)).flatten, ?_, ?_, rfl, ?_, ?_, ?_⟩
  · unfold _notify_lib_post
    simp only [mutex_lock_name_table, hn, check_access_mutex_lock, hauth, ne_eq,
      not_true_eq_false, if_false, mutex_lock_client_table, hloop]
  · rw [mutex_unlock_name_table, find_name_store, mutex_lock_name_table]
    have : name = ({ n with val := (n.val + 1) % 2 ^ 32 } : name_info_t).name := hname.symm
    rw [if_pos this, hn]
    rfl
  · intro key
    rw [mutex_unlock_client_table]
    show _nc_table_find_n ct2 key = _
    rw [hct2 key]
    have e : (fun c => (_internal_send wr c).1) = dispatched_spec wr := by
      funext c
      exact (internal_send_dispatch_spec wr c).2
    rw [e]
  · intro hge hwr
    rw [mutex_unlock_client_table]
    show _nc_table_find_n ct2 d = _
    rw [hct2 d, if_pos hd, hcd]
    simp only [Option.map, _internal_send, hfd, hge, if_true, hidd, hwr, Bool.false_eq_true,
      if_false]
  · intro hlt
    have hnot : ¬ cd.info.fd ≥ 0 := by omega
    have hsend : _internal_send wr cd = (cd, []) := by
      simp only [_internal_send, hfd, if_neg hnot]
    have hevd : send_events wr ns.client_table d = [] := by
      simp only [send_events, hcd, hsend]
    refine ⟨?_, ?_, ?_⟩
    · rw [mutex_unlock_client_table]
      show _nc_table_find_n ct2 d = _
      rw [hct2 d, if_pos hd, hcd]
      simp only [Option.map, hsend]
    · intro fd token hmem
      obtain ⟨evs, h1, h2⟩ := List.mem_flatten.mp hmem
      obtain ⟨c, _, h3⟩ := List.mem_map.mp h1
      subst h3
      by_cases hc : c = d
      · rw [hc, hevd] at h2
        cases h2
      · exact send_events_not_write wr ns.client_table c d hc fd token h2
    · generalize n.client_list = l
      induction l with
      | nil => rfl
      | cons c rest ih =>
        by_cases hc : c = d
        · have h1 : decide (c ≠ d) = false := by simp [hc]
          simp only [List.map_cons, List.flatten_cons, List.filter_cons, h1,
            Bool.false_eq_true, if_false, ih]
          rw [hc, hevd, List.nil_append]
        · have h1 : decide (c ≠ d) = true := by simp [hc]
          simp only [List.map_cons, List.flatten_cons, List.filter_cons, h1, if_true, ih]

/-- C25 on the registry of the scenario "Write failure", where the write succeeds for
client 4 and fails for client 1: in the first post client 1 has fd 5; the port
subscriber 5 is sent its message, the token of 4 is written, the plain subscriber 3 is
handed nothing, 2 is signalled, and the failed write for 1 is followed by the close of
its descriptor, which leaves 1 with fd -1 and the other records as they were.  The
second post writes nothing for client 1, increments val and delivers to 5, 4 and 2 as
before. -/
theorem failed_write_disables_descriptor_witness :
    (∃ ns1 ev, _notify_lib_post spec_consts (fun c => decide (c ≠ 1)) (registry_fd 5)
        [65] 0 0 = some (NOTIFY_STATUS_OK, ns1, ev) ∧
      ns1.client_table = (registry_fd (-1)).client_table ∧
      ev = [delivery_t.mach_msg 77 11, delivery_t.write 4 6 12, delivery_t.kill 42 30,
        delivery_t.write 1 5 9, delivery_t.close 5]) ∧
    (∃ ns1 ev, _notify_lib_post spec_consts (fun c => decide (c ≠ 1)) (registry_fd (-1))
        [65] 0 0 = some (NOTIFY_STATUS_OK, ns1, ev) ∧
      (∀ fd token, delivery_t.write 1 fd token ∉ ev) ∧
      ev = [delivery_t.mach_msg 77 11, delivery_t.write 4 6 12, delivery_t.kill 42 30] ∧
      ns1.client_table = (registry_fd (-1)).client_table ∧
      (_nc_table_find ns1.name_table [65]).map (fun n => n.val) = some 2) :=
  ⟨(failed_write_disables_descriptor spec_consts (fun c => decide (c ≠ 1)) (registry_fd 5)
      [65] 0 0 ⟨[65], 0, 0, 201, 4294967295, 5, 1, 0, [5, 4, 3, 2, 1], 0⟩ 1
      { client_id := 1, info := { calloc_client_info with
          name_info := some [65], notify_type := NOTIFY_TYPE_FD, fd := 5, token := 9,
          session := 7 } }
      (by decide) (by decide) (by decide) (by decide) (by decide) (by decide) rfl).imp
      (fun ns1 h => h.imp (fun ev h2 => ⟨h2.1,
        by
          have e : ns1 = ((_notify_lib_post spec_consts (fun c => decide (c ≠ 1))
              (registry_fd 5) [65] 0 0).get (by decide)).2.1 := by
            simp only [h2.1, Option.get_some]
          rw [e]; decide,
        h2.2.2.1.trans (by decide)⟩)),
    (failed_write_disables_descriptor spec_consts (fun c => decide (c ≠ 1))
      (registry_fd (-1)) [65] 0 0
      ⟨[65], 0, 0, 201, 4294967295, 5, 1, 0, [5, 4, 3, 2, 1], 0⟩ 1
      { client_id := 1, info := { calloc_client_info with
          name_info := some [65], notify_type := NOTIFY_TYPE_FD, fd := -1, token := 9,
          session := 7 } }
      (by decide) (by decide) (by decide) (by decide) (by decide) (by decide) rfl).imp
      (fun ns1 h => h.imp (fun ev h2 => ⟨h2.1, (h2.2.2.2.2.2 (by decide)).2.1,
        h2.2.2.1.trans (by decide),
        by
          have e : ns1 = ((_notify_lib_post spec_consts (fun c => decide (c ≠ 1))
              (registry_fd (-1)) [65] 0 0).get (by decide)).2.1 := by
            simp only [h2.1, Option.get_some]
          rw [e]; decide,
        by rw [h2.2.1]; decide⟩))⟩

/-! ## The allocator state and the set of live ids -/

/-- Under the allocator invariant the counter is 0 or the id of a live client. -/
theorem alloc_ok_top (lv : Nat → Prop) (next : Nat) (free : List Nat)
    (h : alloc_ok lv next free) : next ≠ 0 → lv next := by
  intro h0
  obtain ⟨_, _, _, h4, h5, _⟩ := h
  rcases h4 next (by omega) (le_refl _) with hl | hm
  · exact hl
  · have := (h5 next hm).2
    omega

/-- Under the allocator invariant the free list holds exactly the ids of 1..counter that
are not live. -/
theorem alloc_ok_mem_free (lv : Nat → Prop) (next : Nat) (free : List Nat)
    (h : alloc_ok lv next free) (x : Nat) :
    x ∈ free ↔ 1 ≤ x ∧ x ≤ next ∧ ¬ lv x := by
  obtain ⟨_, h2, _, h4, h5, _⟩ := h
  constructor
  · intro hx
    have := h5 x hx
    exact ⟨this.1, by omega, h2 x hx⟩
  · rintro ⟨h1, hn, hl⟩
    rcases h4 x h1 hn with hl2 | hm
    · exact absurd hl2 hl
    · exact hm

/-- Two strictly decreasing lists with the same elements are equal. -/
theorem decreasing_ext (l1 l2 : List Nat) (h1 : List.Pairwise (fun a b => a > b) l1)
    (h2 : List.Pairwise (fun a b => a > b) l2) (h : ∀ x, x ∈ l1 ↔ x ∈ l2) : l1 = l2 := by
  induction l1 generalizing l2 with
  | nil =>
    cases l2 with
    | nil => rfl
    | cons y r => exact absurd ((h y).mpr (List.mem_cons_self _ _)) (List.not_mem_nil _)
  | cons x r ih =>
    cases l2 with
    | nil => exact absurd ((h x).mp (List.mem_cons_self _ _)) (List.not_mem_nil _)
    | cons y r2 =>
      obtain ⟨hx, hr⟩ := List.pairwise_cons.mp h1
      obtain ⟨hy, hr2⟩ := List.pairwise_cons.mp h2
      have hxy : x = y := by
        have a := (h x).mp (List.mem_cons_self _ _)
        have b := (h y).mpr (List.mem_cons_self _ _)
        rcases List.mem_cons.mp a with e | e
        · exact e
        · rcases List.mem_cons.mp b with e2 | e2
          · exact e2.symm
          · have := hy x e
            have := hx y e2
            omega
      subst hxy
      have hrest : ∀ z, z ∈ r ↔ z ∈ r2 := by
        intro z
        constructor
        · intro hz
          have hlt := hx z hz
          rcases List.mem_cons.mp ((h z).mp (List.mem_cons_of_mem _ hz)) with e | e
          · omega
          · exact e
        · intro hz
          have hlt := hy z hz
          rcases List.mem_cons.mp ((h z).mpr (List.mem_cons_of_mem _ hz)) with e | e
          · omega
          · exact e
      rw [ih r2 hr hr2 hrest]

/-- The allocator invariant leaves one counter and one free list for a set of live
ids. -/
theorem alloc_ok_unique (lv : Nat → Prop) (next1 next2 : Nat) (free1 free2 : List Nat)
    (h1 : alloc_ok lv next1 free1) (h2 : alloc_ok lv next2 free2) :
    next1 = next2 ∧ free1 = free2 := by
  have hn : next1 = next2 := by
    by_contra hne
    rcases Nat.lt_or_gt_of_ne hne with hlt | hgt
    · have := (h1.2.2.1 next2 (alloc_ok_top lv next2 free2 h2 (by omega))).2
      omega
    · have := (h2.2.2.1 next1 (alloc_ok_top lv next1 free1 h1 (by omega))).2
      omega
  subst hn
  refine ⟨rfl, decreasing_ext free1 free2 h1.1 h2.1 ?_⟩
  intro x
  rw [alloc_ok_mem_free lv next1 free1 h1 x, alloc_ok_mem_free lv next1 free2 h2 x]

/-- C26, amended: in every registry reachable from a new registry by registrations and
cancellations in which the id counter does not wrap, the counter is at least every live
id and, when it is not 0, is itself a live id; the free list is strictly decreasing and
holds exactly the ids of 1..counter that are not live; and every registry reachable in
this way with the same set of live ids has the same counter and the same free list. -/
theorem allocator_determined (k : notify_consts) (ns : notify_state_t)
    (h : reachable k register_or_cancel_no_wrap ns) :
    (∀ id, live ns id → 1 ≤ id ∧ id ≤ ns.client_id) ∧
    (ns.client_id ≠ 0 → live ns ns.client_id) ∧
    List.Pairwise (fun a b => a > b) ns.free_client_list ∧
    (∀ x, x ∈ ns.free_client_list ↔ 1 ≤ x ∧ x ≤ ns.client_id ∧ ¬ live ns x) ∧
    (∀ ns2, reachable k register_or_cancel_no_wrap ns2 → (∀ id, live ns2 id ↔ live ns id) →
      ns2.client_id = ns.client_id ∧ ns2.free_client_list = ns.free_client_list) := by
  have hok := allocator_inv_strong_reachable k ns h
  unfold allocator_inv_strong at hok
  refine ⟨hok.2.2.1, alloc_ok_top _ _ _ hok, hok.1, alloc_ok_mem_free _ _ _ hok, ?_⟩
  intro ns2 h2 hlive
  have hok2 := allocator_inv_strong_reachable k ns2 h2
  unfold allocator_inv_strong at hok2
  have hok3 : alloc_ok (live ns) ns2.client_id ns2.free_client_list :=
    alloc_ok_congr _ _ _ _ (fun id => (hlive id).symm) hok2
  exact alloc_ok_unique _ _ _ _ _ hok3 hok

/-- C26, amended, on the registry reached by three registrations on A and the
cancellations of the clients 1 and 2: the counter is 3, the free list is [2, 1], and the
registry reached with the two cancellations in the other order has the same counter and
free list. -/
theorem allocator_determined_witness :
    (registry_ids spec_consts 0 none 7 [3] 3 [2, 1]).client_id = 3 ∧
    (registry_ids spec_consts 0 none 7 [3] 3 [2, 1]).free_client_list = [2, 1] ∧
    live (registry_ids spec_consts 0 none 7 [3] 3 [2, 1]) 3 ∧
    (∀ x, x ∈ (registry_ids spec_consts 0 none 7 [3] 3 [2, 1]).free_client_list ↔
      1 ≤ x ∧ x ≤ (registry_ids spec_consts 0 none 7 [3] 3 [2, 1]).client_id ∧
        ¬ live (registry_ids spec_consts 0 none 7 [3] 3 [2, 1]) x) ∧
    ∃ ns2, op_step spec_consts (op_t.cancel 1) (registry_ids spec_consts 0 none 7 [3, 1] 3 [2])
        = some ns2 ∧
      ns2.client_id = (registry_ids spec_consts 0 none 7 [3] 3 [2, 1]).client_id ∧
      ns2.free_client_list = (registry_ids spec_consts 0 none 7 [3] 3 [2, 1]).free_client_list :=
  have h := allocator_determined spec_consts (registry_ids spec_consts 0 none 7 [3] 3 [2, 1])
    (reachable.step _ _ (op_t.cancel 2)
      (reachable.step _ (registry_ids spec_consts 0 none 7 [3, 2] 3 [1]) (op_t.cancel 1)
        (reachable.step _ (registry_ids spec_consts 0 none 7 [3, 2, 1] 3 []) 
          (op_t.register_plain [65] 7 4294967295 0 0 0)
          (reachable.step _ (registry_ids spec_consts 0 none 7 [2, 1] 2 [])
            (op_t.register_plain [65] 7 4294967295 0 0 0)
            (reachable.step _ (registry_ids spec_consts 0 none 7 [1] 1 [])
              (op_t.register_plain [65] 7 4294967295 0 0 0)
              (reachable.new 0) (Or.inl ⟨rfl, by decide⟩) (by decide))
            (Or.inl ⟨rfl, by decide⟩) (by decide))
          (Or.inl ⟨rfl, by decide⟩) (by decide))
        (Or.inr rfl) (by decide))
      (Or.inr rfl) (by decide))
  ⟨rfl, rfl, h.2.1 (by decide), h.2.2.2.1,
    ⟨registry_ids spec_consts 0 none 7 [3] 3 [2, 1], by decide,
      h.2.2.2.2 _
        (reachable.step _ _ (op_t.cancel 1)
          (reachable.step _ (registry_ids spec_consts 0 none 7 [3, 1] 3 [2]) (op_t.cancel 2)
            (reachable.step _ (registry_ids spec_consts 0 none 7 [3, 2, 1] 3 [])
              (op_t.register_plain [65] 7 4294967295 0 0 0)
              (reachable.step _ (registry_ids spec_consts 0 none 7 [2, 1] 2 [])
                (op_t.register_plain [65] 7 4294967295 0 0 0)
                (reachable.step _ (registry_ids spec_consts 0 none 7 [1] 1 [])
                  (op_t.register_plain [65] 7 4294967295 0 0 0)
                  (reachable.new 0) (Or.inl ⟨rfl, by decide⟩) (by decide))
                (Or.inl ⟨rfl, by decide⟩) (by decide))
              (Or.inl ⟨rfl, by decide⟩) (by decide))
            (Or.inr rfl) (by decide))
          (Or.inr rfl) (by decide))
        (fun _ => Iff.rfl)⟩⟩

/-- A registration by uid 0 with an empty free list keeps every live client live. -/
theorem register_plain_root_fresh_live (k : notify_consts) (ns : notify_state_t)
    (name : cstring) (task slot gid tok : Nat) (hf : ns.free_client_list = []) :
    ∃ ns1, _notify_lib_register_plain k ns name task slot 0 gid tok
        = some (NOTIFY_STATUS_OK, ns1, (ns.client_id + 1) % 2 ^ 32) ∧
      ns1.client_id = (ns.client_id + 1) % 2 ^ 32 ∧ ns1.free_client_list = [] ∧
      live ns1 ((ns.client_id + 1) % 2 ^ 32) ∧ ∀ id, live ns id → live ns1 id := by
  obtain ⟨ns1, h1, h2, h3, h4⟩ := register_plain_root_fresh k ns name task slot gid tok hf
  refine ⟨ns1, h1, h2, h3, h4, ?_⟩
  obtain ⟨s, n, set, e1, _, _, e4, _⟩ :=
    register_plain_shape k ns name task slot 0 gid tok _ h1 rfl
  intro id hid
  have hs : live s id := by
    unfold live at hid ⊢
    rw [e1]; exact hid
  have := (register_client_live s n set id).mpr ((client_new_live s id).mpr (Or.inr hs))
  simp only at e4
  rw [e4]
  simpa [live] using this

/-- Registrations alone reach a registry with any given counter value from 1 on, an
empty free list and the client 1 live. -/
theorem reachable_counter_live (n : Nat) (hn : n + 1 ≤ 2 ^ 32 - 1) :
    ∃ ns, reachable spec_consts register_or_cancel ns ∧ ns.client_id = n + 1 ∧
      ns.free_client_list = [] ∧ live ns 1 := by
  induction n with
  | zero =>
    obtain ⟨ns1, h1, h2, h3, h4, _⟩ := register_plain_root_fresh_live spec_consts
      (_notify_lib_notify_state_new spec_consts 0) [65] 0 4294967295 0 0 rfl
    refine ⟨ns1, reachable.step _ ns1 (op_t.register_plain [65] 0 4294967295 0 0 0)
      (reachable.new 0) (Or.inl rfl) ?_, ?_, h3, ?_⟩
    · simp [op_step, h1]
    · rw [h2]; rfl
    · have e : ((_notify_lib_notify_state_new spec_consts 0).client_id + 1) % 2 ^ 32 = 1 := rfl
      rw [e] at h4
      exact h4
  | succ m ih =>
    obtain ⟨ns, hr, hid, hf, hl⟩ := ih (by omega)
    obtain ⟨ns1, h1, h2, h3, _, h5⟩ :=
      register_plain_root_fresh_live spec_consts ns [65] 0 4294967295 0 0 hf
    refine ⟨ns1, reachable.step ns ns1 (op_t.register_plain [65] 0 4294967295 0 0 0) hr
      (Or.inl rfl) ?_, ?_, h3, h5 1 hl⟩
    · simp [op_step, h1]
    · rw [h2, hid]
      omega

/-- C26 as stated fails: after 2^32 - 1 registrations the next one wraps the id counter
to 0, while the client 1 is still live, so that the counter is not the largest live
id. -/
theorem allocator_not_determined_on_wrap :
    ¬ ∀ ns, reachable spec_consts register_or_cancel ns →
      ∀ id, live ns id → id ≤ ns.client_id := by
  intro hall
  obtain ⟨ns, hr, hid, hf, hl⟩ := reachable_counter_live (2 ^ 32 - 2) (by decide)
  obtain ⟨ns1, h1, h2, _, _, h5⟩ :=
    register_plain_root_fresh_live spec_consts ns [65] 0 4294967295 0 0 hf
  have hr1 : reachable spec_consts register_or_cancel ns1 :=
    reachable.step ns ns1 (op_t.register_plain [65] 0 4294967295 0 0 0) hr (Or.inl rfl)
      (by simp [op_step, h1])
  have := hall ns1 hr1 1 (h5 1 hl)
  rw [h2, hid] at this
  omega

/-! ## The val of a name along a run -/

theorem val_of_name_store (t : List name_info_t) (m : name_info_t) (name : cstring)
    (h : ∀ m0, _nc_table_find t m.name = some m0 → m0.val = m.val) :
    val_of (name_store t m) name = val_of t name := by
  unfold val_of
  rw [find_name_store]
  by_cases hk : name = m.name
  · rw [if_pos hk, hk]
    cases hf : _nc_table_find t m.name with
    | none => rfl
    | some m0 => simp [h m0 hf]
  · rw [if_neg hk]

theorem val_of_name_store_ne (t : List name_info_t) (m : name_info_t) (name : cstring)
    (h : name ≠ m.name) : val_of (name_store t m) name = val_of t name := by
  unfold val_of
  rw [find_name_store, if_neg h]

theorem val_of_delete (t : List name_info_t) (key name : cstring) :
    val_of (_nc_table_delete t key) name = none ∨
      val_of (_nc_table_delete t key) name = val_of t name := by
  unfold val_of
  rw [find_table_delete]
  by_cases hk : name = key
  · left; rw [if_pos hk]; rfl
  · right; rw [if_neg hk]

/-- The lookup-or-create leaves the val of a name, or creates the name with val 1. -/
theorem val_of_find_or_new (k : notify_consts) (ns : notify_state_t) (nm name : cstring) :
    val_of (find_or_new_name k ns nm).1.name_table name = val_of ns.name_table name ∨
    (val_of ns.name_table name = none ∧
      val_of (find_or_new_name k ns nm).1.name_table name = some 1) := by
  rcases find_or_new_name_cases k ns nm with ⟨n, _, _, e3⟩ | ⟨e1, e2, e3⟩
  · left; rw [e3]
  · rw [e3, e2]
    unfold val_of
    by_cases hk : nm = name
    · right
      subst hk
      simp [_nc_table_find, e1]
    · left
      simp [_nc_table_find, hk]

/-- The common tail of the registrations leaves the val of every name. -/
theorem val_of_register_tail (s : notify_state_t) (a : name_info_t)
    (set : client_info_t → client_info_t) (name : cstring) (m0 : name_info_t)
    (h0 : _nc_table_find s.name_table a.name = some m0) (hv : m0.val = a.val) :
    val_of (mutex_unlock
      (register_client { s with name_table := name_store s.name_table a } a set).1).name_table
      name = val_of s.name_table name := by
  rw [mutex_unlock_name_table, (register_client_fields _ a set).2.2.1]
  simp only
  rw [name_store_name_store _ _ _ (by rfl)]
  apply val_of_name_store
  intro m1 hm1
  simp only at hm1
  rw [h0] at hm1
  cases hm1
  exact hv

theorem val_step_refl (v : Option Nat) : val_step v v := Or.inr (Or.inl rfl)

theorem val_step_of_eq (v v1 : Option Nat) (h : v1 = v) : val_step v v1 :=
  Or.inr (Or.inl h)

/-- A name table that has the vals of the table after the lookup-or-create. -/
theorem val_step_find_or_new (k : notify_consts) (ns : notify_state_t) (nm name : cstring)
    (t : List name_info_t)
    (h : val_of t name = val_of (find_or_new_name k (mutex_lock ns) nm).1.name_table name) :
    val_step (val_of ns.name_table name) (val_of t name) := by
  rw [h]
  rcases val_of_find_or_new k (mutex_lock ns) nm name with e | ⟨e1, e2⟩
  · rw [mutex_lock_name_table] at e
    exact Or.inr (Or.inl e)
  · rw [mutex_lock_name_table] at e1
    exact Or.inr (Or.inr ⟨e1, e2⟩)

/-- The tail of a registration after the lookup-or-create leaves every val. -/
theorem val_of_register_after (k : notify_consts) (ns : notify_state_t) (nm name : cstring)
    (a : name_info_t) (set : client_info_t → client_info_t)
    (ha : a.name = (find_or_new_name k (mutex_lock ns) nm).2.name)
    (hv : a.val = (find_or_new_name k (mutex_lock ns) nm).2.val) :
    val_of (mutex_unlock
      (register_client
        { (find_or_new_name k (mutex_lock ns) nm).1 with
          name_table := name_store (find_or_new_name k (mutex_lock ns) nm).1.name_table a }
        a set).1).name_table name
      = val_of (find_or_new_name k (mutex_lock ns) nm).1.name_table name := by
  obtain ⟨hfind, hname⟩ := find_or_new_name_find k (mutex_lock ns) nm
  apply val_of_register_tail _ a set name (find_or_new_name k (mutex_lock ns) nm).2
  · rw [ha, hname]; exact hfind
  · exact hv.symm

theorem register_plain_val (k : notify_consts) (ns : notify_state_t) (nm name : cstring)
    (task slot uid gid tok : Nat) (r : status_t × notify_state_t × Nat)
    (h : _notify_lib_register_plain k ns nm task slot uid gid tok = some r) :
    val_step (val_of ns.name_table name) (val_of r.2.1.name_table name) := by
  apply val_step_find_or_new k ns nm
  unfold _notify_lib_register_plain at h
  simp only at h
  split at h
  · cases h
  · split at h
    · cases h
      simp only [mutex_unlock_name_table]
    · cases h
      simp only
      apply val_of_register_after
      · split <;> rfl
      · split <;> rfl

theorem register_signal_val (k : notify_consts) (pid_for_task : Nat → Option Int)
    (ns : notify_state_t) (nm name : cstring)
    (task sig uid gid tok : Nat) (r : status_t × notify_state_t × Nat)
    (h : _notify_lib_register_signal k pid_for_task ns nm task sig uid gid tok = some r) :
    val_step (val_of ns.name_table name) (val_of r.2.1.name_table name) := by
  apply val_step_find_or_new k ns nm
  unfold _notify_lib_register_signal at h
  simp only at h
  split at h
  · cases h
  · split at h
    · cases h
      simp only [mutex_unlock_name_table]
    · split at h
      · cases h
        simp only [mutex_unlock_name_table]
      · cases h
        simp only
        apply val_of_register_after <;> rfl

theorem register_file_descriptor_val (k : notify_consts) (open_path : cstring → Int)
    (ns : notify_state_t) (nm name : cstring) (task : Nat) (path : cstring)
    (token uid gid tok : Nat) (r : status_t × notify_state_t × Nat)
    (h : _notify_lib_register_file_descriptor k open_path ns nm task path token uid gid tok
      = some r) :
    val_step (val_of ns.name_table name) (val_of r.2.1.name_table name) := by
  apply val_step_find_or_new k ns nm
  unfold _notify_lib_register_file_descriptor at h
  simp only at h
  split at h
  · cases h
  · split at h
    · cases h
      simp only [mutex_unlock_name_table]
    · split at h
      · cases h
        rfl
      · cases h
        simp only
        apply val_of_register_after <;> rfl

theorem register_mach_port_val (k : notify_consts) (ns : notify_state_t) (nm name : cstring)
    (task port token uid gid tok : Nat) (r : status_t × notify_state_t × Nat)
    (h : _notify_lib_register_mach_port k ns nm task port token uid gid tok = some r) :
    val_step (val_of ns.name_table name) (val_of r.2.1.name_table name) := by
  apply val_step_find_or_new k ns nm
  unfold _notify_lib_register_mach_port at h
  simp only at h
  split at h
  · cases h
  · split at h
    · cases h
      simp only [mutex_unlock_name_table]
    · cases h
      simp only
      apply val_of_register_after <;> rfl

theorem internal_cancel_val (ns ns1 : notify_state_t) (cid : Nat) (name : cstring)
    (h : _internal_cancel ns cid = some ns1) :
    val_of ns1.name_table name = none ∨
      val_of ns1.name_table name = val_of ns.name_table name := by
  unfold _internal_cancel at h
  by_cases h0 : cid = 0
  · rw [if_pos h0] at h; cases h; exact Or.inr rfl
  · rw [if_neg h0] at h
    cases hc : _nc_table_find_n ns.client_table cid with
    | none => rw [hc] at h; cases h; exact Or.inr rfl
    | some c =>
      rw [hc] at h
      cases hnp : c.info.name_info with
      | none => simp only [hnp] at h; cases h; exact Or.inr rfl
      | some np =>
        simp only [hnp] at h
        cases hn : _nc_table_find ns.name_table np with
        | none => simp only [hn] at h; cases h
        | some n =>
          simp only [hn] at h
          have hname : n.name = np := find_name_eq _ _ _ hn
          have hstore : ∀ m : name_info_t, m.name = n.name → m.val = n.val →
              val_of (name_store ns.name_table m) name = val_of ns.name_table name := by
            intro m hm hv
            apply val_of_name_store
            intro m0 hm0
            rw [hm, hname, hn] at hm0
            cases hm0
            exact hv.symm
          by_cases hz : (n.refcount + 2 ^ 32 - 1) % 2 ^ 32 = 0
          · rw [if_pos hz] at h
            cases h
            simp only [client_release_name_table]
            rcases val_of_delete (name_store ns.name_table
                { n with refcount := (n.refcount + 2 ^ 32 - 1) % 2 ^ 32,
                         client_list := _nc_list_find_release n.client_list c.client_id })
                n.name name with e | e
            · exact Or.inl e
            · right
              rw [e]
              exact hstore _ rfl rfl
          · rw [if_neg hz] at h
            cases h
            right
            simp only [client_release_name_table]
            exact hstore _ rfl rfl

theorem session_cancel_all_val (name : cstring) (l : List Nat) :
    ∀ ns ns1 : notify_state_t, session_cancel_all ns l = some ns1 →
      val_of ns1.name_table name = none ∨
        val_of ns1.name_table name = val_of ns.name_table name := by
  induction l with
  | nil => intro ns ns1 h; simp [session_cancel_all] at h; rw [← h]; exact Or.inr rfl
  | cons cid rest ih =>
    intro ns ns1 h
    simp only [session_cancel_all] at h
    split at h
    · cases h
    · rename_i ns2 h2
      rcases ih ns2 ns1 h with e | e
      · exact Or.inl e
      · rcases internal_cancel_val ns ns2 cid name h2 with e2 | e2
        · left; rw [e, e2]
        · right; rw [e, e2]

theorem release_name_val (ns : notify_state_t) (nm name : cstring) (uid gid : Nat)
    (r : status_t × notify_state_t) (h : _notify_lib_release_name ns nm uid gid = some r) :
    val_of r.2.name_table name = none ∨
      val_of r.2.name_table name = val_of ns.name_table name := by
  unfold _notify_lib_release_name at h
  simp only at h
  cases hn : _nc_table_find (mutex_lock ns).name_table nm with
  | none =>
    rw [hn] at h
    cases h
    right
    simp only [mutex_unlock_name_table, mutex_lock_name_table]
  | some n =>
    rw [hn] at h
    simp only at h
    have hname : n.name = nm := find_name_eq _ _ _ hn
    have hstore : val_of (name_store (mutex_lock ns).name_table
          { n with refcount := (n.refcount + 2 ^ 32 - 1) % 2 ^ 32 }) name
        = val_of ns.name_table name := by
      rw [val_of_name_store, mutex_lock_name_table]
      intro m0 hm0
      simp only at hm0
      rw [hname, hn] at hm0
      cases hm0
      rfl
    split at h
    · cases h
      right
      simp only [mutex_unlock_name_table, mutex_lock_name_table]
    · split at h
      · cases h
        simp only [mutex_unlock_name_table]
        rcases val_of_delete (name_store (mutex_lock ns).name_table
            { n with refcount := (n.refcount + 2 ^ 32 - 1) % 2 ^ 32 }) n.name name with e | e
        · exact Or.inl e
        · right
          rw [e]
          exact hstore
      · cases h
        right
        simp only [mutex_unlock_name_table]
        exact hstore

/-- The val of a name after _internal_new_name. -/
theorem val_of_new_name (k : notify_consts) (s : notify_state_t) (nm name : cstring)
    (h : _nc_table_find s.name_table nm = none) :
    val_step (val_of s.name_table name)
      (val_of (_internal_new_name k s nm).1.name_table name) := by
  unfold val_of
  by_cases hk : nm = name
  · right; right
    subst hk
    simp [_internal_new_name, _nc_table_insert, _nc_table_find, h]
  · right; left
    simp [_internal_new_name, _nc_table_insert, _nc_table_find, hk]

theorem set_owner_val (k : notify_consts) (ns : notify_state_t) (nm name : cstring)
    (uid gid : Nat) (r : status_t × notify_state_t)
    (h : _notify_lib_set_owner k ns nm uid gid = some r) :
    val_step (val_of ns.name_table name) (val_of r.2.name_table name) := by
  unfold _notify_lib_set_owner at h
  simp only at h
  cases hn : _nc_table_find (mutex_lock ns).name_table nm with
  | some n =>
    rw [hn] at h
    simp only at h
    have hname : n.name = nm := find_name_eq _ _ _ hn
    split at h
    · cases h
    · rename_i ns2 h2
      cases h
      have e := insert_controlled_name_name_table _ _ _ h2
      simp only [mutex_unlock_name_table, e]
      apply val_step_of_eq
      rw [val_of_name_store, mutex_lock_name_table]
      intro m0 hm0
      simp only at hm0
      rw [hname, hn] at hm0
      cases hm0
      rfl
  | none =>
    rw [hn] at h
    simp only at h
    split at h
    · cases h
    · rename_i ns2 h2
      cases h
      have e := insert_controlled_name_name_table _ _ _ h2
      simp only [mutex_unlock_name_table, e]
      have hnew := val_of_new_name k (mutex_lock ns) nm name hn
      rw [mutex_lock_name_table] at hnew
      have hfind : _nc_table_find (_internal_new_name k (mutex_lock ns) nm).1.name_table nm
          = some (_internal_new_name k (mutex_lock ns) nm).2 := by
        simp [_internal_new_name, _nc_table_insert, _nc_table_find]
      rw [name_store_name_store _ _ _ (by rfl), val_of_name_store]
      · exact hnew
      · intro m0 hm0
        have hm1 : _nc_table_find (_internal_new_name k (mutex_lock ns) nm).1.name_table nm
            = some m0 := hm0
        rw [hfind] at hm1
        cases hm1
        rfl

theorem set_access_val (k : notify_consts) (ns : notify_state_t) (nm name : cstring)
    (mode : Nat) (r : status_t × notify_state_t)
    (h : _notify_lib_set_access k ns nm mode = some r) :
    val_step (val_of ns.name_table name) (val_of r.2.name_table name) := by
  unfold _notify_lib_set_access at h
  simp only at h
  cases hn : _nc_table_find (mutex_lock ns).name_table nm with
  | some n =>
    rw [hn] at h
    simp only at h
    have hname : n.name = nm := find_name_eq _ _ _ hn
    split at h
    · cases h
    · rename_i ns2 h2
      cases h
      have e := insert_controlled_name_name_table _ _ _ h2
      simp only [mutex_unlock_name_table, e]
      apply val_step_of_eq
      rw [val_of_name_store, mutex_lock_name_table]
      intro m0 hm0
      simp only at hm0
      rw [hname, hn] at hm0
      cases hm0
      rfl
  | none =>
    rw [hn] at h
    simp only at h
    split at h
    · cases h
    · rename_i ns2 h2
      cases h
      have e := insert_controlled_name_name_table _ _ _ h2
      simp only [mutex_unlock_name_table, e]
      have hnew := val_of_new_name k (mutex_lock ns) nm name hn
      rw [mutex_lock_name_table] at hnew
      have hfind : _nc_table_find (_internal_new_name k (mutex_lock ns) nm).1.name_table nm
          = some (_internal_new_name k (mutex_lock ns) nm).2 := by
        simp [_internal_new_name, _nc_table_insert, _nc_table_find]
      rw [name_store_name_store _ _ _ (by rfl), val_of_name_store]
      · exact hnew
      · intro m0 hm0
        have hm1 : _nc_table_find (_internal_new_name k (mutex_lock ns) nm).1.name_table nm
            = some m0 := hm0
        rw [hfind] at hm1
        cases hm1
        rfl

theorem set_state_val (k : notify_consts) (ns : notify_state_t) (cid state uid gid : Nat)
    (name : cstring) (r : status_t × notify_state_t)
    (h : _notify_lib_set_state k ns cid state uid gid = some r) :
    val_of r.2.name_table name = val_of ns.name_table name := by
  unfold _notify_lib_set_state at h
  by_cases h0 : cid = 0
  · rw [if_pos h0] at h; cases h; rfl
  · rw [if_neg h0] at h
    simp only at h
    split at h
    · cases h; simp only [mutex_unlock_name_table, mutex_lock_name_table]
    · split at h
      · cases h; simp only [mutex_unlock_name_table, mutex_lock_name_table]
      · rename_i np _
        split at h
        · cases h
        · rename_i n hn
          have hname : n.name = np := find_name_eq _ _ _ hn
          split at h
          · cases h
          · split at h
            · cases h; simp only [mutex_unlock_name_table, mutex_lock_name_table]
            · cases h
              simp only [mutex_unlock_name_table]
              rw [val_of_name_store, mutex_lock_name_table]
              intro m0 hm0
              simp only at hm0
              rw [hname, hn] at hm0
              cases hm0
              rfl

theorem set_val_val (k : notify_consts) (ns : notify_state_t) (cid : Nat) (v : Int)
    (uid gid : Nat) (name : cstring) (r : status_t × notify_state_t)
    (h : _notify_lib_set_val k ns cid v uid gid = some r)
    (hsv : (op_t.set_val cid v uid gid).sets_val_of k ns name = false) :
    val_of r.2.name_table name = val_of ns.name_table name := by
  have hcopy := h
  unfold _notify_lib_set_val at h
  by_cases h0 : cid = 0
  · rw [if_pos h0] at h; cases h; rfl
  · rw [if_neg h0] at h
    simp only at h
    split at h
    · cases h; simp only [mutex_unlock_name_table, mutex_lock_name_table]
    · rename_i c hc
      split at h
      · cases h; simp only [mutex_unlock_name_table, mutex_lock_name_table]
      · rename_i np hnp
        split at h
        · cases h
        · rename_i n hn
          have hname : n.name = np := find_name_eq _ _ _ hn
          split at h
          · cases h
          · split at h
            · cases h; simp only [mutex_unlock_name_table, mutex_lock_name_table]
            · cases h
              simp only [mutex_unlock_name_table]
              have hne : name ≠ np := by
                intro e
                rw [mutex_lock_client_table] at hc
                simp [op_t.sets_val_of, hc, hnp, e, hcopy] at hsv
              rw [val_of_name_store_ne, mutex_lock_name_table]
              simp only
              rw [hname]
              exact hne

theorem post_val (k : notify_consts) (wr : Nat → Bool) (ns : notify_state_t)
    (nm name : cstring) (uid gid : Nat) (r : status_t × notify_state_t × List delivery_t)
    (h : _notify_lib_post k wr ns nm uid gid = some r) :
    ((op_t.post wr nm uid gid).posts_to k ns name = true →
      ∃ x, val_of ns.name_table name = some x ∧
        val_of r.2.1.name_table name = some ((x + 1) % 2 ^ 32)) ∧
    ((op_t.post wr nm uid gid).posts_to k ns name = false →
      val_of r.2.1.name_table name = val_of ns.name_table name) := by
  have hcopy := h
  have hpost : (op_t.post wr nm uid gid).posts_to k ns name
      = (decide (nm = name) && decide (r.1 = NOTIFY_STATUS_OK)) := by
    simp [op_t.posts_to, hcopy]
  rw [hpost]
  unfold _notify_lib_post at h
  simp only at h
  have hsame : ∀ s : notify_state_t, s.name_table = ns.name_table →
      r = (NOTIFY_STATUS_INVALID_NAME, s, []) ∨ r = (NOTIFY_STATUS_NOT_AUTHORIZED, s, []) →
      (((decide (nm = name) && decide (r.1 = NOTIFY_STATUS_OK)) = true →
        ∃ x, val_of ns.name_table name = some x ∧
          val_of r.2.1.name_table name = some ((x + 1) % 2 ^ 32)) ∧
      ((decide (nm = name) && decide (r.1 = NOTIFY_STATUS_OK)) = false →
        val_of r.2.1.name_table name = val_of ns.name_table name)) := by
    intro s hs hr
    rcases hr with e | e
    · subst e
      simp [hs]
    · subst e
      simp [hs]
  split at h
  · cases h
    exact hsame _ (by simp) (Or.inl rfl)
  · rename_i n hn
    rw [mutex_lock_name_table] at hn
    have hname : n.name = nm := find_name_eq _ _ _ hn
    split at h
    · cases h
    · split at h
      · cases h
        exact hsame _ (by simp) (Or.inr rfl)
      · split at h
        · cases h
        · cases h
          simp only [mutex_unlock_name_table, mutex_lock_name_table, decide_True,
            Bool.and_true, decide_eq_true_eq, decide_eq_false_iff_not]
          constructor
          · intro e
            subst e
            refine ⟨n.val, ?_, ?_⟩
            · simp only [val_of, hn, Option.map]
            · simp only [val_of, find_name_store, hname, if_true, hn, Option.map]
          · intro e
            apply val_of_name_store_ne
            simp only
            rw [hname]
            exact fun e2 => e e2.symm

theorem val_step_of_deleted (v v1 : Option Nat) (h : v1 = none ∨ v1 = v) : val_step v v1 := by
  rcases h with e | e
  · exact Or.inl e
  · exact Or.inr (Or.inl e)

/-- What a public operation that is not a successful set_val by a client of the name does
to the val of the name: a post to the name that returns OK increments it modulo 2^32;
any other operation leaves it, deletes the name, or creates the name with val 1. -/
theorem op_step_val (k : notify_consts) (o : op_t) (ns ns1 : notify_state_t)
    (name : cstring) (h : op_step k o ns = some ns1)
    (hsv : o.sets_val_of k ns name = false) :
    (o.posts_to k ns name = true →
      ∃ x, val_of ns.name_table name = some x ∧
        val_of ns1.name_table name = some ((x + 1) % 2 ^ 32)) ∧
    (o.posts_to k ns name = false →
      val_step (val_of ns.name_table name) (val_of ns1.name_table name)) := by
  cases o with
  | register_plain nm task slot uid gid tok =>
    obtain ⟨r, hr, rfl⟩ := Option.map_eq_some'.mp h
    exact ⟨fun e => by simp [op_t.posts_to] at e,
      fun _ => register_plain_val k ns nm name task slot uid gid tok r hr⟩
  | register_signal pid_for_task nm task sig uid gid tok =>
    obtain ⟨r, hr, rfl⟩ := Option.map_eq_some'.mp h
    exact ⟨fun e => by simp [op_t.posts_to] at e,
      fun _ => register_signal_val k pid_for_task ns nm name task sig uid gid tok r hr⟩
  | register_file_descriptor open_path nm task path token uid gid tok =>
    obtain ⟨r, hr, rfl⟩ := Option.map_eq_some'.mp h
    exact ⟨fun e => by simp [op_t.posts_to] at e,
      fun _ => register_file_descriptor_val k open_path ns nm name task path token uid gid
        tok r hr⟩
  | register_mach_port nm task port token uid gid tok =>
    obtain ⟨r, hr, rfl⟩ := Option.map_eq_some'.mp h
    exact ⟨fun e => by simp [op_t.posts_to] at e,
      fun _ => register_mach_port_val k ns nm name task port token uid gid tok r hr⟩
  | cancel cid =>
    refine ⟨fun e => by simp [op_t.posts_to] at e, fun _ => ?_⟩
    simp only [op_step] at h
    unfold _notify_lib_cancel at h
    split at h
    · cases h
    · rename_i ns2 h2
      cases h
      have := internal_cancel_val _ ns2 cid name h2
      rw [mutex_lock_name_table] at this
      rw [mutex_unlock_name_table]
      exact val_step_of_deleted _ _ this
  | cancel_session t =>
    refine ⟨fun e => by simp [op_t.posts_to] at e, fun _ => ?_⟩
    simp only [op_step] at h
    unfold _notify_lib_cancel_session at h
    simp only at h
    split at h
    · cases h
    · split at h
      · cases h
      · rename_i ns2 h2
        cases h
        have := session_cancel_all_val name _ _ ns2 h2
        rw [mutex_lock_name_table] at this
        rw [mutex_unlock_name_table]
        exact val_step_of_deleted _ _ this
  | post wr nm uid gid =>
    obtain ⟨r, hr, rfl⟩ := Option.map_eq_some'.mp h
    obtain ⟨p1, p2⟩ := post_val k wr ns nm name uid gid r hr
    exact ⟨p1, fun e => val_step_of_eq _ _ (p2 e)⟩
  | check cid check =>
    refine ⟨fun e => by simp [op_t.posts_to] at e, fun _ => val_step_of_eq _ _ ?_⟩
    obtain ⟨r, hr, rfl⟩ := Option.map_eq_some'.mp h
    unfold _notify_lib_check at hr
    simp only at hr
    split at hr
    · cases hr; rfl
    · split at hr
      · cases hr; simp
      · split at hr
        · cases hr; simp
        · split at hr
          · cases hr
          · split at hr
            · cases hr; simp
            · cases hr; simp
  | peek cid val =>
    refine ⟨fun e => by simp [op_t.posts_to] at e, fun _ => val_step_of_eq _ _ ?_⟩
    obtain ⟨r, hr, rfl⟩ := Option.map_eq_some'.mp h
    unfold _notify_lib_peek at hr
    simp only at hr
    split at hr
    · cases hr; rfl
    · split at hr
      · cases hr; simp
      · split at hr
        · cases hr; simp
        · split at hr
          · cases hr
          · cases hr; simp
  | get_state cid =>
    refine ⟨fun e => by simp [op_t.posts_to] at e, fun _ => val_step_of_eq _ _ ?_⟩
    obtain ⟨r, hr, rfl⟩ := Option.map_eq_some'.mp h
    unfold _notify_lib_get_state at hr
    simp only at hr
    split at hr
    · cases hr; rfl
    · split at hr
      · cases hr; simp
      · split at hr
        · cases hr; simp
        · split at hr
          · cases hr
          · cases hr; simp
  | set_state cid state uid gid =>
    obtain ⟨r, hr, rfl⟩ := Option.map_eq_some'.mp h
    exact ⟨fun e => by simp [op_t.posts_to] at e,
      fun _ => val_step_of_eq _ _ (set_state_val k ns cid state uid gid name r hr)⟩
  | get_val cid =>
    refine ⟨fun e => by simp [op_t.posts_to] at e, fun _ => val_step_of_eq _ _ ?_⟩
    obtain ⟨r, hr, rfl⟩ := Option.map_eq_some'.mp h
    unfold _notify_lib_get_val at hr
    simp only at hr
    split at hr
    · cases hr; rfl
    · split at hr
      · cases hr; simp
      · split at hr
        · cases hr; simp
        · split at hr
          · cases hr
          · cases hr; simp
  | set_val cid val uid gid =>
    obtain ⟨r, hr, rfl⟩ := Option.map_eq_some'.mp h
    exact ⟨fun e => by simp [op_t.posts_to] at e,
      fun _ => val_step_of_eq _ _ (set_val_val k ns cid val uid gid name r hr hsv)⟩
  | set_owner nm uid gid =>
    obtain ⟨r, hr, rfl⟩ := Option.map_eq_some'.mp h
    exact ⟨fun e => by simp [op_t.posts_to] at e,
      fun _ => set_owner_val k ns nm name uid gid r hr⟩
  | get_owner nm =>
    refine ⟨fun e => by simp [op_t.posts_to] at e, fun _ => val_step_of_eq _ _ ?_⟩
    obtain ⟨r, hr, rfl⟩ := Option.map_eq_some'.mp h
    unfold _notify_lib_get_owner at hr
    simp only at hr
    split at hr
    · cases hr; simp
    · split at hr
      · cases hr
      · cases hr
        split <;> simp
      · cases hr; simp
  | set_access nm mode =>
    obtain ⟨r, hr, rfl⟩ := Option.map_eq_some'.mp h
    exact ⟨fun e => by simp [op_t.posts_to] at e,
      fun _ => set_access_val k ns nm name mode r hr⟩
  | get_access nm =>
    refine ⟨fun e => by simp [op_t.posts_to] at e, fun _ => val_step_of_eq _ _ ?_⟩
    obtain ⟨r, hr, rfl⟩ := Option.map_eq_some'.mp h
    unfold _notify_lib_get_access at hr
    simp only at hr
    split at hr
    · cases hr; simp
    · split at hr
      · cases hr
      · cases hr; simp
      · cases hr; simp
  | release_name nm uid gid =>
    obtain ⟨r, hr, rfl⟩ := Option.map_eq_some'.mp h
    exact ⟨fun e => by simp [op_t.posts_to] at e,
      fun _ => val_step_of_deleted _ _ (release_name_val ns nm name uid gid r hr)⟩

/-- The val of the name follows the count of the posts along a run without a set_val on
the name. -/
theorem run_counting_val (k : notify_consts) (name : cstring) (ops : List op_t) :
    ∀ (ns : notify_state_t) (cnt : Nat) (ns1 : notify_state_t) (cnt1 : Nat),
      (∀ x, val_of ns.name_table name = some x → x = (1 + cnt) % 2 ^ 32) →
      no_set_val_on k name ops ns →
      run_counting k name ops ns cnt = some (ns1, cnt1) →
      ∀ x, val_of ns1.name_table name = some x → x = (1 + cnt1) % 2 ^ 32 := by
  induction ops with
  | nil =>
    intro ns cnt ns1 cnt1 hinv _ hrun
    simp only [run_counting, Option.some.injEq, Prod.mk.injEq] at hrun
    obtain ⟨e1, e2⟩ := hrun
    subst e1; subst e2
    exact hinv
  | cons o rest ih =>
    intro ns cnt ns1 cnt1 hinv hno hrun
    obtain ⟨hsv, hrest⟩ := hno
    simp only [run_counting] at hrun
    cases hstep : op_step k o ns with
    | none => rw [hstep] at hrun; cases hrun
    | some ns2 =>
      rw [hstep] at hrun hrest
      simp only at hrun hrest
      obtain ⟨hp1, hp2⟩ := op_step_val k o ns ns2 name hstep hsv
      refine ih ns2 _ ns1 cnt1 ?_ hrest hrun
      intro x hx
      cases hf : _nc_table_find ns.name_table name with
      | none =>
        have hv : val_of ns.name_table name = none := by simp only [val_of, hf, Option.map]
        simp only [Option.isNone_none, if_true]
        have hpf : o.posts_to k ns name = false := by
          cases hb : o.posts_to k ns name with
          | false => rfl
          | true =>
            obtain ⟨y, hy, _⟩ := hp1 hb
            rw [hv] at hy
            cases hy
        rcases hp2 hpf with e | e | ⟨_, e⟩
        · rw [e] at hx; cases hx
        · rw [e, hv] at hx; cases hx
        · rw [e] at hx
          cases hx
          rfl
      | some n =>
        have hv : val_of ns.name_table name = some n.val := by
          simp only [val_of, hf, Option.map]
        have hn := hinv n.val hv
        simp only [Option.isNone_some, Bool.false_eq_true, if_false]
        cases hb : o.posts_to k ns name with
        | true =>
          obtain ⟨y, hy, hy2⟩ := hp1 hb
          rw [hv] at hy
          cases hy
          rw [hy2] at hx
          cases hx
          simp only [if_true]
          omega
        | false =>
          simp only [Bool.false_eq_true, if_false]
          rcases hp2 hb with e | e | ⟨e, _⟩
          · rw [e] at hx; cases hx
          · rw [e, hv] at hx
            cases hx
            exact hn
          · rw [hv] at e; cases e

/-- C23, amended: along every sequence of public operations applied to a new registry in
which no set_val by a client of the name returns OK, the val of the name, whenever the
name is in the name table (so also right after a post to it that returns OK), is 1 plus
the number of the posts to the name that returned OK since its record was created,
modulo 2^32. -/
theorem post_count_val (k : notify_consts) (name : cstring) (flags : Nat) (ops : List op_t)
    (ns : notify_state_t) (cnt : Nat) (n : name_info_t)
    (hno : no_set_val_on k name ops (_notify_lib_notify_state_new k flags))
    (hrun : run_counting k name ops (_notify_lib_notify_state_new k flags) 0 = some (ns, cnt))
    (hn : _nc_table_find ns.name_table name = some n) :
    n.val = (1 + cnt) % 2 ^ 32 := by
  refine run_counting_val k name ops (_notify_lib_notify_state_new k flags) 0 ns cnt ?_ hno hrun
    n.val ?_
  · intro x hx
    simp [val_of, _notify_lib_notify_state_new, _nc_table_find] at hx
  · simp only [val_of, hn, Option.map]

/-- C23, amended, on a concrete sequence: a registration on A and two posts to A; the
count is 2 and the val of A is 3. -/
theorem post_count_val_witness :
    run_counting spec_consts [65]
        [op_t.register_plain [65] 7 4294967295 0 0 0, op_t.post (fun _ => true) [65] 0 0,
          op_t.post (fun _ => true) [65] 0 0]
        (_notify_lib_notify_state_new spec_consts 0) 0
      = some (registry_A spec_consts 0 7 3 0, 2) ∧
    (3 : Nat) = (1 + 2) % 2 ^ 32 :=
  ⟨by decide,
    post_count_val spec_consts [65] 0
      [op_t.register_plain [65] 7 4294967295 0 0 0, op_t.post (fun _ => true) [65] 0 0,
        op_t.post (fun _ => true) [65] 0 0]
      (registry_A spec_consts 0 7 3 0) 2
      ⟨[65], 0, 0, 201, 4294967295, 1, 3, 0, [1], 0⟩
      ⟨rfl, rfl, rfl, trivial⟩ (by decide) (by decide)⟩

/-- C23 as stated fails: after a registration on A, a set_val of 100 by its client and
one post to A, all returning OK, the count of the posts to A is 1 and the val of A is
101, not 2. -/
theorem post_count_val_fails_after_set_val :
    run_counting spec_consts [65]
        [op_t.register_plain [65] 7 4294967295 0 0 0, op_t.set_val 1 100 0 0,
          op_t.post (fun _ => true) [65] 0 0]
        (_notify_lib_notify_state_new spec_consts 0) 0
      = some (registry_A spec_consts 0 7 101 0, 1) ∧
    _notify_lib_set_val spec_consts (registry_A spec_consts 0 7 1 0) 1 100 0 0
      = some (NOTIFY_STATUS_OK, registry_A spec_consts 0 7 100 0) ∧
    _notify_lib_post spec_consts (fun _ => true) (registry_A spec_consts 0 7 100 0) [65] 0 0
      = some (NOTIFY_STATUS_OK, registry_A spec_consts 0 7 101 0, []) ∧
    (_nc_table_find (registry_A spec_consts 0 7 101 0).name_table [65]).map (fun n => n.val)
      = some 101 ∧
    (101 : Nat) ≠ (1 + 1) % 2 ^ 32 := by
  refine ⟨?_, ?_, ?_, ?_, ?_⟩ <;> decide

/-! ## The addresses of the name records -/

theorem fresh_addr_congr (ns ms : notify_state_t) (h : ms.name_table = ns.name_table)
    (hc : ms.controlled_name = ns.controlled_name) : fresh_addr ms = fresh_addr ns := by
  unfold fresh_addr
  rw [h, hc]

theorem addr_of_lt_fresh (ns : notify_state_t) (name : cstring) (a : Nat)
    (h : addr_of ns.name_table name = some a) : a < fresh_addr ns := by
  unfold addr_of at h
  cases hf : _nc_table_find ns.name_table name with
  | none => rw [hf] at h; cases h
  | some n =>
    rw [hf] at h
    simp only [Option.map, Option.some.injEq] at h
    rw [← h]
    exact (fresh_addr_fresh ns).1 n (mem_of_find _ _ _ hf)

theorem addr_of_name_store (t : List name_info_t) (m : name_info_t) (name : cstring)
    (h : ∀ m0, _nc_table_find t m.name = some m0 → m0.addr = m.addr) :
    addr_of (name_store t m) name = addr_of t name := by
  unfold addr_of
  rw [find_name_store]
  by_cases hk : name = m.name
  · rw [if_pos hk, hk]
    cases hf : _nc_table_find t m.name with
    | none => rfl
    | some m0 => simp [h m0 hf]
  · rw [if_neg hk]

theorem addr_of_delete (t : List name_info_t) (key name : cstring) :
    addr_of (_nc_table_delete t key) name = none ∨
      addr_of (_nc_table_delete t key) name = addr_of t name := by
  unfold addr_of
  rw [find_table_delete]
  by_cases hk : name = key
  · left; rw [if_pos hk]; rfl
  · right; rw [if_neg hk]

theorem addr_step_refl (fresh : Nat) (nm name : cstring) (v : Option Nat) :
    addr_step fresh nm name v v := Or.inr (Or.inl rfl)

theorem addr_step_of_eq (fresh : Nat) (nm name : cstring) (v v1 : Option Nat) (h : v1 = v) :
    addr_step fresh nm name v v1 := Or.inr (Or.inl h)

theorem addr_step_of_deleted (fresh : Nat) (nm name : cstring) (v v1 : Option Nat)
    (h : v1 = none ∨ v1 = v) : addr_step fresh nm name v v1 := by
  rcases h with e | e
  · exact Or.inl e
  · exact Or.inr (Or.inl e)

/-- The lookup-or-create leaves the address of a name, or creates the name at the fresh
address. -/
theorem addr_of_find_or_new (k : notify_consts) (ns : notify_state_t) (nm name : cstring) :
    addr_step (fresh_addr ns) nm name (addr_of ns.name_table name)
      (addr_of (find_or_new_name k ns nm).1.name_table name) := by
  rcases find_or_new_name_cases k ns nm with ⟨n, _, _, e3⟩ | ⟨e1, e2, e3⟩
  · rw [e3]; exact addr_step_refl _ _ _ _
  · rw [e3, e2]
    unfold addr_of
    by_cases hk : nm = name
    · right; right
      subst hk
      simp [_nc_table_find, e1]
    · right; left
      simp [_nc_table_find, hk]

/-- The common tail of the registrations leaves the address of every name. -/
theorem addr_of_register_tail (s : notify_state_t) (a : name_info_t)
    (set : client_info_t → client_info_t) (name : cstring) (m0 : name_info_t)
    (h0 : _nc_table_find s.name_table a.name = some m0) (hv : m0.addr = a.addr) :
    addr_of (mutex_unlock
      (register_client { s with name_table := name_store s.name_table a } a set).1).name_table
      name = addr_of s.name_table name := by
  rw [mutex_unlock_name_table, (register_client_fields _ a set).2.2.1]
  simp only
  rw [name_store_name_store _ _ _ (by rfl)]
  apply addr_of_name_store
  intro m1 hm1
  simp only at hm1
  rw [h0] at hm1
  cases hm1
  exact hv

/-- A name table that has the addresses of the table after the lookup-or-create. -/
theorem addr_step_find_or_new (k : notify_consts) (ns : notify_state_t) (nm name : cstring)
    (t : List name_info_t)
    (h : addr_of t name = addr_of (find_or_new_name k (mutex_lock ns) nm).1.name_table name) :
    addr_step (fresh_addr ns) nm name (addr_of ns.name_table name) (addr_of t name) := by
  rw [h]
  have e := addr_of_find_or_new k (mutex_lock ns) nm name
  rw [mutex_lock_name_table, fresh_addr_congr ns (mutex_lock ns) (by simp) (by simp)] at e
  exact e

/-- The tail of a registration after the lookup-or-create leaves every address. -/
theorem addr_of_register_after (k : notify_consts) (ns : notify_state_t) (nm name : cstring)
    (a : name_info_t) (set : client_info_t → client_info_t)
    (ha : a.name = (find_or_new_name k (mutex_lock ns) nm).2.name)
    (hv : a.addr = (find_or_new_name k (mutex_lock ns) nm).2.addr) :
    addr_of (mutex_unlock
      (register_client
        { (find_or_new_name k (mutex_lock ns) nm).1 with
          name_table := name_store (find_or_new_name k (mutex_lock ns) nm).1.name_table a }
        a set).1).name_table name
      = addr_of (find_or_new_name k (mutex_lock ns) nm).1.name_table name := by
  obtain ⟨hfind, hname⟩ := find_or_new_name_find k (mutex_lock ns) nm
  apply addr_of_register_tail _ a set name (find_or_new_name k (mutex_lock ns) nm).2
  · rw [ha, hname]; exact hfind
  · exact hv.symm

theorem register_plain_addr (k : notify_consts) (ns : notify_state_t) (nm name : cstring)
    (task slot uid gid tok : Nat) (r : status_t × notify_state_t × Nat)
    (h : _notify_lib_register_plain k ns nm task slot uid gid tok = some r) :
    addr_step (fresh_addr ns) nm name (addr_of ns.name_table name)
      (addr_of r.2.1.name_table name) := by
  apply addr_step_find_or_new k ns nm
  unfold _notify_lib_register_plain at h
  simp only at h
  split at h
  · cases h
  · split at h
    · cases h
      simp only [mutex_unlock_name_table]
    · cases h
      simp only
      apply addr_of_register_after
      · split <;> rfl
      · split <;> rfl

theorem register_signal_addr (k : notify_consts) (pid_for_task : Nat → Option Int)
    (ns : notify_state_t) (nm name : cstring)
    (task sig uid gid tok : Nat) (r : status_t × notify_state_t × Nat)
    (h : _notify_lib_register_signal k pid_for_task ns nm task sig uid gid tok = some r) :
    addr_step (fresh_addr ns) nm name (addr_of ns.name_table name)
      (addr_of r.2.1.name_table name) := by
  apply addr_step_find_or_new k ns nm
  unfold _notify_lib_register_signal at h
  simp only at h
  split at h
  · cases h
  · split at h
    · cases h
      simp only [mutex_unlock_name_table]
    · split at h
      · cases h
        simp only [mutex_unlock_name_table]
      · cases h
        simp only
        apply addr_of_register_after <;> rfl

theorem register_file_descriptor_addr (k : notify_consts) (open_path : cstring → Int)
    (ns : notify_state_t) (nm name : cstring) (task : Nat) (path : cstring)
    (token uid gid tok : Nat) (r : status_t × notify_state_t × Nat)
    (h : _notify_lib_register_file_descriptor k open_path ns nm task path token uid gid tok
      = some r) :
    addr_step (fresh_addr ns) nm name (addr_of ns.name_table name)
      (addr_of r.2.1.name_table name) := by
  apply addr_step_find_or_new k ns nm
  unfold _notify_lib_register_file_descriptor at h
  simp only at h
  split at h
  · cases h
  · split at h
    · cases h
      simp only [mutex_unlock_name_table]
    · split at h
      · cases h
        rfl
      · cases h
        simp only
        apply addr_of_register_after <;> rfl

theorem register_mach_port_addr (k : notify_consts) (ns : notify_state_t) (nm name : cstring)
    (task port token uid gid tok : Nat) (r : status_t × notify_state_t × Nat)
    (h : _notify_lib_register_mach_port k ns nm task port token uid gid tok = some r) :
    addr_step (fresh_addr ns) nm name (addr_of ns.name_table name)
      (addr_of r.2.1.name_table name) := by
  apply addr_step_find_or_new k ns nm
  unfold _notify_lib_register_mach_port at h
  simp only at h
  split at h
  · cases h
  · split at h
    · cases h
      simp only [mutex_unlock_name_table]
    · cases h
      simp only
      apply addr_of_register_after <;> rfl

theorem internal_cancel_addr (ns ns1 : notify_state_t) (cid : Nat) (name : cstring)
    (h : _internal_cancel ns cid = some ns1) :
    addr_of ns1.name_table name = none ∨
      addr_of ns1.name_table name = addr_of ns.name_table name := by
  unfold _internal_cancel at h
  by_cases h0 : cid = 0
  · rw [if_pos h0] at h; cases h; exact Or.inr rfl
  · rw [if_neg h0] at h
    cases hc : _nc_table_find_n ns.client_table cid with
    | none => rw [hc] at h; cases h; exact Or.inr rfl
    | some c =>
      rw [hc] at h
      cases hnp : c.info.name_info with
      | none => simp only [hnp] at h; cases h; exact Or.inr rfl
      | some np =>
        simp only [hnp] at h
        cases hn : _nc_table_find ns.name_table np with
        | none => simp only [hn] at h; cases h
        | some n =>
          simp only [hn] at h
          have hname : n.name = np := find_name_eq _ _ _ hn
          have hstore : ∀ m : name_info_t, m.name = n.name → m.addr = n.addr →
              addr_of (name_store ns.name_table m) name = addr_of ns.name_table name := by
            intro m hm hv
            apply addr_of_name_store
            intro m0 hm0
            rw [hm, hname, hn] at hm0
            cases hm0
            exact hv.symm
          by_cases hz : (n.refcount + 2 ^ 32 - 1) % 2 ^ 32 = 0
          · rw [if_pos hz] at h
            cases h
            simp only [client_release_name_table]
            rcases addr_of_delete (name_store ns.name_table
                { n with refcount := (n.refcount + 2 ^ 32 - 1) % 2 ^ 32,
                         client_list := _nc_list_find_release n.client_list c.client_id })
                n.name name with e | e
            · exact Or.inl e
            · right
              rw [e]
              exact hstore _ rfl rfl
          · rw [if_neg hz] at h
            cases h
            right
            simp only [client_release_name_table]
            exact hstore _ rfl rfl

theorem session_cancel_all_addr (name : cstring) (l : List Nat) :
    ∀ ns ns1 : notify_state_t, session_cancel_all ns l = some ns1 →
      addr_of ns1.name_table name = none ∨
        addr_of ns1.name_table name = addr_of ns.name_table name := by
  induction l with
  | nil => intro ns ns1 h; simp [session_cancel_all] at h; rw [← h]; exact Or.inr rfl
  | cons cid rest ih =>
    intro ns ns1 h
    simp only [session_cancel_all] at h
    split at h
    · cases h
    · rename_i ns2 h2
      rcases ih ns2 ns1 h with e | e
      · exact Or.inl e
      · rcases internal_cancel_addr ns ns2 cid name h2 with e2 | e2
        · left; rw [e, e2]
        · right; rw [e, e2]

theorem release_name_addr (ns : notify_state_t) (nm name : cstring) (uid gid : Nat)
    (r : status_t × notify_state_t) (h : _notify_lib_release_name ns nm uid gid = some r) :
    addr_of r.2.name_table name = none ∨
      addr_of r.2.name_table name = addr_of ns.name_table name := by
  unfold _notify_lib_release_name at h
  simp only at h
  cases hn : _nc_table_find (mutex_lock ns).name_table nm with
  | none =>
    rw [hn] at h
    cases h
    right
    simp only [mutex_unlock_name_table, mutex_lock_name_table]
  | some n =>
    rw [hn] at h
    simp only at h
    have hname : n.name = nm := find_name_eq _ _ _ hn
    have hstore : addr_of (name_store (mutex_lock ns).name_table
          { n with refcount := (n.refcount + 2 ^ 32 - 1) % 2 ^ 32 }) name
        = addr_of ns.name_table name := by
      rw [addr_of_name_store, mutex_lock_name_table]
      intro m0 hm0
      simp only at hm0
      rw [hname, hn] at hm0
      cases hm0
      rfl
    split at h
    · cases h
      right
      simp only [mutex_unlock_name_table, mutex_lock_name_table]
    · split at h
      · cases h
        simp only [mutex_unlock_name_table]
        rcases addr_of_delete (name_store (mutex_lock ns).name_table
            { n with refcount := (n.refcount + 2 ^ 32 - 1) % 2 ^ 32 }) n.name name with e | e
        · exact Or.inl e
        · right
          rw [e]
          exact hstore
      · cases h
        right
        simp only [mutex_unlock_name_table]
        exact hstore

/-- The address of a name after _internal_new_name. -/
theorem addr_of_new_name (k : notify_consts) (s : notify_state_t) (nm name : cstring)
    (h : _nc_table_find s.name_table nm = none) :
    addr_step (fresh_addr s) nm name (addr_of s.name_table name)
      (addr_of (_internal_new_name k s nm).1.name_table name) := by
  unfold addr_of
  by_cases hk : nm = name
  · right; right
    subst hk
    simp [_internal_new_name, _nc_table_insert, _nc_table_find, h]
  · right; left
    simp [_internal_new_name, _nc_table_insert, _nc_table_find, hk]

theorem set_owner_addr (k : notify_consts) (ns : notify_state_t) (nm name : cstring)
    (uid gid : Nat) (r : status_t × notify_state_t)
    (h : _notify_lib_set_owner k ns nm uid gid = some r) :
    addr_step (fresh_addr ns) nm name (addr_of ns.name_table name)
      (addr_of r.2.name_table name) := by
  unfold _notify_lib_set_owner at h
  simp only at h
  cases hn : _nc_table_find (mutex_lock ns).name_table nm with
  | some n =>
    rw [hn] at h
    simp only at h
    have hname : n.name = nm := find_name_eq _ _ _ hn
    split at h
    · cases h
    · rename_i ns2 h2
      cases h
      have e := insert_controlled_name_name_table _ _ _ h2
      simp only [mutex_unlock_name_table, e]
      apply addr_step_of_eq
      rw [addr_of_name_store, mutex_lock_name_table]
      intro m0 hm0
      simp only at hm0
      rw [hname, hn] at hm0
      cases hm0
      rfl
  | none =>
    rw [hn] at h
    simp only at h
    split at h
    · cases h
    · rename_i ns2 h2
      cases h
      have e := insert_controlled_name_name_table _ _ _ h2
      simp only [mutex_unlock_name_table, e]
      have hnew := addr_of_new_name k (mutex_lock ns) nm name hn
      rw [mutex_lock_name_table,
        fresh_addr_congr ns (mutex_lock ns) (by simp) (by simp)] at hnew
      have hfind : _nc_table_find (_internal_new_name k (mutex_lock ns) nm).1.name_table nm
          = some (_internal_new_name k (mutex_lock ns) nm).2 := by
        simp [_internal_new_name, _nc_table_insert, _nc_table_find]
      rw [name_store_name_store _ _ _ (by rfl), addr_of_name_store]
      · exact hnew
      · intro m0 hm0
        have hm1 : _nc_table_find (_internal_new_name k (mutex_lock ns) nm).1.name_table nm
            = some m0 := hm0
        rw [hfind] at hm1
        cases hm1
        rfl

theorem set_access_addr (k : notify_consts) (ns : notify_state_t) (nm name : cstring)
    (mode : Nat) (r : status_t × notify_state_t)
    (h : _notify_lib_set_access k ns nm mode = some r) :
    addr_step (fresh_addr ns) nm name (addr_of ns.name_table name)
      (addr_of r.2.name_table name) := by
  unfold _notify_lib_set_access at h
  simp only at h
  cases hn : _nc_table_find (mutex_lock ns).name_table nm with
  | some n =>
    rw [hn] at h
    simp only at h
    have hname : n.name = nm := find_name_eq _ _ _ hn
    split at h
    · cases h
    · rename_i ns2 h2
      cases h
      have e := insert_controlled_name_name_table _ _ _ h2
      simp only [mutex_unlock_name_table, e]
      apply addr_step_of_eq
      rw [addr_of_name_store, mutex_lock_name_table]
      intro m0 hm0
      simp only at hm0
      rw [hname, hn] at hm0
      cases hm0
      rfl
  | none =>
    rw [hn] at h
    simp only at h
    split at h
    · cases h
    · rename_i ns2 h2
      cases h
      have e := insert_controlled_name_name_table _ _ _ h2
      simp only [mutex_unlock_name_table, e]
      have hnew := addr_of_new_name k (mutex_lock ns) nm name hn
      rw [mutex_lock_name_table,
        fresh_addr_congr ns (mutex_lock ns) (by simp) (by simp)] at hnew
      have hfind : _nc_table_find (_internal_new_name k (mutex_lock ns) nm).1.name_table nm
          = some (_internal_new_name k (mutex_lock ns) nm).2 := by
        simp [_internal_new_name, _nc_table_insert, _nc_table_find]
      rw [name_store_name_store _ _ _ (by rfl), addr_of_name_store]
      · exact hnew
      · intro m0 hm0
        have hm1 : _nc_table_find (_internal_new_name k (mutex_lock ns) nm).1.name_table nm
            = some m0 := hm0
        rw [hfind] at hm1
        cases hm1
        rfl

theorem set_state_addr (k : notify_consts) (ns : notify_state_t) (cid state uid gid : Nat)
    (name : cstring) (r : status_t × notify_state_t)
    (h : _notify_lib_set_state k ns cid state uid gid = some r) :
    addr_of r.2.name_table name = addr_of ns.name_table name := by
  unfold _notify_lib_set_state at h
  by_cases h0 : cid = 0
  · rw [if_pos h0] at h; cases h; rfl
  · rw [if_neg h0] at h
    simp only at h
    split at h
    · cases h; simp only [mutex_unlock_name_table, mutex_lock_name_table]
    · split at h
      · cases h; simp only [mutex_unlock_name_table, mutex_lock_name_table]
      · rename_i np _
        split at h
        · cases h
        · rename_i n hn
          have hname : n.name = np := find_name_eq _ _ _ hn
          split at h
          · cases h
          · split at h
            · cases h; simp only [mutex_unlock_name_table, mutex_lock_name_table]
            · cases h
              simp only [mutex_unlock_name_table]
              rw [addr_of_name_store, mutex_lock_name_table]
              intro m0 hm0
              simp only at hm0
              rw [hname, hn] at hm0
              cases hm0
              rfl

theorem set_val_addr (k : notify_consts) (ns : notify_state_t) (cid : Nat) (v : Int)
    (uid gid : Nat) (name : cstring) (r : status_t × notify_state_t)
    (h : _notify_lib_set_val k ns cid v uid gid = some r) :
    addr_of r.2.name_table name = addr_of ns.name_table name := by
  unfold _notify_lib_set_val at h
  by_cases h0 : cid = 0
  · rw [if_pos h0] at h; cases h; rfl
  · rw [if_neg h0] at h
    simp only at h
    split at h
    · cases h; simp only [mutex_unlock_name_table, mutex_lock_name_table]
    · split at h
      · cases h; simp only [mutex_unlock_name_table, mutex_lock_name_table]
      · rename_i np _
        split at h
        · cases h
        · rename_i n hn
          have hname : n.name = np := find_name_eq _ _ _ hn
          split at h
          · cases h
          · split at h
            · cases h; simp only [mutex_unlock_name_table, mutex_lock_name_table]
            · cases h
              simp only [mutex_unlock_name_table]
              rw [addr_of_name_store, mutex_lock_name_table]
              intro m0 hm0
              simp only at hm0
              rw [hname, hn] at hm0
              cases hm0
              rfl

theorem post_addr (k : notify_consts) (wr : Nat → Bool) (ns : notify_state_t)
    (nm name : cstring) (uid gid : Nat) (r : status_t × notify_state_t × List delivery_t)
    (h : _notify_lib_post k wr ns nm uid gid = some r) :
    addr_of r.2.1.name_table name = addr_of ns.name_table name := by
  unfold _notify_lib_post at h
  simp only at h
  split at h
  · cases h
    simp only [mutex_unlock_name_table, mutex_lock_name_table]
  · rename_i n hn
    rw [mutex_lock_name_table] at hn
    have hname : n.name = nm := find_name_eq _ _ _ hn
    split at h
    · cases h
    · split at h
      · cases h
        simp only [mutex_unlock_name_table, mutex_lock_name_table]
      · split at h
        · cases h
        · cases h
          simp only [mutex_unlock_name_table]
          rw [addr_of_name_store, mutex_lock_name_table]
          intro m0 hm0
          simp only at hm0
          rw [mutex_lock_name_table, hname, hn] at hm0
          cases hm0
          rfl


/-- What a public operation does to the addresses of the name records: for some name nm,
every name keeps the address of its record, or is absent afterwards, or is nm, was absent
and has its record at the fresh address. -/
theorem op_step_addr (k : notify_consts) (o : op_t) (ns ns1 : notify_state_t)
    (h : op_step k o ns = some ns1) :
    ∃ nm, ∀ name, addr_step (fresh_addr ns) nm name (addr_of ns.name_table name)
      (addr_of ns1.name_table name) := by
  cases o with
  | register_plain nm task slot uid gid tok =>
    obtain ⟨r, hr, rfl⟩ := Option.map_eq_some'.mp h
    exact ⟨nm, fun name => register_plain_addr k ns nm name task slot uid gid tok r hr⟩
  | register_signal pid_for_task nm task sig uid gid tok =>
    obtain ⟨r, hr, rfl⟩ := Option.map_eq_some'.mp h
    exact ⟨nm, fun name =>
      register_signal_addr k pid_for_task ns nm name task sig uid gid tok r hr⟩
  | register_file_descriptor open_path nm task path token uid gid tok =>
    obtain ⟨r, hr, rfl⟩ := Option.map_eq_some'.mp h
    exact ⟨nm, fun name =>
      register_file_descriptor_addr k open_path ns nm name task path token uid gid tok r hr⟩
  | register_mach_port nm task port token uid gid tok =>
    obtain ⟨r, hr, rfl⟩ := Option.map_eq_some'.mp h
    exact ⟨nm, fun name =>
      register_mach_port_addr k ns nm name task port token uid gid tok r hr⟩
  | cancel cid =>
    refine ⟨[], fun name => ?_⟩
    simp only [op_step] at h
    unfold _notify_lib_cancel at h
    split at h
    · cases h
    · rename_i ns2 h2
      cases h
      have := internal_cancel_addr _ ns2 cid name h2
      rw [mutex_lock_name_table] at this
      rw [mutex_unlock_name_table]
      exact addr_step_of_deleted _ _ _ _ _ this
  | cancel_session t =>
    refine ⟨[], fun name => ?_⟩
    simp only [op_step] at h
    unfold _notify_lib_cancel_session at h
    simp only at h
    split at h
    · cases h
    · split at h
      · cases h
      · rename_i ns2 h2
        cases h
        have := session_cancel_all_addr name _ _ ns2 h2
        rw [mutex_lock_name_table] at this
        rw [mutex_unlock_name_table]
        exact addr_step_of_deleted _ _ _ _ _ this
  | post wr nm uid gid =>
    obtain ⟨r, hr, rfl⟩ := Option.map_eq_some'.mp h
    exact ⟨[], fun name => addr_step_of_eq _ _ _ _ _ (post_addr k wr ns nm name uid gid r hr)⟩
  | check cid check =>
    refine ⟨[], fun name => addr_step_of_eq _ _ _ _ _ ?_⟩
    obtain ⟨r, hr, rfl⟩ := Option.map_eq_some'.mp h
    unfold _notify_lib_check at hr
    simp only at hr
    split at hr
    · cases hr; rfl
    · split at hr
      · cases hr; simp
      · split at hr
        · cases hr; simp
        · split at hr
          · cases hr
          · split at hr
            · cases hr; simp
            · cases hr; simp
  | peek cid val =>
    refine ⟨[], fun name => addr_step_of_eq _ _ _ _ _ ?_⟩
    obtain ⟨r, hr, rfl⟩ := Option.map_eq_some'.mp h
    unfold _notify_lib_peek at hr
    simp only at hr
    split at hr
    · cases hr; rfl
    · split at hr
      · cases hr; simp
      · split at hr
        · cases hr; simp
        · split at hr
          · cases hr
          · cases hr; simp
  | get_state cid =>
    refine ⟨[], fun name => addr_step_of_eq _ _ _ _ _ ?_⟩
    obtain ⟨r, hr, rfl⟩ := Option.map_eq_some'.mp h
    unfold _notify_lib_get_state at hr
    simp only at hr
    split at hr
    · cases hr; rfl
    · split at hr
      · cases hr; simp
      · split at hr
        · cases hr; simp
        · split at hr
          · cases hr
          · cases hr; simp
  | set_state cid state uid gid =>
    obtain ⟨r, hr, rfl⟩ := Option.map_eq_some'.mp h
    exact ⟨[], fun name =>
      addr_step_of_eq _ _ _ _ _ (set_state_addr k ns cid state uid gid name r hr)⟩
  | get_val cid =>
    refine ⟨[], fun name => addr_step_of_eq _ _ _ _ _ ?_⟩
    obtain ⟨r, hr, rfl⟩ := Option.map_eq_some'.mp h
    unfold _notify_lib_get_val at hr
    simp only at hr
    split at hr
    · cases hr; rfl
    · split at hr
      · cases hr; simp
      · split at hr
        · cases hr; simp
        · split at hr
          · cases hr
          · cases hr; simp
  | set_val cid val uid gid =>
    obtain ⟨r, hr, rfl⟩ := Option.map_eq_some'.mp h
    exact ⟨[], fun name =>
      addr_step_of_eq _ _ _ _ _ (set_val_addr k ns cid val uid gid name r hr)⟩
  | set_owner nm uid gid =>
    obtain ⟨r, hr, rfl⟩ := Option.map_eq_some'.mp h
    exact ⟨nm, fun name => set_owner_addr k ns nm name uid gid r hr⟩
  | get_owner nm =>
    refine ⟨[], fun name => addr_step_of_eq _ _ _ _ _ ?_⟩
    obtain ⟨r, hr, rfl⟩ := Option.map_eq_some'.mp h
    unfold _notify_lib_get_owner at hr
    simp only at hr
    split at hr
    · cases hr; simp
    · split at hr
      · cases hr
      · cases hr
        split <;> simp
      · cases hr; simp
  | set_access nm mode =>
    obtain ⟨r, hr, rfl⟩ := Option.map_eq_some'.mp h
    exact ⟨nm, fun name => set_access_addr k ns nm name mode r hr⟩
  | get_access nm =>
    refine ⟨[], fun name => addr_step_of_eq _ _ _ _ _ ?_⟩
    obtain ⟨r, hr, rfl⟩ := Option.map_eq_some'.mp h
    unfold _notify_lib_get_access at hr
    simp only at hr
    split at hr
    · cases hr; simp
    · split at hr
      · cases hr
      · cases hr; simp
      · cases hr; simp
  | release_name nm uid gid =>
    obtain ⟨r, hr, rfl⟩ := Option.map_eq_some'.mp h
    exact ⟨[], fun name =>
      addr_step_of_deleted _ _ _ _ _ (release_name_addr ns nm name uid gid r hr)⟩

/-- The entries of the list that the insertion loop returns are the new pointer and the
entries of the list. -/
theorem controlled_insert_mem (ns : notify_state_t) (n : name_ptr) :
    ∀ l l2 : List name_ptr, controlled_insert ns n l = some l2 →
      ∀ x ∈ l2, x = n ∨ x ∈ l := by
  intro l
  induction l with
  | nil =>
    intro l2 h x hx
    simp only [controlled_insert, Option.some.injEq] at h
    subst h
    exact Or.inl (List.mem_singleton.mp hx)
  | cons q rest ih =>
    intro l2 h x hx
    simp only [controlled_insert] at h
    split at h
    · cases h
    · split at h
      · cases h
        rcases List.mem_cons.mp hx with e | hx
        · exact Or.inl e
        · exact Or.inr hx
      · split at h
        · cases h
        · rename_i l3 h3
          cases h
          rcases List.mem_cons.mp hx with e | hx
          · exact Or.inr (by rw [e]; exact List.mem_cons_self _ _)
          · rcases ih l3 h3 x hx with e | hm
            · exact Or.inl e
            · exact Or.inr (List.mem_cons_of_mem _ hm)

/-- An entry of the controlled-name list after the insertion of a pointer that designates
a record is an entry of the list before, or that pointer, which has the address of the
record that a lookup of its name finds. -/
theorem insert_controlled_name_mem (ns ns1 : notify_state_t) (n : name_ptr)
    (r : name_info_t) (hn : name_deref ns.name_table n = some r)
    (h : _internal_insert_controlled_name ns n = some ns1) :
    ∀ q ∈ ns1.controlled_name,
      q ∈ ns.controlled_name ∨ addr_of ns1.name_table q.name = some q.addr := by
  intro q hq
  have ht := insert_controlled_name_name_table _ _ _ h
  have hself : addr_of ns1.name_table n.name = some n.addr := by
    rw [ht]
    obtain ⟨h1, _, h3⟩ := name_deref_some _ _ _ hn
    unfold addr_of
    rw [h1, ← h3]
    rfl
  unfold _internal_insert_controlled_name at h
  by_cases hm : n ∈ ns.controlled_name
  · simp only [if_pos hm] at h
    cases h
    exact Or.inl hq
  · simp only [if_neg hm] at h
    split at h
    · cases h
    · rename_i l hl
      cases h
      rcases controlled_insert_mem _ _ _ _ hl q hq with e | hmem
      · right
        rw [e]
        exact hself
      · exact Or.inl hmem

/-- An entry of the controlled-name list after a public operation is an entry of the list
before, or the pointer to a record that a lookup of its name finds. -/
theorem op_step_controlled_ptr (k : notify_consts) (o : op_t) (ns ns1 : notify_state_t)
    (h : op_step k o ns = some ns1) :
    ∀ q ∈ ns1.controlled_name,
      q ∈ ns.controlled_name ∨ addr_of ns1.name_table q.name = some q.addr := by
  rcases op_step_controlled_name k o ns ns1 h with
    e | ⟨name, uid, gid, rfl⟩ | ⟨name, mode, rfl⟩ | ⟨name, uid, gid, rfl⟩
  · intro q hq
    rw [e] at hq
    exact Or.inl hq
  · obtain ⟨r, hr, rfl⟩ := Option.map_eq_some'.mp h
    revert hr
    unfold _notify_lib_set_owner
    simp only
    cases hfind : _nc_table_find (mutex_lock ns).name_table name with
    | some n =>
      simp only
      intro hr
      split at hr
      · cases hr
      · rename_i ns2 h2
        cases hr
        intro q hq
        rw [mutex_unlock_controlled_name] at hq
        rw [mutex_unlock_name_table]
        have hs : (_nc_table_find (mutex_lock ns).name_table
            ({ n with uid := uid, gid := gid } : name_info_t).name).isSome = true := by
          show (_nc_table_find (mutex_lock ns).name_table n.name).isSome = true
          rw [find_name_eq _ _ _ hfind, hfind]
          rfl
        have := insert_controlled_name_mem _ ns2 _ _ (name_deref_store_self _ _ hs) h2 q hq
        rw [mutex_lock_controlled_name] at this
        exact this
    | none =>
      simp only
      intro hr
      split at hr
      · cases hr
      · rename_i ns2 h2
        cases hr
        intro q hq
        rw [mutex_unlock_controlled_name] at hq
        rw [mutex_unlock_name_table]
        have := insert_controlled_name_mem _ ns2 _ _ (name_deref_store_self _ _
          (by simp [find_name_store, _internal_new_name, _nc_table_insert, _nc_table_find]))
          h2 q hq
        simpa [_internal_new_name] using this
  · obtain ⟨r, hr, rfl⟩ := Option.map_eq_some'.mp h
    revert hr
    unfold _notify_lib_set_access
    simp only
    cases hfind : _nc_table_find (mutex_lock ns).name_table name with
    | some n =>
      simp only
      intro hr
      split at hr
      · cases hr
      · rename_i ns2 h2
        cases hr
        intro q hq
        rw [mutex_unlock_controlled_name] at hq
        rw [mutex_unlock_name_table]
        have hs : (_nc_table_find (mutex_lock ns).name_table
            ({ n with access := mode } : name_info_t).name).isSome = true := by
          show (_nc_table_find (mutex_lock ns).name_table n.name).isSome = true
          rw [find_name_eq _ _ _ hfind, hfind]
          rfl
        have := insert_controlled_name_mem _ ns2 _ _ (name_deref_store_self _ _ hs) h2 q hq
        rw [mutex_lock_controlled_name] at this
        exact this
    | none =>
      simp only
      intro hr
      split at hr
      · cases hr
      · rename_i ns2 h2
        cases hr
        intro q hq
        rw [mutex_unlock_controlled_name] at hq
        rw [mutex_unlock_name_table]
        have := insert_controlled_name_mem _ ns2 _ _ (name_deref_store_self _ _
          (by simp [find_name_store, _internal_new_name, _nc_table_insert, _nc_table_find]))
          h2 q hq
        simpa [_internal_new_name] using this
  · obtain ⟨r, hr, rfl⟩ := Option.map_eq_some'.mp h
    intro q hq
    left
    have hsub : ∀ n : name_ptr, ∀ x ∈ controlled_remove n (mutex_lock ns).controlled_name,
        x ∈ ns.controlled_name := by
      intro n x hx
      have := (controlled_remove_sublist n _).subset hx
      rw [mutex_lock_controlled_name] at this
      exact this
    unfold _notify_lib_release_name at hr
    simp only at hr
    split at hr
    · cases hr; simpa using hq
    · split at hr
      · cases hr; simpa using hq
      · split at hr
        · cases hr
          rw [mutex_unlock_controlled_name] at hq
          exact hsub _ q hq
        · cases hr
          rw [mutex_unlock_controlled_name] at hq
          exact hsub _ q hq

/-- In every registry reachable by public operations, the address of a record of the
name table determines its name, and a pointer of the controlled-name list with the
address of a record of the name table has the name of that record. -/
theorem addr_inv_reachable (k : notify_consts) (ns : notify_state_t)
    (h : reachable k any_op ns) : addr_inv ns := by
  induction h with
  | new flags =>
    constructor
    · intro name1 name2 a h1 _
      simp [addr_of, _notify_lib_notify_state_new, _nc_table_find] at h1
    · intro q hq
      simp [_notify_lib_notify_state_new] at hq
  | step ns ns1 o _ _ hstep ih =>
    obtain ⟨nm, hA⟩ := op_step_addr k o ns ns1 hstep
    have hB := op_step_controlled_ptr k o ns ns1 hstep
    obtain ⟨j1, j2⟩ := ih
    have hold : ∀ name a, addr_of ns1.name_table name = some a →
        addr_of ns.name_table name = some a ∨ (name = nm ∧ a = fresh_addr ns) := by
      intro name a ha
      rcases hA name with e | e | ⟨_, e2, e3⟩
      · rw [e] at ha; cases ha
      · left; rw [← e]; exact ha
      · right
        rw [e3] at ha
        exact ⟨e2, (Option.some.inj ha).symm⟩
    have hj1 : ∀ name1 name2 a, addr_of ns1.name_table name1 = some a →
        addr_of ns1.name_table name2 = some a → name1 = name2 := by
      intro name1 name2 a h1 h2
      rcases hold name1 a h1 with o1 | ⟨n1, f1⟩
      · rcases hold name2 a h2 with o2 | ⟨n2, f2⟩
        · exact j1 name1 name2 a o1 o2
        · have := addr_of_lt_fresh ns name1 a o1
          omega
      · rcases hold name2 a h2 with o2 | ⟨n2, f2⟩
        · have := addr_of_lt_fresh ns name2 a o2
          omega
        · rw [n1, n2]
    refine ⟨hj1, ?_⟩
    intro q hq name hname
    rcases hB q hq with hq0 | hq1
    · rcases hold name q.addr hname with o1 | ⟨_, f1⟩
      · exact j2 q hq0 name o1
      · have := (fresh_addr_fresh ns).2 q hq0
        omega
    · exact hj1 q.name name q.addr hq1 hname

/-- In a registry reachable by public operations, a pointer of the controlled-name list
is the pointer to a record that a lookup finds exactly when it has the address of that
record: the comparison of two pointers is the comparison of their addresses. -/
theorem pointer_eq_iff_addr_eq (k : notify_consts) (ns : notify_state_t)
    (h : reachable k any_op ns) (key : cstring) (n : name_info_t)
    (hn : _nc_table_find ns.name_table key = some n) (q : name_ptr)
    (hq : q ∈ ns.controlled_name) : q = ptr_of n ↔ q.addr = n.addr := by
  constructor
  · intro e; rw [e]; rfl
  · intro e
    have hname := find_name_eq _ _ _ hn
    have ha : addr_of ns.name_table key = some q.addr := by
      unfold addr_of
      rw [hn, e]
      rfl
    have := (addr_inv_reachable k ns h).2 q hq key ha
    cases q
    simp only [ptr_of] at *
    subst this; subst e
    rw [hname]

end Libnotify
